import Mathlib

/-!
Verification of the `nodewire` template/compiler/runtime subsystem.

The development shallowly embeds the string-rewriting template pipeline of
`src/lib/blade/BladeParser.ts` (second revision in the file, the one used by
`BladeEngine`), the template compiler of `BladeCompiler` together with the
JavaScript semantics of the renderer code it generates, and the component
runtime of `src/lib/nodewire/NodeWireManager.ts` and
`src/lib/nodewire/Component.ts` (`src/unnamed/part_002`).

Template text is modelled as `List Char`.  Every JavaScript global-regex
replace (`String.replace(/re/g, f)`) is modelled by a left-to-right,
non-overlapping scanner (`scanRepl`) whose matcher mirrors the regular
expression of the corresponding pass, including greediness and backtracking
where those are observable.
-/

set_option maxHeartbeats 1000000
set_option maxRecDepth 20000

namespace NodeWire

/-- Template text: JavaScript strings modelled as lists of characters. -/
abbrev Str := List Char

/-- `hasSub pat s` is true iff `pat` occurs as a contiguous substring of `s`
(JavaScript `s.includes(pat)` / `regex.test` for a literal pattern). -/
def hasSub (pat : Str) : Str → Bool
  | [] => pat.isPrefixOf ([] : Str)
  | c :: rest => pat.isPrefixOf (c :: rest) || hasSub pat rest

theorem hasSub_infix_iff (pat s : Str) : hasSub pat s = true ↔ pat <:+: s := by
  induction s with
  | nil =>
    simp only [hasSub, List.isPrefixOf_iff_prefix]
    exact ⟨fun h => h.isInfix, fun h => by simp_all [List.infix_nil]⟩
  | cons c rest ih =>
    simp only [hasSub, Bool.or_eq_true, ih, List.isPrefixOf_iff_prefix]
    constructor
    · rintro (h | h)
      · exact h.isInfix
      · exact List.infix_cons h
    · rintro ⟨t, u, hc⟩
      cases t with
      | nil => left; exact ⟨u, by simpa using hc⟩
      | cons a t2 =>
        right
        simp only [List.cons_append] at hc
        injection hc with h1 h2
        exact ⟨t2, u, h2⟩

/-- First index at which `pat` occurs in `s` (JavaScript `s.indexOf(pat)`),
`none` when it does not occur. -/
def findSub (pat : Str) : Str → Option Nat
  | [] => if pat.isPrefixOf ([] : Str) then some 0 else none
  | c :: rest =>
    if pat.isPrefixOf (c :: rest) then some 0
    else (findSub pat rest).map (· + 1)

/-- Last index at which `pat` occurs in `s` (JavaScript `s.lastIndexOf(pat)`),
`none` when it does not occur (JavaScript returns `-1`). -/
def lastSub (pat : Str) (s : Str) : Option Nat :=
  ((List.range (s.length + 1)).filter (fun i => pat.isPrefixOf (s.drop i))).getLast?

/-- JavaScript `String.prototype.replace` with a plain-string pattern:
replaces the first occurrence only.  (None of the replacement strings used by
the source contain the special `$` substitution patterns.) -/
def replaceFirst (s pat repl : Str) : Str :=
  match findSub pat s with
  | none => s
  | some i => s.take i ++ repl ++ s.drop (i + pat.length)

/-- ASCII fragment of JavaScript `\s` — the only whitespace the embedded
templates contain. -/
def isWsC (c : Char) : Bool := c == ' ' || c == '\n' || c == '\t' || c == '\r'

/-- JavaScript `\w`: ASCII letters, digits and underscore. -/
def isWordC (c : Char) : Bool := c.isAlpha || c.isDigit || c == '_'

/-- ASCII letter (JavaScript `[a-zA-Z]`). -/
def isAlphaC (c : Char) : Bool := c.isAlpha

/-- JavaScript `String.prototype.trim` (ASCII fragment). -/
def trimL (s : Str) : Str := s.dropWhile isWsC

/-- Right counterpart of `trimL`. -/
def trimR (s : Str) : Str := (s.reverse.dropWhile isWsC).reverse

/-- JavaScript `s.trim()`. -/
def trimS (s : Str) : Str := trimR (trimL s)

/-- Expect the literal `lit` as a prefix and return the remainder. -/
def expectS (lit : Str) (s : Str) : Option Str :=
  if lit.isPrefixOf s then some (s.drop lit.length) else none

/--
Left-to-right, non-overlapping scan-and-replace: the generic shape of every
JavaScript global regex replace `content.replace(/…/g, …)` in the source.
`tryM` attempts a match at the current position and returns the replacement
together with the remainder of the input after the match.  The length guard
in the match branch serves only to justify termination; every matcher used in
this development consumes at least one character whenever it fires, so the
guard is always true in practice.
-/
def scanReplF (tryM : Str → Option (Str × Str)) : Nat → Str → Str
  | _, [] => []
  | 0, s => s
  | fuel + 1, c :: rest =>
    match tryM (c :: rest) with
    | some (repl, after) =>
      if after.length < rest.length + 1 then repl ++ scanReplF tryM fuel after
      else c :: scanReplF tryM fuel rest
    | none => c :: scanReplF tryM fuel rest

/-- The scanner proper: fuel `s.length` is always sufficient because every
step either copies one character or (guarded) strictly shrinks the input. -/
def scanRepl (tryM : Str → Option (Str × Str)) (s : Str) : Str :=
  scanReplF tryM s.length s

theorem scanReplF_fuel (tryM : Str → Option (Str × Str)) :
    ∀ f s, s.length ≤ f → scanReplF tryM f s = scanRepl tryM s := by
  intro f
  induction f using Nat.strong_induction_on with
  | _ f ih =>
    intro s hs
    match f, s with
    | 0, [] => rfl
    | g + 1, [] => rfl
    | 0, c :: rest => simp at hs
    | g + 1, c :: rest =>
      simp only [List.length_cons] at hs
      show scanReplF tryM (g + 1) (c :: rest) =
        scanReplF tryM (rest.length + 1) (c :: rest)
      rw [scanReplF, scanReplF]
      cases hm : tryM (c :: rest) with
      | none =>
        simp only []
        rw [ih g (by omega) rest (by omega)]
        rw [show scanReplF tryM rest.length rest = scanRepl tryM rest from rfl]
      | some p =>
        rcases p with ⟨repl, after⟩
        simp only []
        by_cases hg : after.length < rest.length + 1
        · simp only [hg, if_true]
          rw [ih g (by omega) after (by omega)]
          rw [ih rest.length (by omega) after (by omega)]
        · simp only [hg, if_false]
          rw [ih g (by omega) rest (by omega)]
          rw [show scanReplF tryM rest.length rest = scanRepl tryM rest from rfl]

theorem scanRepl_copy (tryM : Str → Option (Str × Str)) (c : Char) (t : Str)
    (h : tryM (c :: t) = none) :
    scanRepl tryM (c :: t) = c :: scanRepl tryM t := by
  show scanReplF tryM (t.length + 1) (c :: t) = _
  rw [scanReplF, h]
  rfl

theorem scanRepl_step (tryM : Str → Option (Str × Str)) (c : Char) (t r a : Str)
    (h : tryM (c :: t) = some (r, a)) (hlen : a.length ≤ t.length) :
    scanRepl tryM (c :: t) = r ++ scanRepl tryM a := by
  show scanReplF tryM (t.length + 1) (c :: t) = _
  rw [scanReplF, h]
  simp only [Nat.lt_succ_of_le hlen, if_true]
  rw [scanReplF_fuel tryM t.length a hlen]

/-- A matcher that can only fire when the head character is `bad` copies any
`bad`-free segment unchanged. -/
theorem scanRepl_seg (tryM : Str → Option (Str × Str)) (bad : Char → Bool)
    (hb : ∀ c t, bad c = false → tryM (c :: t) = none)
    (seg rest : Str) (hseg : seg.all (fun c => !bad c)) :
    scanRepl tryM (seg ++ rest) = seg ++ scanRepl tryM rest := by
  induction seg with
  | nil => rfl
  | cons c s ih =>
    simp only [List.all_cons, Bool.and_eq_true, Bool.not_eq_true'] at hseg
    rw [List.cons_append, scanRepl_copy tryM c (s ++ rest) (hb c _ hseg.1)]
    rw [ih (by simpa using hseg.2)]
    simp

/-- A matcher that can only fire on a `bad` head leaves a `bad`-free string
unchanged. -/
theorem scanRepl_all (tryM : Str → Option (Str × Str)) (bad : Char → Bool)
    (hb : ∀ c t, bad c = false → tryM (c :: t) = none)
    (s : Str) (hs : s.all (fun c => !bad c)) :
    scanRepl tryM s = s := by
  have h := scanRepl_seg tryM bad hb s [] hs
  simpa [scanRepl, scanReplF] using h

theorem length_dropWhile_le (p : Char → Bool) (l : List Char) :
    (l.dropWhile p).length ≤ l.length :=
  (List.dropWhile_suffix p).length_le

/-! ## Expression translation (`BladeParser.convertBladeExpression`,
`src/lib/blade/BladeParser.ts` lines 705-826 of the revision used by
`BladeEngine`; `convertCondition` at lines 828-832 delegates to it). -/

/-- The JavaScript reserved words the translator refuses to rewrite
(`jsKeywords`, line 709). -/
def jsKeywords : List Str :=
  ["true", "false", "null", "undefined", "this", "new", "typeof",
   "instanceof", "in", "of", "return", "if", "else", "for", "while", "do",
   "switch", "case", "break", "continue", "function", "var", "let",
   "const"].map String.toList

/-- Matcher for `/\$(\w+)/g` with replacement `data.$1` (line 712). -/
def tryDollarIdent (s : Str) : Option (Str × Str) :=
  match expectS ['$'] s with
  | none => none
  | some s1 =>
    let w := s1.takeWhile isWordC
    if w.isEmpty then none
    else some ("data.".toList ++ w, s1.dropWhile isWordC)

/-- Matcher for `/\$(\w+)->(\w+)/g` with replacement `data.$1.$2`
(line 715). -/
def tryDollarArrow (s : Str) : Option (Str × Str) :=
  match expectS ['$'] s with
  | none => none
  | some s1 =>
    let a := s1.takeWhile isWordC
    if a.isEmpty then none
    else
      match expectS "->".toList (s1.dropWhile isWordC) with
      | none => none
      | some s2 =>
        let b := s2.takeWhile isWordC
        if b.isEmpty then none
        else some ("data.".toList ++ a ++ '.' :: b, s2.dropWhile isWordC)

/-- Is `c` one of the quote characters of the character class `['"]`? -/
def isQuoteC (c : Char) : Bool := c == '\'' || c == '"'

/-- Negation of `isQuoteC`, the character class `[^'"]`. -/
def notQuoteC (c : Char) : Bool := !(isQuoteC c)

/-- Matcher for `/\$(\w+)\[['"](\w+)['"]\]/g` with replacement `data.$1.$2`
(line 716). -/
def tryDollarBracket (s : Str) : Option (Str × Str) :=
  match expectS ['$'] s with
  | none => none
  | some s1 =>
    let a := s1.takeWhile isWordC
    if a.isEmpty then none
    else
      match s1.dropWhile isWordC with
      | '[' :: q1 :: s2 =>
        if isQuoteC q1 then
          let b := s2.takeWhile isWordC
          if b.isEmpty then none
          else
            match s2.dropWhile isWordC with
            | q2 :: ']' :: s3 =>
              if isQuoteC q2 then some ("data.".toList ++ a ++ '.' :: b, s3)
              else none
            | _ => none
        else none
      | _ => none

/-- Matcher for `/\$(\w+)->(\w+)\(\)/g` with replacement `data.$1.$2()`
(line 719; in practice dead because line 715 already rewrote every
`$a->b`). -/
def tryDollarArrowCall (s : Str) : Option (Str × Str) :=
  match expectS ['$'] s with
  | none => none
  | some s1 =>
    let a := s1.takeWhile isWordC
    if a.isEmpty then none
    else
      match expectS "->".toList (s1.dropWhile isWordC) with
      | none => none
      | some s2 =>
        let b := s2.takeWhile isWordC
        if b.isEmpty then none
        else
          match expectS "()".toList (s2.dropWhile isWordC) with
          | none => none
          | some s3 => some ("data.".toList ++ a ++ '.' :: b ++ "()".toList, s3)

/-- A collected text replacement: `{ start, end, replacement }` from the
source (`replacements` array). -/
structure Repl3 where
  start : Nat
  stop : Nat
  repl : Str
deriving Repr, DecidableEq

/-- `isOverlapping` (lines 727-733), verbatim three-disjunct range test. -/
def rangesOverlap (rs : List (Nat × Nat)) (a b : Nat) : Bool :=
  rs.any (fun r =>
    (decide (a ≥ r.1) && decide (a < r.2)) ||
    (decide (b > r.1) && decide (b ≤ r.2)) ||
    (decide (a ≤ r.1) && decide (b ≥ r.2)))

/-- Parse `[a-zA-Z_][a-zA-Z0-9_]*` at the head of `s`. -/
def parseIdentAt (s : Str) : Option (Str × Str) :=
  match s with
  | c :: rest =>
    if isAlphaC c || c == '_' then
      some (c :: rest.takeWhile isWordC, rest.dropWhile isWordC)
    else none
  | [] => none

/-- Greedily parse `(\.[a-zA-Z_][a-zA-Z0-9_]*)*` at the head of `s`,
returning (matched text, rest). -/
def chainTailF : Nat → Str → Str × Str
  | _, [] => ([], [])
  | 0, s => ([], s)
  | fuel + 1, '.' :: rest =>
    match rest with
    | c :: rest2 =>
      if isAlphaC c || c == '_' then
        let w := rest2.takeWhile isWordC
        let r2 := rest2.dropWhile isWordC
        let p := chainTailF fuel r2
        ('.' :: c :: (w ++ p.1), p.2)
      else ([], '.' :: rest)
    | [] => ([], ['.'])
  | _ + 1, s => ([], s)

/-- Greedy `(\.[a-zA-Z_][a-zA-Z0-9_]*)*` parse; fuel `s.length` is always
sufficient (each iteration consumes at least two characters). -/
def chainTail (s : Str) : Str × Str :=
  chainTailF s.length s

theorem chainTailF_snd_length (f : Nat) :
    ∀ s : Str, (chainTailF f s).2.length ≤ s.length := by
  induction f with
  | zero => intro s; cases s <;> simp [chainTailF]
  | succ g ih =>
    intro s
    cases s with
    | nil => simp [chainTailF]
    | cons c rest =>
      by_cases hdot : c = '.'
      · subst hdot
        cases rest with
        | nil => simp [chainTailF]
        | cons d rest2 =>
          rw [chainTailF]
          by_cases hc : (isAlphaC d || d == '_') = true
          · simp only [hc, if_true]
            have h1 := ih (rest2.dropWhile isWordC)
            have h2 := length_dropWhile_le isWordC rest2
            simp only [List.length_cons]
            omega
          · simp [hc]
      · rw [chainTailF.eq_def]
        split
        all_goals simp_all

theorem chainTail_snd_length (s : Str) : (chainTail s).2.length ≤ s.length :=
  chainTailF_snd_length s.length s

/-- Parse the mandatory part of the nested-property regex
`[a-zA-Z_][a-zA-Z0-9_]*(\.[a-zA-Z_][a-zA-Z0-9_]*)+` at the head of `s`. -/
def parseChainAt (s : Str) : Option (Str × Str) :=
  match parseIdentAt s with
  | none => none
  | some (fid, s1) =>
    let (tail, s2) := chainTail s1
    if tail.isEmpty then none else some (fid ++ tail, s2)

theorem parseChainAt_length (s m a : Str) (h : parseChainAt s = some (m, a)) :
    a.length < s.length := by
  unfold parseChainAt at h
  cases s with
  | nil => simp [parseIdentAt] at h
  | cons c rest =>
    simp only [parseIdentAt] at h
    by_cases hc : (isAlphaC c || c == '_') = true
    · simp only [hc, if_true] at h
      rcases hEq : chainTail (rest.dropWhile isWordC) with ⟨tail, s2⟩
      rw [hEq] at h
      by_cases ht : tail.isEmpty
      · simp [ht] at h
      · simp only [ht, Bool.false_eq_true, if_false, Option.some.injEq,
          Prod.mk.injEq] at h
        have h1 := chainTail_snd_length (rest.dropWhile isWordC)
        rw [hEq] at h1
        have h2 := length_dropWhile_le isWordC rest
        have ha : a = s2 := h.2.symm
        subst ha
        have h1b : a.length ≤ (rest.dropWhile isWordC).length := h1
        simp only [List.length_cons]
        omega
    · simp [hc] at h

theorem parseIdentAt_length (s m a : Str) (h : parseIdentAt s = some (m, a)) :
    a.length < s.length := by
  unfold parseIdentAt at h
  cases s with
  | nil => simp at h
  | cons c rest =>
    by_cases hc : (isAlphaC c || c == '_') = true
    · simp only [hc, if_true, Option.some.injEq, Prod.mk.injEq] at h
      have h2 := length_dropWhile_le isWordC rest
      have ha : a = rest.dropWhile isWordC := h.2.symm
      subst ha
      simp only [List.length_cons]
      omega
    · simp [hc] at h

/-- The nested-property regex can only start at a `\b` boundary: it is blocked
when the previous character is a word character. -/
def chainMatchAt (p1 : Option Char) (s : Str) : Option (Str × Str) :=
  match p1 with
  | some pc => if isWordC pc then none else parseChainAt s
  | none => parseChainAt s

theorem chainMatchAt_length (p1 : Option Char) (s m a : Str)
    (h : chainMatchAt p1 s = some (m, a)) : a.length < s.length := by
  unfold chainMatchAt at h
  cases p1 with
  | none => exact parseChainAt_length s m a h
  | some pc =>
    by_cases hw : isWordC pc = true
    · simp [hw] at h
    · simp only [hw, Bool.false_eq_true, if_false] at h
      exact parseChainAt_length s m a h

/-- `\b`-guarded bare-identifier match for the simple-variable regex. -/
def identMatchAt (p1 : Option Char) (s : Str) : Option (Str × Str) :=
  match p1 with
  | some pc => if isWordC pc then none else parseIdentAt s
  | none => parseIdentAt s

theorem identMatchAt_length (p1 : Option Char) (s m a : Str)
    (h : identMatchAt p1 s = some (m, a)) : a.length < s.length := by
  unfold identMatchAt at h
  cases p1 with
  | none => exact parseIdentAt_length s m a h
  | some pc =>
    by_cases hw : isWordC pc = true
    · simp [hw] at h
    · simp only [hw, Bool.false_eq_true, if_false] at h
      exact parseIdentAt_length s m a h

/-- The two-character `before` window test of lines 747-751 / 790-794:
`before.endsWith('.') || before.endsWith('::') || before.endsWith('(') ||
before.endsWith('[')`, where `p1`/`p2` are the characters one and two
positions before the match. -/
def beforeBlocked (p2 p1 : Option Char) : Bool :=
  (p1 == some '.') || (p1 == some ':' && p2 == some ':') ||
  (p1 == some '(') || (p1 == some '[')

/--
Collection loop of the nested-property pass (lines 737-772): scans the
expression left to right (regex `exec` semantics: a failed attempt advances
one position, a match — collected or skipped by `continue` — advances past
its end), recording a `data.`-prefixed replacement for every chain that
passes the overlap / before-context / after-context / keyword checks.
Returns the replacements in match order together with `processedRanges`.
-/
def collectNestedF : Nat → Nat → Option Char → Option Char → Str →
    List (Nat × Nat) → List Repl3 → List Repl3 × List (Nat × Nat)
  | _, _, _, _, [], ranges, acc => (acc.reverse, ranges)
  | 0, _, _, _, _, ranges, acc => (acc.reverse, ranges)
  | fuel + 1, i, p2, p1, c :: rest, ranges, acc =>
    match chainMatchAt p1 (c :: rest) with
    | some (m, after) =>
      let stop := i + m.length
      let afterDot : Bool := match after with
        | '.' :: _ => true
        | _ => false
      let firstPart := m.takeWhile (fun d => !(d == '.'))
      let ok := !(rangesOverlap ranges i stop) && !(beforeBlocked p2 p1) &&
        !afterDot && !(jsKeywords.contains firstPart)
      let np1 := m.getLast?
      let np2 := m.dropLast.getLast?
      collectNestedF fuel stop np2 np1 after
        (if ok then ranges ++ [(i, stop)] else ranges)
        (if ok then ⟨i, stop, "data.".toList ++ m⟩ :: acc else acc)
    | none => collectNestedF fuel (i + 1) p1 (some c) rest ranges acc

/-- The nested-pass collector proper; a match consumes at least one
character, so fuel `s.length` is always sufficient. -/
def collectNestedAux (i : Nat) (p2 p1 : Option Char) (s : Str)
    (ranges : List (Nat × Nat)) (acc : List Repl3) :
    List Repl3 × List (Nat × Nat) :=
  collectNestedF s.length i p2 p1 s ranges acc

/--
Collection loop of the simple-variable pass (lines 775-811), sharing
`processedRanges` with the nested pass; skips keywords, `data`, and
identifiers adjacent to member-access or call syntax.
-/
def collectSimpleF : Nat → Nat → Option Char → Option Char → Str →
    List (Nat × Nat) → List Repl3 → List Repl3
  | _, _, _, _, [], _, acc => acc.reverse
  | 0, _, _, _, _, _, acc => acc.reverse
  | fuel + 1, i, p2, p1, c :: rest, ranges, acc =>
    match identMatchAt p1 (c :: rest) with
    | some (v, after) =>
      let stop := i + v.length
      let afterBad : Bool := match after with
        | '.' :: _ => true
        | '(' :: _ => true
        | '[' :: _ => true
        | _ => false
      let ok := !(rangesOverlap ranges i stop) && !(jsKeywords.contains v) &&
        !(beforeBlocked p2 p1) && !afterBad && !(v == "data".toList)
      let np1 := v.getLast?
      let np2 := if v.length ≥ 2 then v.dropLast.getLast? else p1
      collectSimpleF fuel stop np2 np1 after
        (if ok then ranges ++ [(i, stop)] else ranges)
        (if ok then ⟨i, stop, "data.".toList ++ v⟩ :: acc else acc)
    | none => collectSimpleF fuel (i + 1) p1 (some c) rest ranges acc

/-- The simple-pass collector proper; fuel `s.length` is always
sufficient. -/
def collectSimpleAux (i : Nat) (p2 p1 : Option Char) (s : Str)
    (ranges : List (Nat × Nat)) (acc : List Repl3) : List Repl3 :=
  collectSimpleF s.length i p2 p1 s ranges acc

/-- Insertion into a list sorted by descending `start` (the
`replacements.sort((a, b) => b.start - a.start)` of line 814; starts of
distinct replacements are distinct, so comparator details do not matter). -/
def insertDesc (r : Repl3) : List Repl3 → List Repl3
  | [] => [r]
  | x :: xs => if r.start ≥ x.start then r :: x :: xs else x :: insertDesc r xs

/-- Sort replacements by descending start position. -/
def sortDesc (rs : List Repl3) : List Repl3 := rs.foldr insertDesc []

/-- Apply one recorded replacement by splicing (line 816). -/
def applyRepl (e : Str) (r : Repl3) : Str :=
  e.take r.start ++ r.repl ++ e.drop r.stop

/-- Apply all recorded replacements back to front (lines 813-817). -/
def applyRepls (e : Str) (rs : List Repl3) : Str :=
  (sortDesc rs).foldl applyRepl e

/--
`BladeParser.convertBladeExpression` (lines 705-826): the `$`-form rewrites,
then the nested-property and simple-variable collection passes over the
result, then the recorded replacements applied back to front.  The final
operator "replacements" of lines 820-823 rewrite `===`, `!==`, `==` and `!=`
to themselves and are the identity on every string, so they are not given a
separate definition.
-/
def convertBladeExpression (e0 : Str) : Str :=
  let e1 := scanRepl tryDollarIdent e0
  let e2 := scanRepl tryDollarArrow e1
  let e3 := scanRepl tryDollarBracket e2
  let e4 := scanRepl tryDollarArrowCall e3
  let p := collectNestedAux 0 none none e4 [] []
  let rsS := collectSimpleAux 0 none none e4 p.2 []
  applyRepls e4 (p.1 ++ rsS)

/-- `BladeParser.convertCondition` (lines 828-832). -/
def convertCondition (c : Str) : Str := convertBladeExpression c

/-! ## Directive passes (`BladeParser.parse` and helpers, lines 415-703). -/

/--
Matcher for the condition-header shape `/KW\s*\(\s*([^)]+)\s*\)/` shared by
`@if`, `@elseif`, `@foreach` and `@nodewireState`.  Returns the capture and
the remainder after `)`.  When everything between the parentheses is
whitespace, the greedy `\s*` backtracks by one character so that `[^)]+`
still matches: the capture is then that last whitespace character.
-/
def matchCondHeader (kw : Str) (s : Str) : Option (Str × Str) :=
  match expectS kw s with
  | none => none
  | some s1 =>
    match s1.dropWhile isWsC with
    | '(' :: s3 =>
      let ws := s3.takeWhile isWsC
      let s4 := s3.dropWhile isWsC
      let cap := s4.takeWhile (fun c => !(c == ')'))
      let s5 := s4.dropWhile (fun c => !(c == ')'))
      match s5 with
      | ')' :: s6 =>
        if cap.isEmpty then
          match ws.getLast? with
          | some w => some ([w], s6)
          | none => none
        else some (cap, s6)
      | _ => none
    | _ => none

/-- `@if` pass (lines 577-580): replacement `` ${COND ? ` ``. -/
def tryIf (s : Str) : Option (Str × Str) :=
  (matchCondHeader "@if".toList s).map (fun p =>
    ("$\x7b".toList ++ convertCondition p.1 ++ " ? `".toList, p.2))

/-- `@elseif` pass (lines 583-586): replacement `` ` : COND ? ` ``. -/
def tryElseif (s : Str) : Option (Str × Str) :=
  (matchCondHeader "@elseif".toList s).map (fun p =>
    ("` : ".toList ++ convertCondition p.1 ++ " ? `".toList, p.2))

/-- `@else` pass (line 589): replacement `` ` : ` ``. -/
def tryElse (s : Str) : Option (Str × Str) :=
  (expectS "@else".toList s).map (fun rest => ("` : `".toList, rest))

/-- The `` ` : ` `` marker the `@endif` pass looks back for. -/
def tick5 : Str := "` : `".toList

/-- `@endif` replacement when no `@else` was detected in the window. -/
def elseAbsentRepl : Str := "` : ''\x7d".toList

/-- `@endif` replacement when an `@else` was detected in the window. -/
def elsePresentRepl : Str := "`\x7d".toList

/--
The `@endif` replacement callback (lines 594-604): looks back through a
window of at most 200 characters before the `@endif` for the `` ` : ` ``
marker left by `@else`, discounting one preceded by `@elseif` within 20
characters (dead in practice: `@elseif` text was already rewritten by the
earlier pass).
-/
def endifRepl (orig : Str) (i : Nat) : Str :=
  let lookback := min 200 i
  let before := (orig.take i).drop (i - lookback)
  if hasSub tick5 before then
    let li := (lastSub tick5 before).getD 0
    if hasSub "@elseif".toList (before.drop (li - 20)) then elseAbsentRepl
    else elsePresentRepl
  else elseAbsentRepl

/-- The `@endif` global replace: the callback receives the offset into the
original (pre-replace) string, exactly as JavaScript `replace` provides. -/
def endifScanF (orig : Str) : Nat → Nat → Str → Str
  | _, _, [] => []
  | 0, _, s => s
  | fuel + 1, i, c :: rest =>
    if "@endif".toList.isPrefixOf (c :: rest) then
      endifRepl orig i ++ endifScanF orig fuel (i + 6) (rest.drop 5)
    else
      c :: endifScanF orig fuel (i + 1) rest

/-- The `@endif` scan proper: fuel `s.length` is always sufficient. -/
def endifScan (orig : Str) (i : Nat) (s : Str) : Str :=
  endifScanF orig s.length i s

/-- `BladeParser.processConditionals` (lines 575-607). -/
def processConditionals (s : Str) : Str :=
  let s1 := scanRepl tryIf s
  let s2 := scanRepl tryElseif s1
  let s3 := scanRepl tryElse s2
  endifScan s3 0 s3

/-- `defaultValue.replace(/'/g, "\\'")` of line 484. -/
def escQuotes (s : Str) : Str :=
  s.foldr (fun c acc => if c == '\'' then '\\' :: '\'' :: acc else c :: acc) []

/-- The `@yield` replacement
`` ${(data._sections && data._sections['NAME']) || 'DEFAULT'} ``
(line 484). -/
def yieldRepl (name dflt : Str) : Str :=
  "$\x7b(data._sections && data._sections['".toList ++ name ++
    "']) || '".toList ++ escQuotes dflt ++ "'\x7d".toList

/-- The optional default group `(?:,\s*['"]([^'"]*)['"])?` of the `@yield`
regex (line 471). -/
def tryYieldDefault (s8 : Str) : Option (Str × Str) :=
  match s8 with
  | ',' :: s9 =>
    match s9.dropWhile isWsC with
    | q3 :: s11 =>
      if isQuoteC q3 then
        let dflt := s11.takeWhile notQuoteC
        match s11.dropWhile notQuoteC with
        | q4 :: s13 => if isQuoteC q4 then some (dflt, s13) else none
        | _ => none
      else none
    | _ => none
  | _ => none

/-- Group-absent completion of the `@yield` match: `\s*\)` with an undefined
second capture (default `''`, line 481). -/
def yieldNoDefault (name : Str) (s8 : Str) : Option (Str × Str) :=
  match s8.dropWhile isWsC with
  | ')' :: s9 => some (yieldRepl name [], s9)
  | _ => none

/-- `@yield` matcher,
`/@yield\s*\(\s*['"]([^'"]+)['"]\s*(?:,\s*['"]([^'"]*)['"])?\s*\)/g`
(lines 467-492); if the optional default group cannot complete the match the
regex falls back to the group-absent alternative. -/
def tryYield (s : Str) : Option (Str × Str) :=
  match expectS "@yield".toList s with
  | none => none
  | some s1 =>
    match s1.dropWhile isWsC with
    | '(' :: s3 =>
      match s3.dropWhile isWsC with
      | q1 :: s5 =>
        if isQuoteC q1 then
          let name := s5.takeWhile notQuoteC
          if name.isEmpty then none
          else
            match s5.dropWhile notQuoteC with
            | q2 :: s7 =>
              if isQuoteC q2 then
                let s8 := s7.dropWhile isWsC
                match tryYieldDefault s8 with
                | some (dflt, s13) =>
                  match s13.dropWhile isWsC with
                  | ')' :: s14 => some (yieldRepl name dflt, s14)
                  | _ => yieldNoDefault name s8
                | none => yieldNoDefault name s8
              else none
            | _ => none
        else none
      | _ => none
    | _ => none

/-- The `@content` replacement `` ${data._content || ''} `` (line 496). -/
def contentRepl : Str := "$\x7bdata._content || ''\x7d".toList

/-- `/@content\b/g` matcher (line 496). -/
def tryContent (s : Str) : Option (Str × Str) :=
  match expectS "@content".toList s with
  | none => none
  | some s1 =>
    match s1 with
    | c :: _ => if isWordC c then none else some (contentRepl, s1)
    | [] => some (contentRepl, [])

/-- `BladeParser.processYields` (lines 467-499): the `@yield` loop, then the
`@content` replace. -/
def processYields (s : Str) : Str :=
  scanRepl tryContent (scanRepl tryYield s)

/-- A matched `@section`/`@slot`-style block: full match text, name, and the
captured body. -/
structure BlockMatch where
  text : Str
  name : Str
  body : Str
deriving Repr, DecidableEq

/--
Matcher for `/KW\s*\(\s*['"]([^'"]+)['"]\s*\)\s*([\s\S]*?)ENDKW/`: the lazy
body capture stops at the first occurrence of the closing keyword.
-/
def tryBlock (kw endKw : Str) (s : Str) : Option (BlockMatch × Str) :=
  match expectS kw s with
  | none => none
  | some s1 =>
    match s1.dropWhile isWsC with
    | '(' :: s3 =>
      match s3.dropWhile isWsC with
      | q1 :: s5 =>
        if isQuoteC q1 then
          let name := s5.takeWhile notQuoteC
          if name.isEmpty then none
          else
            match s5.dropWhile notQuoteC with
            | q2 :: s7 =>
              if isQuoteC q2 then
                match s7.dropWhile isWsC with
                | ')' :: s9 =>
                  match findSub endKw s9 with
                  | none => none
                  | some k =>
                    let body := (s9.take k).dropWhile isWsC
                    let after := s9.drop (k + endKw.length)
                    some (⟨s.take (s.length - after.length), name, body⟩, after)
                | _ => none
              else none
            | _ => none
        else none
      | _ => none
    | _ => none

/-- Generic `regex.exec` collection loop over the original content: a failed
attempt advances one position, a match is collected and scanning resumes
after it.  (The length guard serves termination only; every matcher used
consumes at least one character.) -/
def collectGenF {m : Type} (tryM : Str → Option (m × Str)) : Nat → Str → List m
  | _, [] => []
  | 0, _ => []
  | fuel + 1, c :: rest =>
    match tryM (c :: rest) with
    | some (x, after) =>
      if after.length < rest.length + 1 then x :: collectGenF tryM fuel after
      else x :: collectGenF tryM fuel rest
    | none => collectGenF tryM fuel rest

/-- The collector proper: fuel `s.length` is always sufficient. -/
def collectGen {m : Type} (tryM : Str → Option (m × Str)) (s : Str) : List m :=
  collectGenF tryM s.length s

/-- Generic non-global `String.match`: first match anywhere. -/
def findGen {m : Type} (tryM : Str → Option m) : Str → Option m
  | [] => none
  | c :: rest =>
    match tryM (c :: rest) with
    | some x => some x
    | none => findGen tryM rest

/-- `regex.exec` collection loop for block-style passes. -/
def collectBlocks (kw endKw : Str) : Str → List BlockMatch :=
  collectGen (tryBlock kw endKw)

/-- JavaScript `Map.set`: overwrite in place, preserving insertion order. -/
def alSet (m : List (Str × Str)) (k v : Str) : List (Str × Str) :=
  if m.any (fun kv => kv.1 == k) then
    m.map (fun kv => if kv.1 == k then (k, v) else kv)
  else m ++ [(k, v)]

/-- The `<!--SECTION:name-->` placeholder (line 511). -/
def secMarker (n : Str) : Str := "<!--SECTION:".toList ++ n ++ "-->".toList

/-- `BladeParser.processSections` (lines 501-515): collect matches over the
original content, replace the first occurrence of each match text with a
placeholder, and record `name ↦ body.trim()` (`Map.set`: duplicate names are
last-write-wins). -/
def processSections (content : Str) : Str × List (Str × Str) :=
  let ms := collectBlocks "@section".toList "@endsection".toList content
  (ms.foldl (fun acc m => replaceFirst acc m.text (secMarker m.name)) content,
   ms.foldl (fun acc m => alSet acc m.name (trimS m.body)) [])

/-- The optional props group `(?:,\s*\[([^\]]+)\])?` of the `@component`
block regex (line 518); the parsed props map is never read by
`BladeCompiler`, so only the remainder matters here. -/
def tryCompProps (s : Str) : Option Str :=
  match s with
  | ',' :: s1 =>
    match s1.dropWhile isWsC with
    | '[' :: s2 =>
      let inner := s2.takeWhile (fun d => !(d == ']'))
      if inner.isEmpty then none
      else
        match s2.dropWhile (fun d => !(d == ']')) with
        | ']' :: s3 => some s3
        | _ => none
    | _ => none
  | _ => none

/-- Matcher for the `@component…@endcomponent` block regex (line 518). -/
def tryComponentBlock (s : Str) : Option (BlockMatch × Str) :=
  match expectS "@component".toList s with
  | none => none
  | some s1 =>
    match s1.dropWhile isWsC with
    | '(' :: s3 =>
      match s3.dropWhile isWsC with
      | q1 :: s5 =>
        if isQuoteC q1 then
          let name := s5.takeWhile notQuoteC
          if name.isEmpty then none
          else
            match s5.dropWhile notQuoteC with
            | q2 :: s7 =>
              if isQuoteC q2 then
                let s8 := s7.dropWhile isWsC
                let s9 := match tryCompProps s8 with
                  | some s9 => s9
                  | none => s8
                match s9.dropWhile isWsC with
                | ')' :: s10 =>
                  match findSub "@endcomponent".toList s10 with
                  | none => none
                  | some k =>
                    let body := (s10.take k).dropWhile isWsC
                    let after := s10.drop (k + 13)
                    some (⟨s.take (s.length - after.length), name, body⟩, after)
                | _ => none
              else none
            | _ => none
        else none
      | _ => none
    | _ => none

/-- Collection loop for `@component` blocks. -/
def collectCompBlocks : Str → List BlockMatch :=
  collectGen tryComponentBlock

/-- `BladeParser.processComponents` (lines 517-558): the recorded
`components` map is never read by `BladeCompiler`, so only the content
substitution with `<!--COMPONENT:name-->` placeholders is modelled. -/
def processComponents (content : Str) : Str :=
  (collectCompBlocks content).foldl
    (fun acc m =>
      replaceFirst acc m.text
        ("<!--COMPONENT:".toList ++ m.name ++ "-->".toList))
    content

/-- `BladeParser.processSlots` (lines 560-573): likewise only the content
substitution with `<!--SLOT:name-->` placeholders is modelled (the `slots`
map has no consumer). -/
def processSlots (content : Str) : Str :=
  (collectBlocks "@slot".toList "@endslot".toList content).foldl
    (fun acc m =>
      replaceFirst acc m.text ("<!--SLOT:".toList ++ m.name ++ "-->".toList))
    content

/-- The inner loop-header regex
`/\$(\w+)\s+as\s+\$(\w+)(?:\s*=>\s*\$(\w+))?/` applied at one position
(line 615). -/
def tryLoopInner (s : Str) : Option (Str × Str × Option Str) :=
  match s with
  | '$' :: s1 =>
    let items := s1.takeWhile isWordC
    if items.isEmpty then none
    else
      let s2 := s1.dropWhile isWordC
      if (s2.takeWhile isWsC).isEmpty then none
      else
        match expectS "as".toList (s2.dropWhile isWsC) with
        | none => none
        | some s3 =>
          if (s3.takeWhile isWsC).isEmpty then none
          else
            match s3.dropWhile isWsC with
            | '$' :: s4 =>
              let val := s4.takeWhile isWordC
              if val.isEmpty then none
              else
                let s5 := s4.dropWhile isWordC
                match s5.dropWhile isWsC with
                | '=' :: '>' :: s7 =>
                  match s7.dropWhile isWsC with
                  | '$' :: s8 =>
                    let k := s8.takeWhile isWordC
                    if k.isEmpty then some (items, val, none)
                    else some (items, val, some k)
                  | _ => some (items, val, none)
                | _ => some (items, val, none)
            | _ => none
  | _ => none

/-- `String.prototype.match` without `/g`: first match anywhere. -/
def searchLoopInner : Str → Option (Str × Str × Option Str) :=
  findGen tryLoopInner

/-- `@foreach` pass (lines 613-627): the outer header regex is the shared
condition-header shape; a header whose inner expression does not parse is
left unchanged (the callback returns the original match). -/
def tryForeach (s : Str) : Option (Str × Str) :=
  match matchCondHeader "@foreach".toList s with
  | none => none
  | some (cap, rest) =>
    let matched := s.take (s.length - rest.length)
    match searchLoopInner cap with
    | some (items, val, none) =>
      some ("<!--LOOP:".toList ++ items ++ "::".toList ++ val ++
        "-->".toList, rest)
    | some (items, val, some k) =>
      some ("<!--LOOP:".toList ++ items ++ ":".toList ++ k ++ ":".toList ++
        val ++ "-->".toList, rest)
    | none => some (matched, rest)

/-- `@endforeach` pass (line 630). -/
def tryEndforeach (s : Str) : Option (Str × Str) :=
  (expectS "@endforeach".toList s).map (fun rest => ("<!--ENDLOOP-->".toList, rest))

/-- `BladeParser.processLoops` (lines 609-633). -/
def processLoops (s : Str) : Str :=
  scanRepl tryEndforeach (scanRepl tryForeach s)

/-- The views directory: association list from the template's logical name
(path without the `.view` extension) to the file's content.  Models the
on-disk layout `viewsPath/<name>.view` used by `processIncludes` and
`BladeEngine.render`. -/
abbrev FS := List (Str × Str)

/-- File lookup by logical name. -/
def fsLookup (fs : FS) (name : Str) : Option Str :=
  (fs.find? (fun kv => kv.1 == name)).map (fun kv => kv.2)

/-- One step of the props `matchAll` loop `/(\w+)\s*=>\s*([^,]+)/g`
(line 651); when only whitespace separates `=>` from the comma, the greedy
`\s*` backtracks one character so `[^,]+` still matches. -/
def tryProp (s : Str) : Option ((Str × Str) × Str) :=
  match s with
  | c :: rest =>
    if isWordC c then
      let k := c :: rest.takeWhile isWordC
      match (rest.dropWhile isWordC).dropWhile isWsC with
      | '=' :: '>' :: s2 =>
        let ws := s2.takeWhile isWsC
        let s3 := s2.dropWhile isWsC
        let v := s3.takeWhile (fun d => !(d == ','))
        let s4 := s3.dropWhile (fun d => !(d == ','))
        if v.isEmpty then
          match ws.getLast? with
          | some w => some ((k, [w]), s4)
          | none => none
        else some ((k, v), s4)
      | _ => none
    else none
  | [] => none

/-- `matchAll` collection loop for include props. -/
def collectProps : Str → List (Str × Str) :=
  collectGen tryProp

/-- `value.slice(1, -1)` applied when the (trimmed) value starts with a
quote (lines 655-657). -/
def unquoteVal (v : Str) : Str :=
  match v with
  | '"' :: rest => rest.dropLast
  | '\'' :: rest => rest.dropLast
  | _ => v

/-- Global replace of the literal `${key}` with the given value
(`new RegExp('\\$\\{key\\}', 'g')`, line 658). -/
def replaceAllSub (pat repl : Str) (s : Str) : Str :=
  scanRepl (fun t => (expectS pat t).map (fun r => (repl, r))) s

/-- The key-substitution loop applied to an included file's content
(lines 650-660). -/
def applyIncludeProps (props : List (Str × Str)) (content : Str) : Str :=
  props.foldl
    (fun acc kv =>
      replaceAllSub ("$\x7b".toList ++ trimS kv.1 ++ "\x7d".toList)
        (unquoteVal (trimS kv.2)) acc)
    content

/-- A matched `@include` directive. -/
structure IncMatch where
  text : Str
  name : Str
  props : List (Str × Str)
deriving Repr, DecidableEq

/-- The optional props group of the `@include` regex (line 636), returning
the raw bracket contents. -/
def tryIncProps (s : Str) : Option (Str × Str) :=
  match s with
  | ',' :: s1 =>
    match s1.dropWhile isWsC with
    | '[' :: s2 =>
      let inner := s2.takeWhile (fun d => !(d == ']'))
      if inner.isEmpty then none
      else
        match s2.dropWhile (fun d => !(d == ']')) with
        | ']' :: s3 => some (inner, s3)
        | _ => none
    | _ => none
  | _ => none

/-- Group-absent completion of the `@include` match. -/
def includeNoProps (s : Str) (name : Str) (s8 : Str) : Option (IncMatch × Str) :=
  match s8.dropWhile isWsC with
  | ')' :: s9 => some (⟨s.take (s.length - s9.length), name, []⟩, s9)
  | _ => none

/-- Matcher for
`/@include\s*\(\s*['"]([^'"]+)['"]\s*(?:,\s*\[([^\]]+)\])?\s*\)/g`
(line 636). -/
def tryIncludeM (s : Str) : Option (IncMatch × Str) :=
  match expectS "@include".toList s with
  | none => none
  | some s1 =>
    match s1.dropWhile isWsC with
    | '(' :: s3 =>
      match s3.dropWhile isWsC with
      | q1 :: s5 =>
        if isQuoteC q1 then
          let name := s5.takeWhile notQuoteC
          if name.isEmpty then none
          else
            match s5.dropWhile notQuoteC with
            | q2 :: s7 =>
              if isQuoteC q2 then
                let s8 := s7.dropWhile isWsC
                match tryIncProps s8 with
                | some (inner, s9) =>
                  match s9.dropWhile isWsC with
                  | ')' :: s10 =>
                    some (⟨s.take (s.length - s10.length), name,
                      collectProps inner⟩, s10)
                  | _ => includeNoProps s name s8
                | none => includeNoProps s name s8
              else none
            | _ => none
        else none
      | _ => none
    | _ => none

/-- Collection loop for `@include` directives. -/
def collectIncs : Str → List IncMatch :=
  collectGen tryIncludeM

/-- `BladeParser.processIncludes` (lines 635-670): each matched directive is
replaced by the (props-substituted) included file content, or by the empty
string when the file does not exist. -/
def processIncludes (fs : FS) (content : Str) : Str :=
  (collectIncs content).foldl
    (fun acc m =>
      match fsLookup fs m.name with
      | some fileContent =>
        replaceFirst acc m.text (applyIncludeProps m.props fileContent)
      | none => replaceFirst acc m.text [])
    content

/-- The `@nodewireState` replacement (line 677). -/
def nodewireStateRepl (expr : Str) : Str :=
  "$\x7b(function()\x7bconst c=".toList ++ expr ++
  ";const s=JSON.stringify(c.getState());return'<script type=\"application/json\" data-nodewire-state=\"'+c.id+'\" data-component-name=\"'+c.name+'\">'+s+'</script>';\x7d)()\x7d".toList

/-- `@nodewireState(expr)` pass (lines 674-678); the captured expression is
trimmed before translation. -/
def tryNodewireState (s : Str) : Option (Str × Str) :=
  (matchCondHeader "@nodewireState".toList s).map (fun p =>
    (nodewireStateRepl (convertBladeExpression (trimS p.1)), p.2))

/-- The bodiless `@component('name')` replacement (line 683). -/
def componentCallRepl (name : Str) : Str :=
  "$\x7b(function()\x7bconst c=data.".toList ++ name ++
  ";if(!c||typeof c!=='object'||!c.render||typeof c.render!=='function')\x7breturn'';\x7dconst nwm=data._nodeWireManager;if(!nwm)\x7breturn'';\x7dconst te=nwm.getTemplateEngine(data._viewsPath);return c.render(te);\x7d)()\x7d".toList

/-- Matcher for `/@component\s*\(\s*['"]([^'"]+)['"]\s*\)/g` (line 682). -/
def tryComponentCall (s : Str) : Option (Str × Str) :=
  match expectS "@component".toList s with
  | none => none
  | some s1 =>
    match s1.dropWhile isWsC with
    | '(' :: s3 =>
      match s3.dropWhile isWsC with
      | q1 :: s5 =>
        if isQuoteC q1 then
          let name := s5.takeWhile notQuoteC
          if name.isEmpty then none
          else
            match s5.dropWhile notQuoteC with
            | q2 :: s7 =>
              if isQuoteC q2 then
                match s7.dropWhile isWsC with
                | ')' :: s8 => some (componentCallRepl name, s8)
                | _ => none
              else none
            | _ => none
        else none
      | _ => none
    | _ => none

/-- `BladeParser.processNodeWireDirectives` (lines 672-687). -/
def processNodeWire (s : Str) : Str :=
  scanRepl tryComponentCall (scanRepl tryNodewireState s)

/-- `{!! expr !!}` pass (lines 691-694): replacement `` ${EXPR} ``. -/
def tryRawVar (s : Str) : Option (Str × Str) :=
  match expectS "\x7b!!".toList s with
  | none => none
  | some s1 =>
    let cap := s1.takeWhile (fun d => !(d == '!'))
    if cap.isEmpty then none
    else
      match expectS "!!\x7d".toList (s1.dropWhile (fun d => !(d == '!'))) with
      | some s2 =>
        some ("$\x7b".toList ++ convertBladeExpression (trimS cap) ++
          "\x7d".toList, s2)
      | none => none

/-- `{{ expr }}` pass (lines 697-700): replacement `` ${escape(EXPR)} ``. -/
def tryEscVar (s : Str) : Option (Str × Str) :=
  match expectS "\x7b\x7b".toList s with
  | none => none
  | some s1 =>
    let cap := s1.takeWhile (fun d => !(d == '\x7d'))
    if cap.isEmpty then none
    else
      match expectS "\x7d\x7d".toList (s1.dropWhile (fun d => !(d == '\x7d'))) with
      | some s2 =>
        some ("$\x7bescape(".toList ++ convertBladeExpression (trimS cap) ++
          ")\x7d".toList, s2)
      | none => none

/-- `BladeParser.processVariables` (lines 689-703): raw `{!! !!}` first, then
escaped `{{ }}`. -/
def processVariables (s : Str) : Str :=
  scanRepl tryEscVar (scanRepl tryRawVar s)

/-- Matcher for `/@extends\s*\(\s*['"]([^'"]+)['"]\s*\)/` (line 427),
returning the captured name and the remainder. -/
def tryExtends (s : Str) : Option (Str × Str) :=
  match expectS "@extends".toList s with
  | none => none
  | some s1 =>
    match s1.dropWhile isWsC with
    | '(' :: s3 =>
      match s3.dropWhile isWsC with
      | q1 :: s5 =>
        if isQuoteC q1 then
          let name := s5.takeWhile notQuoteC
          if name.isEmpty then none
          else
            match s5.dropWhile notQuoteC with
            | q2 :: s7 =>
              if isQuoteC q2 then
                match s7.dropWhile isWsC with
                | ')' :: s8 => some (name, s8)
                | _ => none
              else none
            | _ => none
        else none
      | _ => none
    | _ => none

/-- First `@extends` match in the template (non-global `String.match`),
returning the captured name and the full match text. -/
def scanExtends : Str → Option (Str × Str) :=
  findGen (fun s =>
    (tryExtends s).map (fun p => (p.1, s.take (s.length - p.2.length))))

/-- Lines 427-431: extract the `@extends` target and strip the directive
(first-occurrence string replace of the match text with `''`). -/
def extractExtends (s : Str) : Option Str × Str :=
  match scanExtends s with
  | some (name, text) => (some name, replaceFirst s text [])
  | none => (none, s)

/-- `ParsedTemplate`, restricted to the fields `BladeCompiler` consumes:
`content`, `extends`, `sections`. -/
structure Parsed where
  content : Str
  extendsTarget : Option Str
  sections : List (Str × Str)
deriving Repr, DecidableEq

/-- `BladeParser.parse` (lines 415-465): the fixed pass order of the
revision used by `BladeEngine`, ending with `content.trim()`. -/
def parseBlade (fs : FS) (templateContent : Str) : Parsed :=
  let e := extractExtends templateContent
  let ps := processSections e.2
  let c2 := processComponents ps.1
  let c3 := processSlots c2
  let c4 := processYields c3
  let c5 := processConditionals c4
  let c6 := processLoops c5
  let c7 := processIncludes fs c6
  let c8 := processNodeWire c7
  let c9 := processVariables c8
  { content := trimS c9, extendsTarget := e.1, sections := ps.2 }

/-! ## Template compiler and the JavaScript semantics of the generated
renderer (`BladeCompiler`, `src/unnamed/part_000` lines 3-130, and
`BladeEngine.compile`/`render`, lines 142-245). -/

/-- A span of the parsed content: literal text or an embedded expression
(`BladeCompiler.splitContent`, lines 92-129). -/
inductive Part
  | text (s : Str)
  | expr (s : Str)
deriving Repr, DecidableEq

/-- Matcher for the interpolation regex `/\$\{([^}]+)\}/g` (line 97). -/
def trySplitExpr (s : Str) : Option (Str × Str) :=
  match expectS "$\x7b".toList s with
  | none => none
  | some s1 =>
    let cap := s1.takeWhile (fun d => !(d == '\x7d'))
    if cap.isEmpty then none
    else
      match s1.dropWhile (fun d => !(d == '\x7d')) with
      | '\x7d' :: s2 => some (cap, s2)
      | _ => none

/-- Scanning loop of `splitContent`: alternating text spans (omitted when
empty) and expression spans; content with no interpolation yields a single
text part. -/
def splitContentF : Nat → Str → Str → List Part
  | _, buf, [] => if buf.isEmpty then [] else [Part.text buf.reverse]
  | 0, buf, rest => if (buf.reverse ++ rest).isEmpty then []
      else [Part.text (buf.reverse ++ rest)]
  | fuel + 1, buf, c :: rest =>
    match trySplitExpr (c :: rest) with
    | some (cap, after) =>
      let pre := if buf.isEmpty then [Part.expr cap]
        else [Part.text buf.reverse, Part.expr cap]
      if after.length < rest.length + 1 then pre ++ splitContentF fuel [] after
      else pre ++ splitContentF fuel [] rest
    | none => splitContentF fuel (c :: buf) rest

/-- Scanning loop of `splitContent` with fuel `s.length` (always
sufficient). -/
def splitContentAux (buf : Str) (s : Str) : List Part :=
  splitContentF s.length buf s

/-- `BladeCompiler.splitContent`. -/
def splitContent (content : Str) : List Part := splitContentAux [] content

/-- `\\ → \\\\` (line 78). -/
def tryEscBackslash (s : Str) : Option (Str × Str) :=
  (expectS ['\\'] s).map (fun rest => (['\\', '\\'], rest))

/-- `` ` → \` `` (line 79). -/
def tryEscBacktick (s : Str) : Option (Str × Str) :=
  (expectS ['`'] s).map (fun rest => (['\\', '`'], rest))

/-- `${ → \${` (line 80). -/
def tryEscDollarBrace (s : Str) : Option (Str × Str) :=
  (expectS "$\x7b".toList s).map (fun rest => (['\\', '$', '\x7b'], rest))

/-- `/\r?\n/ → \n` (two literal characters, line 81). -/
def tryEscNewline (s : Str) : Option (Str × Str) :=
  match expectS ['\r', '\n'] s with
  | some rest => some (['\\', 'n'], rest)
  | none => (expectS ['\n'] s).map (fun rest => (['\\', 'n'], rest))

/-- `\r → \r` (line 82). -/
def tryEscCR (s : Str) : Option (Str × Str) :=
  (expectS ['\r'] s).map (fun rest => (['\\', 'r'], rest))

/-- `\t → \t` (line 83). -/
def tryEscTab (s : Str) : Option (Str × Str) :=
  (expectS ['\t'] s).map (fun rest => (['\\', 't'], rest))

/-- The template-literal escaping chain applied to literal text spans
(`compileContent`, lines 76-84). -/
def escTpl (s : Str) : Str :=
  scanRepl tryEscTab (scanRepl tryEscCR (scanRepl tryEscNewline
    (scanRepl tryEscDollarBrace (scanRepl tryEscBacktick
      (scanRepl tryEscBackslash s)))))

/--
JavaScript cooked-string lexing of a template-literal or single-quoted
string body: resolves the escape sequences `escTpl` (and the generated
string literals) can produce; an unrecognised `\c` cooks to `c`, as in
JavaScript.  (`\u`/`\x` escapes never occur in the modelled code.)
-/
def unescC (d : Char) : Char :=
  if d = 'n' then '\n'
  else if d = 'r' then '\r'
  else if d = 't' then '\t'
  else if d = 'b' then '\x08'
  else if d = 'f' then '\x0c'
  else if d = 'v' then '\x0b'
  else d

/-- See `unescC` for the escape table. -/
def tlCook : Str → Str
  | [] => []
  | c :: rest =>
    if c = '\\' then
      match rest with
      | [] => []
      | d :: rest2 => unescC d :: tlCook rest2
    else c :: tlCook rest

/-- JavaScript runtime values occurring in render contexts and component
state (floating-point numbers never arise in the verified fragment, so
numbers are modelled as integers). -/
inductive JsVal
  | undef
  | null
  | bool (b : Bool)
  | num (n : Int)
  | str (s : Str)
  | arr (xs : List JsVal)
  | obj (fields : List (Str × JsVal))

/-- JavaScript truthiness. -/
def truthy : JsVal → Bool
  | .undef => false
  | .null => false
  | .bool b => b
  | .num n => !(n == 0)
  | .str s => !s.isEmpty
  | .arr _ => true
  | .obj _ => true

/-- Integer-to-string, JavaScript `String(n)` for integral numbers. -/
def intToStr (n : Int) : Str := (toString n).toList

mutual

/-- JavaScript `String(v)`. -/
def jsToString : JsVal → Str
  | .undef => "undefined".toList
  | .null => "null".toList
  | .bool true => "true".toList
  | .bool false => "false".toList
  | .num n => intToStr n
  | .str s => s
  | .arr xs => List.intercalate [','] (jsToStringList xs)
  | .obj _ => "[object Object]".toList

/-- `Array.prototype.toString` element conversion: `null`/`undefined`
elements become the empty string. -/
def jsToStringList : List JsVal → List Str
  | [] => []
  | .undef :: vs => [] :: jsToStringList vs
  | .null :: vs => [] :: jsToStringList vs
  | v :: vs => jsToString v :: jsToStringList vs

end

/-- Replace every occurrence of the character `c` by the string `t`
(JavaScript `str.replace(/c/g, t)` for a single-character pattern). -/
def replaceChar (c : Char) (t : Str) : Str → Str
  | [] => []
  | d :: rest => (if d == c then t else [d]) ++ replaceChar c t rest

/-- The replace chain of the compiled `escape` helper on string input
(`BladeCompiler.compile`, line 17): `&` first, then `<`, `>`, `"`, `'`. -/
def escapeStr (s : Str) : Str :=
  replaceChar '\'' "&#39;".toList
    (replaceChar '"' "&quot;".toList
      (replaceChar '>' "&gt;".toList
        (replaceChar '<' "&lt;".toList
          (replaceChar '&' "&amp;".toList s))))

/-- The compiled `escape` helper (line 17): `str == null` (which catches
both `null` and `undefined`) yields `""`; non-strings are converted with
`String(...)` first. -/
def escapeJs : JsVal → Str
  | .undef => []
  | .null => []
  | .str s => escapeStr s
  | v => escapeStr (jsToString v)

/-- The compiled `push` helper (line 19): `null`/`undefined` are skipped,
anything else is pushed as `String(...)`. -/
def pushStr : JsVal → Str
  | .undef => []
  | .null => []
  | v => jsToString v

/-! ### The JavaScript expression subset occurring in generated renderer
code.  `new Function('data', 'engine', code)` compiles the generated
expressions; the following parser/evaluator models JavaScript syntax and
semantics for exactly the expression forms the parser passes emit: member
chains rooted at identifiers, bracket access with a string literal, `&&`,
`||`, ternaries, single-quoted string literals, interpolation-free template
literals, and one-argument calls (`escape(...)`). -/

/-- Expression abstract syntax. -/
inductive JsExpr
  | strLit (s : Str)
  | tpl (s : Str)
  | varE (name : Str)
  | member (e : JsExpr) (field : Str)
  | andE (a b : JsExpr)
  | orE (a b : JsExpr)
  | condE (c t e : JsExpr)
  | callE (name : Str) (arg : JsExpr)

/-- Read a single-quoted string body up to the closing quote, keeping
escape sequences intact. -/
def readStrLit : Str → Option (Str × Str)
  | [] => none
  | '\\' :: c :: rest => (readStrLit rest).map (fun p => ('\\' :: c :: p.1, p.2))
  | '\'' :: rest => some ([], rest)
  | c :: rest => (readStrLit rest).map (fun p => (c :: p.1, p.2))

/-- Read a template-literal body up to the closing backtick; an embedded
`${` interpolation is outside the modelled subset (the compiler's
`splitContent` cannot leave one intact inside an expression span). -/
def readTpl : Str → Option (Str × Str)
  | [] => none
  | '\\' :: c :: rest => (readTpl rest).map (fun p => ('\\' :: c :: p.1, p.2))
  | '`' :: rest => some ([], rest)
  | '$' :: '\x7b' :: _ => none
  | c :: rest => (readTpl rest).map (fun p => (c :: p.1, p.2))

mutual

/-- Ternary level: `or ('?' expr ':' expr)?`. -/
def parseExprF : Nat → Str → Option (JsExpr × Str)
  | 0, _ => none
  | n + 1, s =>
    match parseOrF n s with
    | none => none
    | some (lhs, s1) =>
      match s1.dropWhile isWsC with
      | '?' :: s2 =>
        match parseExprF n s2 with
        | none => none
        | some (t, s3) =>
          match s3.dropWhile isWsC with
          | ':' :: s4 =>
            match parseExprF n s4 with
            | none => none
            | some (e, s5) => some (.condE lhs t e, s5)
          | _ => none
      | _ => some (lhs, s1)

/-- `||` level. -/
def parseOrF : Nat → Str → Option (JsExpr × Str)
  | 0, _ => none
  | n + 1, s =>
    match parseAndF n s with
    | none => none
    | some (lhs, s1) => parseOrMore n lhs s1

/-- Left-associative `||` chain. -/
def parseOrMore : Nat → JsExpr → Str → Option (JsExpr × Str)
  | 0, _, _ => none
  | n + 1, lhs, s =>
    match s.dropWhile isWsC with
    | '|' :: '|' :: s1 =>
      match parseAndF n s1 with
      | none => none
      | some (rhs, s2) => parseOrMore n (.orE lhs rhs) s2
    | _ => some (lhs, s)

/-- `&&` level. -/
def parseAndF : Nat → Str → Option (JsExpr × Str)
  | 0, _ => none
  | n + 1, s =>
    match parsePostfixF n s with
    | none => none
    | some (lhs, s1) => parseAndMore n lhs s1

/-- Left-associative `&&` chain. -/
def parseAndMore : Nat → JsExpr → Str → Option (JsExpr × Str)
  | 0, _, _ => none
  | n + 1, lhs, s =>
    match s.dropWhile isWsC with
    | '&' :: '&' :: s1 =>
      match parsePostfixF n s1 with
      | none => none
      | some (rhs, s2) => parseAndMore n (.andE lhs rhs) s2
    | _ => some (lhs, s)

/-- Postfix level: primary followed by `.ident` / `['str']` accessors. -/
def parsePostfixF : Nat → Str → Option (JsExpr × Str)
  | 0, _ => none
  | n + 1, s =>
    match parsePrimaryF n s with
    | none => none
    | some (e, s1) => postfixMore n e s1

/-- Accessor chain loop. -/
def postfixMore : Nat → JsExpr → Str → Option (JsExpr × Str)
  | 0, _, _ => none
  | n + 1, e, s =>
    match s with
    | '.' :: s1 =>
      match parseIdentAt s1 with
      | some (f, s2) => postfixMore n (.member e f) s2
      | none => none
    | '[' :: s1 =>
      match s1.dropWhile isWsC with
      | '\'' :: s2 =>
        match readStrLit s2 with
        | some (raw, s3) =>
          match s3.dropWhile isWsC with
          | ']' :: s4 => postfixMore n (.member e (tlCook raw)) s4
          | _ => none
        | none => none
      | _ => none
    | _ => some (e, s)

/-- Primary level. -/
def parsePrimaryF : Nat → Str → Option (JsExpr × Str)
  | 0, _ => none
  | n + 1, s =>
    match s.dropWhile isWsC with
    | '(' :: s1 =>
      match parseExprF n s1 with
      | some (e, s2) =>
        match s2.dropWhile isWsC with
        | ')' :: s3 => some (e, s3)
        | _ => none
      | none => none
    | '\'' :: s1 =>
      match readStrLit s1 with
      | some (raw, s2) => some (.strLit (tlCook raw), s2)
      | none => none
    | '`' :: s1 =>
      match readTpl s1 with
      | some (raw, s2) => some (.tpl (tlCook raw), s2)
      | none => none
    | c :: rest =>
      match parseIdentAt (c :: rest) with
      | some (id, s1) =>
        match s1 with
        | '(' :: s2 =>
          match parseExprF n s2 with
          | some (arg, s3) =>
            match s3.dropWhile isWsC with
            | ')' :: s4 => some (.callE id arg, s4)
            | _ => none
          | none => none
        | _ => some (.varE id, s1)
      | none => none
    | [] => none

end

/-- Parse a complete expression span: the whole span must be consumed, or
`new Function` would raise a `SyntaxError`. -/
def parseExprFull (e : Str) : Option JsExpr :=
  match parseExprF (4 * e.length + 64) e with
  | some (ast, rest) => if (rest.dropWhile isWsC).isEmpty then some ast else none
  | none => none

/-- Property access `v[f]`: `undefined`/`null` bases throw `TypeError`;
objects look the field up (absent fields give `undefined`); other bases
yield `undefined` for the fields the generated code uses. -/
def getField (v : JsVal) (f : Str) : Except String JsVal :=
  match v with
  | .obj fields =>
    .ok (((fields.find? (fun kv => kv.1 == f)).map (fun kv => kv.2)).getD .undef)
  | .undef => .error "TypeError"
  | .null => .error "TypeError"
  | _ => .ok (.undef)

/-- The render context: the `data` object of the generated renderer. -/
abbrev Ctx := List (Str × JsVal)

/-- Evaluate an expression against the render context: `data` denotes the
context object, `escape` the compiled escape helper; `&&`/`||`/ternary are
short-circuiting as in JavaScript. -/
def evalJs (data : Ctx) : JsExpr → Except String JsVal
  | .strLit s => .ok (.str s)
  | .tpl s => .ok (.str s)
  | .varE n => if n == "data".toList then .ok (.obj data) else .error "ReferenceError"
  | .member e f => do getField (← evalJs data e) f
  | .andE a b => do
    let l ← evalJs data a
    if truthy l then evalJs data b else .ok l
  | .orE a b => do
    let l ← evalJs data a
    if truthy l then .ok l else evalJs data b
  | .condE c t e => do
    let cv ← evalJs data c
    if truthy cv then evalJs data t else evalJs data e
  | .callE n arg => do
    let av ← evalJs data arg
    if n == "escape".toList then .ok (.str (escapeJs av)) else .error "TypeError"

/-- Does every expression span parse?  `new Function` compiles the whole
generated body before anything runs, so a syntax error anywhere fails the
render before any evaluation. -/
def partsSyntaxOk (parts : List Part) : Bool :=
  parts.all (fun p =>
    match p with
    | Part.expr e => (parseExprFull e).isSome
    | Part.text _ => true)

/-- Execute the compiled operation list: text spans are pushed through the
template-literal escape/cook round trip, expression spans are evaluated and
pushed via the `push` helper. -/
def runParts (data : Ctx) : List Part → Except String Str
  | [] => .ok []
  | Part.text t :: rest =>
    (runParts data rest).map (fun out => tlCook (escTpl t) ++ out)
  | Part.expr e :: rest =>
    match parseExprFull e with
    | none => .error "SyntaxError"
    | some ast =>
      match evalJs data ast with
      | .error msg => .error msg
      | .ok v => (runParts data rest).map (fun out => pushStr v ++ out)

/-- `BladeCompiler.compileContent` + execution of the generated code
(lines 63-90): split, then emit. -/
def runContent (data : Ctx) (content : Str) : Except String Str :=
  let parts := splitContent content
  if partsSyntaxOk parts then runParts data parts else .error "SyntaxError"

/-- `templatePath.replace(/\.view$/, '')` (line 173). -/
def stripViewSuffix (name : Str) : Str :=
  if (".view".toList).isSuffixOf name then name.take (name.length - 5) else name

/-- Render the sections of a child template with the child's context
(`compileWithLayout`, lines 38-46): each section body is compiled and
executed by the same content mechanism. -/
def renderSections (data : Ctx) : List (Str × Str) → Except String (List (Str × JsVal))
  | [] => .ok []
  | (n, body) :: rest => do
    let out ← runContent data body
    let tail ← renderSections data rest
    .ok ((n, JsVal.str out) :: tail)

/--
`BladeEngine.render` (lines 170-191) composed with `BladeEngine.compile`
(lines 199-222) and the execution of the generated renderer: resolve the
template in the views directory (after stripping a `.view` suffix), parse,
then either run the content directly or — when the template declares
`@extends` — run the body, render the sections, and recursively render the
parent with `_content`/`_sections` added to the context (`compileWithLayout`,
lines 34-61; object spread means the added keys override user data).
`fuel` bounds the layout recursion depth; caching is disabled in the
modelled configuration (`cacheEnabled: false`, the default).
-/
def renderT : Nat → FS → Str → Ctx → Except String Str
  | 0, _, _, _ => .error "fuel"
  | fuel + 1, fs, templatePath, data =>
    let name := stripViewSuffix templatePath
    match fsLookup fs name with
    | none => .error "Template no encontrado"
    | some src =>
      let parsed := parseBlade fs src
      match parsed.extendsTarget with
      | none => runContent data parsed.content
      | some parent => do
        let mainContent ← runContent data parsed.content
        let secs ← renderSections data parsed.sections
        renderT fuel fs parent
          (("_content".toList, JsVal.str mainContent) ::
            ("_sections".toList, JsVal.obj secs) :: data)

/-! ## Generic lemmas about the scanners and collectors, and the character
discipline used by the universal theorems. -/

theorem beqf_symm (c d : Char) (h : (c == d) = false) : (d == c) = false := by
  simp only [beq_eq_false_iff_ne] at h ⊢
  exact h.symm

theorem expectS_head_ne {k c : Char} {ks t : Str} (h : (c == k) = false) :
    expectS (k :: ks) (c :: t) = none := by
  simp [expectS, List.isPrefixOf, beqf_symm c k h]

/-- Characters out of which the universally-quantified literal texts of the
theorems are built: ASCII letters and digits plus harmless punctuation —
in particular none of the directive/interpolation trigger characters
`@ { } $ \` \\ '` and no control whitespace. -/
def plainChar (c : Char) : Bool :=
  c.isAlpha || c.isDigit || c == ' ' || c == '.' || c == ',' || c == '-' ||
  c == ':' || c == ';' || c == '/' || c == '<' || c == '>' || c == '=' ||
  c == '"'

theorem plain_ne (c d : Char) (h : plainChar c = true)
    (hd : plainChar d = false) : (c == d) = false := by
  cases heq : c == d
  · rfl
  · rw [eq_of_beq heq] at h
    rw [h] at hd
    exact absurd hd (by simp)

theorem all_ne_of_plain (s : Str) (d : Char) (hs : s.all plainChar = true)
    (hd : plainChar d = false) : s.all (fun c => !(c == d)) = true := by
  rw [List.all_eq_true] at hs ⊢
  intro c hc
  simp [plain_ne c d (hs c hc) hd]

theorem all_ne_of_alpha (s : Str) (d : Char) (hs : s.all isAlphaC = true)
    (hd : isAlphaC d = false) : s.all (fun c => !(c == d)) = true := by
  rw [List.all_eq_true] at hs ⊢
  intro c hc
  cases heq : c == d
  · simp
  · have h1 := hs c hc
    rw [eq_of_beq heq] at h1
    rw [h1] at hd
    exact absurd hd (by simp)

theorem takeWhile_append_all (p : Char → Bool) (v w : Str)
    (h : v.all p = true) : (v ++ w).takeWhile p = v ++ w.takeWhile p := by
  induction v with
  | nil => rfl
  | cons c t ih =>
    simp only [List.all_cons, Bool.and_eq_true] at h
    simp [List.takeWhile_cons, h.1, ih h.2]

theorem dropWhile_append_all (p : Char → Bool) (v w : Str)
    (h : v.all p = true) : (v ++ w).dropWhile p = w.dropWhile p := by
  induction v with
  | nil => rfl
  | cons c t ih =>
    simp only [List.all_cons, Bool.and_eq_true] at h
    simp [List.dropWhile_cons, h.1, ih h.2]

theorem takeWhile_all (p : Char → Bool) (v : Str) (h : v.all p = true) :
    v.takeWhile p = v := by
  have := takeWhile_append_all p v [] h
  simpa using this

theorem dropWhile_all (p : Char → Bool) (v : Str) (h : v.all p = true) :
    v.dropWhile p = [] := by
  have := dropWhile_append_all p v [] h
  simpa using this

theorem takeWhile_append_stop (p : Char → Bool) (v : Str) (c : Char) (w : Str)
    (hv : v.all p = true) (hc : p c = false) :
    (v ++ c :: w).takeWhile p = v := by
  rw [takeWhile_append_all p v (c :: w) hv]
  simp [List.takeWhile_cons, hc]

theorem dropWhile_append_stop (p : Char → Bool) (v : Str) (c : Char) (w : Str)
    (hv : v.all p = true) (hc : p c = false) :
    (v ++ c :: w).dropWhile p = c :: w := by
  rw [dropWhile_append_all p v (c :: w) hv]
  simp [List.dropWhile_cons, hc]

/-- Copy a trigger-free segment, then skip one failed match attempt. -/
theorem scanRepl_break (tryM : Str → Option (Str × Str)) (bad : Char → Bool)
    (hb : ∀ c t, bad c = false → tryM (c :: t) = none)
    (a : Str) (ha : a.all (fun c => !bad c) = true)
    (c : Char) (t : Str) (hc : tryM (c :: t) = none) :
    scanRepl tryM (a ++ c :: t) = a ++ c :: scanRepl tryM t := by
  rw [scanRepl_seg tryM bad hb a (c :: t) ha, scanRepl_copy tryM c t hc]

theorem collectGenF_fuel {m : Type} (tryM : Str → Option (m × Str)) :
    ∀ f s, s.length ≤ f → collectGenF tryM f s = collectGen tryM s := by
  intro f
  induction f using Nat.strong_induction_on with
  | _ f ih =>
    intro s hs
    match f, s with
    | 0, [] => rfl
    | g + 1, [] => rfl
    | 0, c :: rest => simp at hs
    | g + 1, c :: rest =>
      simp only [List.length_cons] at hs
      show collectGenF tryM (g + 1) (c :: rest) =
        collectGenF tryM (rest.length + 1) (c :: rest)
      rw [collectGenF, collectGenF]
      cases hm : tryM (c :: rest) with
      | none =>
        simp only []
        rw [ih g (by omega) rest (by omega)]
        rfl
      | some p =>
        rcases p with ⟨x, after⟩
        simp only []
        by_cases hg : after.length < rest.length + 1
        · simp only [hg, if_true]
          rw [ih g (by omega) after (by omega),
            ih rest.length (by omega) after (by omega)]
        · simp only [hg, if_false]
          rw [ih g (by omega) rest (by omega)]
          rfl

theorem collectGen_nil {m : Type} (tryM : Str → Option (m × Str)) :
    collectGen tryM [] = [] := rfl

theorem collectGen_copy {m : Type} (tryM : Str → Option (m × Str))
    (c : Char) (t : Str) (h : tryM (c :: t) = none) :
    collectGen tryM (c :: t) = collectGen tryM t := by
  show collectGenF tryM (t.length + 1) (c :: t) = _
  rw [collectGenF, h]
  rfl

theorem collectGen_step {m : Type} (tryM : Str → Option (m × Str))
    (c : Char) (t : Str) (x : m) (after : Str)
    (h : tryM (c :: t) = some (x, after)) (hlen : after.length ≤ t.length) :
    collectGen tryM (c :: t) = x :: collectGen tryM after := by
  show collectGenF tryM (t.length + 1) (c :: t) = _
  rw [collectGenF, h]
  simp only [Nat.lt_succ_of_le hlen, if_true]
  rw [collectGenF_fuel tryM t.length after hlen]

theorem collectGen_seg {m : Type} (tryM : Str → Option (m × Str))
    (bad : Char → Bool) (hb : ∀ c t, bad c = false → tryM (c :: t) = none)
    (a rest : Str) (ha : a.all (fun c => !bad c) = true) :
    collectGen tryM (a ++ rest) = collectGen tryM rest := by
  induction a with
  | nil => rfl
  | cons c t ih =>
    simp only [List.all_cons, Bool.and_eq_true, Bool.not_eq_true'] at ha
    rw [List.cons_append, collectGen_copy tryM c (t ++ rest) (hb c _ ha.1)]
    exact ih (by simpa using ha.2)

theorem findGen_nil {m : Type} (tryM : Str → Option m) :
    findGen tryM [] = none := rfl

theorem findGen_copy {m : Type} (tryM : Str → Option m)
    (c : Char) (t : Str) (h : tryM (c :: t) = none) :
    findGen tryM (c :: t) = findGen tryM t := by
  rw [findGen, h]

theorem findGen_seg {m : Type} (tryM : Str → Option m)
    (bad : Char → Bool) (hb : ∀ c t, bad c = false → tryM (c :: t) = none)
    (a rest : Str) (ha : a.all (fun c => !bad c) = true) :
    findGen tryM (a ++ rest) = findGen tryM rest := by
  induction a with
  | nil => rfl
  | cons c t ih =>
    simp only [List.all_cons, Bool.and_eq_true, Bool.not_eq_true'] at ha
    rw [List.cons_append, findGen_copy tryM c (t ++ rest) (hb c _ ha.1)]
    exact ih (by simpa using ha.2)

theorem findGen_step {m : Type} (tryM : Str → Option m)
    (c : Char) (t : Str) (x : m) (h : tryM (c :: t) = some x) :
    findGen tryM (c :: t) = some x := by
  rw [findGen, h]

theorem endifScanF_fuel (orig : Str) :
    ∀ f i s, s.length ≤ f → endifScanF orig f i s = endifScan orig i s := by
  intro f
  induction f using Nat.strong_induction_on with
  | _ f ih =>
    intro i s hs
    match f, s with
    | 0, [] => rfl
    | g + 1, [] => rfl
    | 0, c :: rest => simp at hs
    | g + 1, c :: rest =>
      simp only [List.length_cons] at hs
      show endifScanF orig (g + 1) i (c :: rest) =
        endifScanF orig (rest.length + 1) i (c :: rest)
      rw [endifScanF, endifScanF]
      by_cases hp : ("@endif".toList).isPrefixOf (c :: rest) = true
      · simp only [hp, if_true]
        have hd : (rest.drop 5).length ≤ rest.length := by
          simp [List.length_drop]
        rw [ih g (by omega) (i + 6) (rest.drop 5) (by omega),
          ih rest.length (by omega) (i + 6) (rest.drop 5) (by omega)]
      · simp only [hp, Bool.false_eq_true, if_false]
        rw [ih g (by omega) (i + 1) rest (by omega)]
        rfl

theorem endifScan_nil (orig : Str) (i : Nat) : endifScan orig i [] = [] := rfl

theorem endifScan_copy (orig : Str) (i : Nat) (c : Char) (t : Str)
    (h : ("@endif".toList).isPrefixOf (c :: t) = false) :
    endifScan orig i (c :: t) = c :: endifScan orig (i + 1) t := by
  show endifScanF orig (t.length + 1) i (c :: t) = _
  rw [endifScanF, h]
  simp only [Bool.false_eq_true, if_false]
  rfl

theorem endifScan_seg (orig : Str) (a : Str)
    (ha : a.all (fun c => !(c == '@')) = true) (i : Nat) (rest : Str) :
    endifScan orig i (a ++ rest) = a ++ endifScan orig (i + a.length) rest := by
  induction a generalizing i with
  | nil => simp
  | cons c t ih =>
    simp only [List.all_cons, Bool.and_eq_true, Bool.not_eq_true'] at ha
    have hpre : ("@endif".toList).isPrefixOf (c :: (t ++ rest)) = false := by
      rw [show ("@endif".toList : Str) = '@' :: "endif".toList from rfl]
      simp [List.isPrefixOf, beqf_symm c '@' ha.1]
    rw [List.cons_append, endifScan_copy orig i c (t ++ rest) hpre]
    rw [ih (by simpa using ha.2) (i + 1)]
    simp only [List.length_cons, List.cons_append]
    have : i + 1 + t.length = i + (t.length + 1) := by omega
    rw [this]

theorem endifScan_step (orig : Str) (i : Nat) (rest : Str) :
    endifScan orig i ("@endif".toList ++ rest) =
      endifRepl orig i ++ endifScan orig (i + 6) rest := by
  show endifScanF orig (("endif".toList ++ rest).length + 1) i
    ('@' :: ("endif".toList ++ rest)) = _
  rw [endifScanF]
  have hpre : ("@endif".toList).isPrefixOf ('@' :: ("endif".toList ++ rest)) = true := by
    rw [show ('@' :: ("endif".toList ++ rest) : Str) =
      "@endif".toList ++ rest from rfl]
    exact List.isPrefixOf_iff_prefix.mpr (List.prefix_append _ _)
  rw [hpre]
  simp only [if_true]
  have hd : (("endif".toList ++ rest).drop 5) = rest := by
    rw [show ("endif".toList : Str) = ['e', 'n', 'd', 'i', 'f'] from rfl]
    rfl
  rw [hd]
  rw [endifScanF_fuel orig ("endif".toList ++ rest).length (i + 6) rest
    (by simp only [List.length_append]; omega)]

theorem tlCook_id (s : Str) (h : s.all (fun c => !(c == '\\')) = true) :
    tlCook s = s := by
  induction s with
  | nil => rfl
  | cons c t ih =>
    simp only [List.all_cons, Bool.and_eq_true, Bool.not_eq_true'] at h
    rw [tlCook.eq_def]
    have : ¬(c = '\\') := by
      intro hc
      rw [hc] at h
      exact absurd h.1 (by simp)
    simp [this, ih (by simpa using h.2)]

/-! ### Head-mismatch lemmas: each matcher can only fire when the input
starts with the first character of its literal trigger. -/

theorem matchCondHeader_hn (k : Char) (kw2 : Str) (c : Char) (t : Str)
    (h : (c == k) = false) : matchCondHeader (k :: kw2) (c :: t) = none := by
  unfold matchCondHeader
  rw [expectS_head_ne h]

theorem tryIf_hn (c : Char) (t : Str) (h : (c == '@') = false) :
    tryIf (c :: t) = none := by
  unfold tryIf
  rw [show ("@if".toList : Str) = '@' :: "if".toList from rfl,
    matchCondHeader_hn '@' _ c t h]
  rfl

theorem tryElseif_hn (c : Char) (t : Str) (h : (c == '@') = false) :
    tryElseif (c :: t) = none := by
  unfold tryElseif
  rw [show ("@elseif".toList : Str) = '@' :: "elseif".toList from rfl,
    matchCondHeader_hn '@' _ c t h]
  rfl

theorem tryElse_hn (c : Char) (t : Str) (h : (c == '@') = false) :
    tryElse (c :: t) = none := by
  unfold tryElse
  rw [show ("@else".toList : Str) = '@' :: "else".toList from rfl,
    expectS_head_ne h]
  rfl

theorem tryForeach_hn (c : Char) (t : Str) (h : (c == '@') = false) :
    tryForeach (c :: t) = none := by
  unfold tryForeach
  rw [show ("@foreach".toList : Str) = '@' :: "foreach".toList from rfl,
    matchCondHeader_hn '@' _ c t h]

theorem tryEndforeach_hn (c : Char) (t : Str) (h : (c == '@') = false) :
    tryEndforeach (c :: t) = none := by
  unfold tryEndforeach
  rw [show ("@endforeach".toList : Str) = '@' :: "endforeach".toList from rfl,
    expectS_head_ne h]
  rfl

theorem tryExtends_hn (c : Char) (t : Str) (h : (c == '@') = false) :
    tryExtends (c :: t) = none := by
  unfold tryExtends
  rw [show ("@extends".toList : Str) = '@' :: "extends".toList from rfl,
    expectS_head_ne h]

theorem tryYield_hn (c : Char) (t : Str) (h : (c == '@') = false) :
    tryYield (c :: t) = none := by
  unfold tryYield
  rw [show ("@yield".toList : Str) = '@' :: "yield".toList from rfl,
    expectS_head_ne h]

theorem tryContent_hn (c : Char) (t : Str) (h : (c == '@') = false) :
    tryContent (c :: t) = none := by
  unfold tryContent
  rw [show ("@content".toList : Str) = '@' :: "content".toList from rfl,
    expectS_head_ne h]

theorem tryNodewireState_hn (c : Char) (t : Str) (h : (c == '@') = false) :
    tryNodewireState (c :: t) = none := by
  unfold tryNodewireState
  rw [show ("@nodewireState".toList : Str) = '@' :: "nodewireState".toList
    from rfl, matchCondHeader_hn '@' _ c t h]
  rfl

theorem tryComponentCall_hn (c : Char) (t : Str) (h : (c == '@') = false) :
    tryComponentCall (c :: t) = none := by
  unfold tryComponentCall
  rw [show ("@component".toList : Str) = '@' :: "component".toList from rfl,
    expectS_head_ne h]

theorem tryComponentBlock_hn (c : Char) (t : Str) (h : (c == '@') = false) :
    tryComponentBlock (c :: t) = none := by
  unfold tryComponentBlock
  rw [show ("@component".toList : Str) = '@' :: "component".toList from rfl,
    expectS_head_ne h]

theorem tryIncludeM_hn (c : Char) (t : Str) (h : (c == '@') = false) :
    tryIncludeM (c :: t) = none := by
  unfold tryIncludeM
  rw [show ("@include".toList : Str) = '@' :: "include".toList from rfl,
    expectS_head_ne h]

theorem tryBlock_hn (k : Char) (kw2 endKw : Str) (c : Char) (t : Str)
    (h : (c == k) = false) : tryBlock (k :: kw2) endKw (c :: t) = none := by
  unfold tryBlock
  rw [expectS_head_ne h]

theorem trySection_hn (c : Char) (t : Str) (h : (c == '@') = false) :
    tryBlock "@section".toList "@endsection".toList (c :: t) = none := by
  rw [show ("@section".toList : Str) = '@' :: "section".toList from rfl]
  exact tryBlock_hn '@' _ _ c t h

theorem trySlot_hn (c : Char) (t : Str) (h : (c == '@') = false) :
    tryBlock "@slot".toList "@endslot".toList (c :: t) = none := by
  rw [show ("@slot".toList : Str) = '@' :: "slot".toList from rfl]
  exact tryBlock_hn '@' _ _ c t h

theorem tryRawVar_hn (c : Char) (t : Str) (h : (c == '\x7b') = false) :
    tryRawVar (c :: t) = none := by
  unfold tryRawVar
  rw [show ("\x7b!!".toList : Str) = '\x7b' :: "!!".toList from rfl,
    expectS_head_ne h]

theorem tryEscVar_hn (c : Char) (t : Str) (h : (c == '\x7b') = false) :
    tryEscVar (c :: t) = none := by
  unfold tryEscVar
  rw [show ("\x7b\x7b".toList : Str) = '\x7b' :: "\x7b".toList from rfl,
    expectS_head_ne h]

theorem trySplitExpr_hn (c : Char) (t : Str) (h : (c == '$') = false) :
    trySplitExpr (c :: t) = none := by
  unfold trySplitExpr
  rw [show ("$\x7b".toList : Str) = '$' :: "\x7b".toList from rfl,
    expectS_head_ne h]

theorem tryDollarIdent_hn (c : Char) (t : Str) (h : (c == '$') = false) :
    tryDollarIdent (c :: t) = none := by
  unfold tryDollarIdent
  rw [expectS_head_ne h]

theorem tryDollarArrow_hn (c : Char) (t : Str) (h : (c == '$') = false) :
    tryDollarArrow (c :: t) = none := by
  unfold tryDollarArrow
  rw [expectS_head_ne h]

theorem tryDollarBracket_hn (c : Char) (t : Str) (h : (c == '$') = false) :
    tryDollarBracket (c :: t) = none := by
  unfold tryDollarBracket
  rw [expectS_head_ne h]

theorem tryDollarArrowCall_hn (c : Char) (t : Str) (h : (c == '$') = false) :
    tryDollarArrowCall (c :: t) = none := by
  unfold tryDollarArrowCall
  rw [expectS_head_ne h]

theorem tryEscBackslash_hn (c : Char) (t : Str) (h : (c == '\\') = false) :
    tryEscBackslash (c :: t) = none := by
  unfold tryEscBackslash
  rw [expectS_head_ne h]
  rfl

theorem tryEscBacktick_hn (c : Char) (t : Str) (h : (c == '`') = false) :
    tryEscBacktick (c :: t) = none := by
  unfold tryEscBacktick
  rw [expectS_head_ne h]
  rfl

theorem tryEscDollarBrace_hn (c : Char) (t : Str) (h : (c == '$') = false) :
    tryEscDollarBrace (c :: t) = none := by
  unfold tryEscDollarBrace
  rw [show ("$\x7b".toList : Str) = '$' :: "\x7b".toList from rfl,
    expectS_head_ne h]
  rfl

theorem tryEscNewline_hn (c : Char) (t : Str)
    (h1 : (c == '\r') = false) (h2 : (c == '\n') = false) :
    tryEscNewline (c :: t) = none := by
  unfold tryEscNewline
  rw [expectS_head_ne h1, expectS_head_ne h2]
  rfl

theorem tryEscCR_hn (c : Char) (t : Str) (h : (c == '\r') = false) :
    tryEscCR (c :: t) = none := by
  unfold tryEscCR
  rw [expectS_head_ne h]
  rfl

theorem tryEscTab_hn (c : Char) (t : Str) (h : (c == '\t') = false) :
    tryEscTab (c :: t) = none := by
  unfold tryEscTab
  rw [expectS_head_ne h]
  rfl

/-! ### Identity of the directive passes on trigger-free text. -/

theorem all_imp (p q : Char → Bool) (h : ∀ c, p c = true → q c = true)
    (s : Str) (hs : s.all p = true) : s.all q = true := by
  rw [List.all_eq_true] at hs ⊢
  exact fun c hc => h c (hs c hc)

/-- Characters on which the template-literal escaping chain and cooked-string
lexing are both the identity. -/
def escFree (c : Char) : Bool :=
  !(c == '\\') && !(c == '`') && !(c == '$') && !(c == '\r') &&
  !(c == '\n') && !(c == '\t')

theorem plain_escFree (c : Char) (h : plainChar c = true) : escFree c = true := by
  unfold escFree
  simp [plain_ne c '\\' h (by decide), plain_ne c '`' h (by decide),
    plain_ne c '$' h (by decide), plain_ne c '\r' h (by decide),
    plain_ne c '\n' h (by decide), plain_ne c '\t' h (by decide)]

theorem escTpl_id (s : Str) (h : s.all escFree = true) : escTpl s = s := by
  unfold escTpl
  rw [scanRepl_all tryEscBackslash (fun c => c == '\\')
    (fun c t hc => tryEscBackslash_hn c t hc) s
    (all_imp _ _ (fun c hc => by unfold escFree at hc; simp_all) s h)]
  rw [scanRepl_all tryEscBacktick (fun c => c == '`')
    (fun c t hc => tryEscBacktick_hn c t hc) s
    (all_imp _ _ (fun c hc => by unfold escFree at hc; simp_all) s h)]
  rw [scanRepl_all tryEscDollarBrace (fun c => c == '$')
    (fun c t hc => tryEscDollarBrace_hn c t hc) s
    (all_imp _ _ (fun c hc => by unfold escFree at hc; simp_all) s h)]
  rw [scanRepl_all tryEscNewline (fun c => (c == '\r') || (c == '\n'))
    (fun c t hc => tryEscNewline_hn c t (by simp_all) (by simp_all)) s
    (all_imp _ _ (fun c hc => by unfold escFree at hc; simp_all) s h)]
  rw [scanRepl_all tryEscCR (fun c => c == '\r')
    (fun c t hc => tryEscCR_hn c t hc) s
    (all_imp _ _ (fun c hc => by unfold escFree at hc; simp_all) s h)]
  rw [scanRepl_all tryEscTab (fun c => c == '\t')
    (fun c t hc => tryEscTab_hn c t hc) s
    (all_imp _ _ (fun c hc => by unfold escFree at hc; simp_all) s h)]

theorem tlCook_escFree (s : Str) (h : s.all escFree = true) : tlCook s = s :=
  tlCook_id s (all_imp _ _ (fun c hc => by unfold escFree at hc; simp_all) s h)

/-- Shorthand for the `'@'`-freeness used by the directive passes. -/
def atFree (s : Str) : Bool := s.all (fun c => !(c == '@'))

theorem pass_extends_id (s : Str) (h : atFree s = true) :
    extractExtends s = (none, s) := by
  unfold extractExtends scanExtends
  have hseg := findGen_seg
    (fun s =>
      (tryExtends s).map (fun p => (p.1, s.take (s.length - p.2.length))))
    (fun c => c == '@')
    (fun c t hc => by
      show Option.map _ (tryExtends (c :: t)) = none
      rw [tryExtends_hn c t hc]
      rfl)
    s [] h
  simp only [List.append_nil] at hseg
  rw [hseg, findGen_nil]

theorem collectGen_atFree_nil {m : Type} (tryM : Str → Option (m × Str))
    (hb : ∀ c t, (c == '@') = false → tryM (c :: t) = none)
    (s : Str) (h : atFree s = true) : collectGen tryM s = [] := by
  have hseg := collectGen_seg tryM (fun c => c == '@') hb s [] h
  simp only [List.append_nil] at hseg
  rw [hseg, collectGen_nil]

theorem pass_sections_id (s : Str) (h : atFree s = true) :
    processSections s = (s, []) := by
  unfold processSections collectBlocks
  rw [collectGen_atFree_nil _ (fun c t hc => trySection_hn c t hc) s h]
  rfl

theorem pass_components_id (s : Str) (h : atFree s = true) :
    processComponents s = s := by
  unfold processComponents collectCompBlocks
  rw [collectGen_atFree_nil _ (fun c t hc => tryComponentBlock_hn c t hc) s h]
  rfl

theorem pass_slots_id (s : Str) (h : atFree s = true) :
    processSlots s = s := by
  unfold processSlots collectBlocks
  rw [collectGen_atFree_nil _ (fun c t hc => trySlot_hn c t hc) s h]
  rfl

theorem pass_yields_id (s : Str) (h : atFree s = true) :
    processYields s = s := by
  unfold processYields
  rw [scanRepl_all tryYield (fun c => c == '@')
    (fun c t hc => tryYield_hn c t hc) s h]
  rw [scanRepl_all tryContent (fun c => c == '@')
    (fun c t hc => tryContent_hn c t hc) s h]

theorem endifScan_id (orig : Str) (i : Nat) (s : Str) (h : atFree s = true) :
    endifScan orig i s = s := by
  have hseg := endifScan_seg orig s h i []
  simpa [endifScan_nil] using hseg

theorem pass_conditionals_id (s : Str) (h : atFree s = true) :
    processConditionals s = s := by
  unfold processConditionals
  have e1 : scanRepl tryIf s = s :=
    scanRepl_all tryIf (fun c => c == '@') (fun c t hc => tryIf_hn c t hc) s h
  have e2 : scanRepl tryElseif s = s :=
    scanRepl_all tryElseif (fun c => c == '@')
      (fun c t hc => tryElseif_hn c t hc) s h
  have e3 : scanRepl tryElse s = s :=
    scanRepl_all tryElse (fun c => c == '@')
      (fun c t hc => tryElse_hn c t hc) s h
  simp only [e1, e2, e3]
  exact endifScan_id s 0 s h

theorem pass_loops_id (s : Str) (h : atFree s = true) :
    processLoops s = s := by
  unfold processLoops
  rw [scanRepl_all tryForeach (fun c => c == '@')
    (fun c t hc => tryForeach_hn c t hc) s h]
  rw [scanRepl_all tryEndforeach (fun c => c == '@')
    (fun c t hc => tryEndforeach_hn c t hc) s h]

theorem pass_includes_id (fs : FS) (s : Str) (h : atFree s = true) :
    processIncludes fs s = s := by
  unfold processIncludes collectIncs
  rw [collectGen_atFree_nil _ (fun c t hc => tryIncludeM_hn c t hc) s h]
  rfl

theorem pass_nodewire_id (s : Str) (h : atFree s = true) :
    processNodeWire s = s := by
  unfold processNodeWire
  rw [scanRepl_all tryNodewireState (fun c => c == '@')
    (fun c t hc => tryNodewireState_hn c t hc) s h]
  rw [scanRepl_all tryComponentCall (fun c => c == '@')
    (fun c t hc => tryComponentCall_hn c t hc) s h]

/-- Shorthand for `'{'`-freeness. -/
def braceFree (s : Str) : Bool := s.all (fun c => !(c == '\x7b'))

theorem pass_variables_id (s : Str) (h : braceFree s = true) :
    processVariables s = s := by
  unfold processVariables
  rw [scanRepl_all tryRawVar (fun c => c == '\x7b')
    (fun c t hc => tryRawVar_hn c t hc) s h]
  rw [scanRepl_all tryEscVar (fun c => c == '\x7b')
    (fun c t hc => tryEscVar_hn c t hc) s h]

/-- On `'@'`- and `'{'`-free templates the whole parse reduces to
`content.trim()` with no extends target and no sections. -/
theorem parseBlade_trivial (fs : FS) (s : Str) (h1 : atFree s = true)
    (h2 : braceFree s = true) :
    parseBlade fs s = ⟨trimS s, none, []⟩ := by
  unfold parseBlade
  simp only [pass_extends_id s h1, pass_sections_id s h1,
    pass_components_id s h1, pass_slots_id s h1, pass_yields_id s h1,
    pass_conditionals_id s h1, pass_loops_id s h1, pass_includes_id fs s h1,
    pass_nodewire_id s h1, pass_variables_id s h2]

/-! ### `splitContent` and execution on interpolation-free text. -/

/-- Shorthand for `'$'`-freeness. -/
def dollarFree (s : Str) : Bool := s.all (fun c => !(c == '$'))

theorem splitContentF_fuel :
    ∀ f buf s, s.length ≤ f → splitContentF f buf s = splitContentAux buf s := by
  intro f
  induction f using Nat.strong_induction_on with
  | _ f ih =>
    intro buf s hs
    match f, s with
    | 0, [] => rfl
    | g + 1, [] => rfl
    | 0, c :: rest => simp at hs
    | g + 1, c :: rest =>
      simp only [List.length_cons] at hs
      show splitContentF (g + 1) buf (c :: rest) =
        splitContentF (rest.length + 1) buf (c :: rest)
      rw [splitContentF, splitContentF]
      cases hm : trySplitExpr (c :: rest) with
      | none =>
        simp only []
        rw [ih g (by omega) (c :: buf) rest (by omega)]
        rfl
      | some p =>
        rcases p with ⟨cap, after⟩
        simp only []
        by_cases hg : after.length < rest.length + 1
        · simp only [hg, if_true]
          rw [ih g (by omega) [] after (by omega),
            ih rest.length (by omega) [] after (by omega)]
        · simp only [hg, if_false]
          rw [ih g (by omega) [] rest (by omega)]
          rfl

theorem splitContentAux_copy (buf : Str) (c : Char) (rest : Str)
    (h : trySplitExpr (c :: rest) = none) :
    splitContentAux buf (c :: rest) = splitContentAux (c :: buf) rest := by
  show splitContentF (rest.length + 1) buf (c :: rest) = _
  rw [splitContentF, h]
  rfl

theorem splitContentAux_base (buf : Str) :
    splitContentAux buf [] =
      if buf.isEmpty then [] else [Part.text buf.reverse] := rfl

theorem splitContentAux_seg (a : Str) (ha : dollarFree a = true) :
    ∀ buf rest, splitContentAux buf (a ++ rest) =
      splitContentAux (a.reverse ++ buf) rest := by
  induction a with
  | nil => intro buf rest; simp
  | cons c t ih =>
    intro buf rest
    unfold dollarFree at ha
    simp only [List.all_cons, Bool.and_eq_true, Bool.not_eq_true'] at ha
    rw [List.cons_append,
      splitContentAux_copy buf c (t ++ rest) (trySplitExpr_hn c _ ha.1)]
    rw [ih (by simpa [dollarFree] using ha.2) (c :: buf) rest]
    simp

theorem splitContent_noexpr (s : Str) (h : dollarFree s = true) :
    splitContent s = if s.isEmpty then [] else [Part.text s] := by
  unfold splitContent
  have e := splitContentAux_seg s h [] []
  simp only [List.append_nil] at e
  rw [e, splitContentAux_base]
  simp

theorem all_dropWhile_of_all (p q : Char → Bool) (s : Str)
    (h : s.all p = true) : (s.dropWhile q).all p = true := by
  induction s with
  | nil => rfl
  | cons c t ih =>
    simp only [List.all_cons, Bool.and_eq_true] at h
    rw [List.dropWhile_cons]
    by_cases hq : q c = true
    · simp [hq, ih h.2]
    · simp only [hq]
      simp [h.1, h.2]

theorem all_trimS (p : Char → Bool) (s : Str) (h : s.all p = true) :
    (trimS s).all p = true := by
  unfold trimS trimR trimL
  have h1 : (s.dropWhile isWsC).all p = true := all_dropWhile_of_all p isWsC s h
  have h2 : ((s.dropWhile isWsC).reverse).all p = true := by
    simpa [List.all_reverse] using h1
  have h3 := all_dropWhile_of_all p isWsC _ h2
  simpa [List.all_reverse] using h3

/-- Running a compiled template whose content is free of `$`, `\\`, `` ` ``
and control whitespace returns the content verbatim. -/
theorem runContent_text (data : Ctx) (s : Str)
    (hd : dollarFree s = true) (he : s.all escFree = true) :
    runContent data s = .ok s := by
  unfold runContent
  rw [splitContent_noexpr s hd]
  by_cases hs : s.isEmpty
  · simp only [hs, if_true]
    cases s with
    | nil => rfl
    | cons c t => exact absurd hs (by simp)
  · simp only [hs, Bool.false_eq_true, if_false]
    show runParts data [Part.text s] = Except.ok s
    simp [runParts, escTpl_id s he, tlCook_escFree s he, Except.map]

/-- Convenience: all the freeness facts of a plain string at once. -/
theorem plain_freeness (s : Str) (h : s.all plainChar = true) :
    atFree s = true ∧ braceFree s = true ∧ dollarFree s = true ∧
      s.all escFree = true := by
  refine ⟨?_, ?_, ?_, ?_⟩
  · exact all_ne_of_plain s '@' h (by decide)
  · exact all_ne_of_plain s '\x7b' h (by decide)
  · exact all_ne_of_plain s '$' h (by decide)
  · exact all_imp _ _ plain_escFree s h

/--
**C4 (amended).**  For a template source built from plain characters (no
directive or interpolation markers), `render` returns the source text
trimmed of leading/trailing whitespace, for every data context — hence
verbatim exactly when the source is trim-stable.  The trim (the source's
`result.content = currentContent.trim()`, `BladeParser.parse` line 462) is
what refutes the claim's verbatim form; see the counterexample.
-/
theorem claim_C4 (fs : FS) (name s : Str) (data : Ctx)
    (hplain : s.all plainChar = true)
    (hfs : fsLookup fs (stripViewSuffix name) = some s) :
    renderT 1 fs name data = .ok (trimS s) := by
  obtain ⟨h1, h2, _, _⟩ := plain_freeness s hplain
  show renderT (0 + 1) fs name data = .ok (trimS s)
  rw [renderT, hfs]
  simp only [parseBlade_trivial fs s h1 h2]
  have hts := all_trimS plainChar s hplain
  obtain ⟨_, _, hd3, he3⟩ := plain_freeness (trimS s) hts
  exact runContent_text data (trimS s) hd3 he3

/--
**C4 (counterexample).**  The identity law fails as stated: the source
`" A"` (no directives, no interpolation) renders as `"A"`, not verbatim —
`BladeParser.parse` trims the final content.
-/
theorem claim_C4_counterexample :
    renderT 1 [("t".toList, " A".toList)] "t".toList [] =
        Except.ok "A".toList ∧
      (" A".toList : Str) ≠ "A".toList := by
  exact ⟨rfl, by decide⟩

/-- Witness for `claim_C4` at a concrete instance. -/
theorem claim_C4_witness :
    renderT 1 [("t".toList, " hi there ".toList)] "t".toList [] =
      .ok (trimS " hi there ".toList) :=
  claim_C4 [("t".toList, " hi there ".toList)] "t".toList " hi there ".toList
    [] (by decide) rfl

/--
**C2 (code bug).**  Iteration over an empty collection does *not* yield
empty per-item output: `BladeParser.processLoops` (BladeParser.ts lines
609-633) rewrites `@foreach($items as $item)X@endforeach` into the literal
markers `<!--LOOP:items::item-->X<!--ENDLOOP-->`, and no later stage —
neither the remaining parser passes nor `BladeCompiler.compile`
(part_000 lines 13-90), which has no handling for the `LOOP` markers —
ever consumes them.  Rendering with `items = []` therefore emits the loop
body `X` (wrapped in the marker comments) instead of nothing: the body
text leaks into the output verbatim, once, regardless of the collection.
-/
theorem claim_C2 :
    renderT 1
        [("t".toList, "@foreach($items as $item)X@endforeach".toList)]
        "t".toList [("items".toList, JsVal.arr [])] =
      Except.ok "<!--LOOP:items::item-->X<!--ENDLOOP-->".toList ∧
    hasSub "X".toList "<!--LOOP:items::item-->X<!--ENDLOOP-->".toList = true ∧
    ("<!--LOOP:items::item-->X<!--ENDLOOP-->".toList : Str) ≠ [] := by
  exact ⟨rfl, by decide, by decide⟩

theorem mem_replaceChar (c : Char) (t : Str) (d : Char) :
    ∀ s, d ∈ replaceChar c t s → d ∈ t ∨ (d ∈ s ∧ d ≠ c) := by
  intro s
  induction s with
  | nil => intro hm; simp [replaceChar] at hm
  | cons e rest ih =>
    intro hm
    simp only [replaceChar, List.mem_append] at hm
    rcases hm with h | h
    · by_cases he : (e == c) = true
      · left; simpa [he] using h
      · simp only [he, Bool.false_eq_true, if_false, List.mem_singleton] at h
        subst h
        right
        exact ⟨List.mem_cons_self _ _, fun hdc => he (by simp [hdc])⟩
    · rcases ih h with h2 | ⟨h2, h3⟩
      · left; exact h2
      · right; exact ⟨List.mem_cons_of_mem _ h2, h3⟩

theorem not_mem_replaceChar (c : Char) (t : Str) (d : Char)
    (ht : d ∉ t) (s : Str) (hs : d = c ∨ d ∉ s) :
    d ∉ replaceChar c t s := by
  intro hm
  rcases mem_replaceChar c t d s hm with h | ⟨h2, hne⟩
  · exact ht h
  · rcases hs with h | h
    · exact hne h
    · exact h h2

theorem escapeStr_no_raw (s : Str) :
    '<' ∉ escapeStr s ∧ '>' ∉ escapeStr s ∧ '"' ∉ escapeStr s ∧
      '\'' ∉ escapeStr s := by
  unfold escapeStr
  refine ⟨?_, ?_, ?_, ?_⟩
  · exact not_mem_replaceChar _ _ _ (by decide) _ (Or.inr
      (not_mem_replaceChar _ _ _ (by decide) _ (Or.inr
        (not_mem_replaceChar _ _ _ (by decide) _ (Or.inr
          (not_mem_replaceChar _ _ _ (by decide) _ (Or.inl rfl)))))))
  · exact not_mem_replaceChar _ _ _ (by decide) _ (Or.inr
      (not_mem_replaceChar _ _ _ (by decide) _ (Or.inr
        (not_mem_replaceChar _ _ _ (by decide) _ (Or.inl rfl)))))
  · exact not_mem_replaceChar _ _ _ (by decide) _ (Or.inr
      (not_mem_replaceChar _ _ _ (by decide) _ (Or.inl rfl)))
  · exact not_mem_replaceChar _ _ _ (by decide) _ (Or.inl rfl)

/--
**C10.**  The compiled `escape` helper (`BladeCompiler.compile`, part_000
line 17) is total by construction (`escapeJs` is a total Lean function over
all JavaScript values), maps both `null` and `undefined` to the empty
string (the `str == null` loose check), and for every input its output
contains no raw `<`, `>`, `"` or `'` character; each such character — and
`&` first, so entities are not double-escaped — is rewritten to its HTML
entity.
-/
theorem claim_C10 :
    escapeJs JsVal.undef = [] ∧ escapeJs JsVal.null = [] ∧
    (∀ v : JsVal, '<' ∉ escapeJs v ∧ '>' ∉ escapeJs v ∧
      '"' ∉ escapeJs v ∧ '\'' ∉ escapeJs v) ∧
    escapeStr "&".toList = "&amp;".toList ∧
    escapeStr "<".toList = "&lt;".toList ∧
    escapeStr ">".toList = "&gt;".toList ∧
    escapeStr ['"'] = "&quot;".toList ∧
    escapeStr ['\''] = "&#39;".toList := by
  refine ⟨rfl, rfl, ?_, by decide, by decide, by decide, by decide, by decide⟩
  intro v
  cases v with
  | undef => simp [escapeJs]
  | null => simp [escapeJs]
  | str s => exact escapeStr_no_raw s
  | bool b => exact escapeStr_no_raw _
  | num n => exact escapeStr_no_raw _
  | arr xs => exact escapeStr_no_raw _
  | obj fs => exact escapeStr_no_raw _

/-! ### Component runtime: state diff and per-call error handling
(`NodeWireManager.handleComponentCall`, NodeWireManager.ts lines 162-353,
and `Component.setState` of part_002).  Component state is a `Ctx`; the
component registry (`this.components`, a `Map` keyed by id) is an
association list; a method is a function from the state it runs on to a
possibly-thrown error together with the state it leaves behind (JavaScript
methods mutate `this` in place, so a throwing method can still have
partially mutated the state). -/

def jsonEscChar (c : Char) : Str :=
  if c == '"' then ['\\', '"']
  else if c == '\\' then ['\\', '\\']
  else if c == '\n' then ['\\', 'n']
  else if c == '\t' then ['\\', 't']
  else if c == '\r' then ['\\', 'r']
  else [c]

/-- `JSON.stringify` escaping of string contents, for the escape-relevant
characters modelled (`"`, backslash, newline, tab, carriage return). -/
def jsonEscStr : Str → Str
  | [] => []
  | c :: rest => jsonEscChar c ++ jsonEscStr rest

mutual

/-- `JSON.stringify(v)`: `undefined` stringifies to JavaScript `undefined`
(modelled `none`); `undefined` object values are omitted; `undefined`
array elements serialize as `null`. -/
def jsonStringify : JsVal → Option Str
  | .undef => none
  | .null => some "null".toList
  | .bool true => some "true".toList
  | .bool false => some "false".toList
  | .num n => some (intToStr n)
  | .str s => some ('"' :: (jsonEscStr s ++ ['"']))
  | .arr xs => some ('[' :: (List.intercalate [','] (jsonArrElems xs) ++ [']']))
  | .obj fs => some ('\x7b' :: (List.intercalate [','] (jsonObjFields fs) ++ ['\x7d']))

def jsonArrElems : List JsVal → List Str
  | [] => []
  | v :: rest =>
    (match jsonStringify v with
      | some s => s
      | none => "null".toList) :: jsonArrElems rest

def jsonObjFields : List (Str × JsVal) → List Str
  | [] => []
  | (k, v) :: rest =>
    match jsonStringify v with
    | some s => ('"' :: (jsonEscStr k ++ ['"', ':'] ++ s)) :: jsonObjFields rest
    | none => jsonObjFields rest

end

/-- Association-list lookup, first match wins (`Map.get`). -/
def lookupA {α : Type} : List (Str × α) → Str → Option α
  | [], _ => none
  | kv :: rest, k => if kv.1 == k then some kv.2 else lookupA rest k

/-- In-place value update of every entry with the given key (`Map.set` on
an existing key: same key set, same order, new value). -/
def updateA {α : Type} (reg : List (Str × α)) (k : Str) (v : α) :
    List (Str × α) :=
  reg.map (fun kv => if kv.1 == k then (kv.1, v) else kv)

/-- JavaScript property read `obj[key]`: absent keys read as `undefined`. -/
def ctxGet (ctx : Ctx) (k : Str) : JsVal :=
  match lookupA ctx k with
  | some v => v
  | none => (.undef)

/-- The change-detection loop of `handleComponentCall` (NodeWireManager.ts
lines 317-328): iterate the keys of the new state and keep those whose
`JSON.stringify` serialization differs from the old state's value (both
sides `undefined` compare equal, since `undefined !== undefined` is
false). -/
def diffUpdates (oldS newS : Ctx) : Ctx :=
  newS.filter (fun kv => !(jsonStringify (ctxGet oldS kv.1) == jsonStringify kv.2))

/-- A registered component instance: its public state and its method
table.  A method receives the state it runs on and returns the error it
throws, if any, together with the state it leaves behind. -/
structure MComp where
  state : Ctx
  methods : List (Str × (Ctx → Except String Unit × Ctx))

/-- The subset of `handleComponentCall`'s result shape relevant here
(`{ success, error?, newState?, updates? }`). -/
structure CallResult where
  success : Bool
  error : Option String
  newState : Option Ctx
  updates : Option Ctx

/-- `Component.setState` (part_002 lines 54-62): for each public property,
overwrite it iff the incoming state has that key. -/
def setState (st incoming : Ctx) : Ctx :=
  st.map (fun kv =>
    match lookupA incoming kv.1 with
    | some v => (kv.1, v)
    | none => kv)

/-- `NodeWireManager.handleComponentCall` for a component present in the
registry (the recreate-from-registry branch for an unknown id, and the
rendered html, are outside the modelled claims; an unknown id with no
stored parameters throws, which the outer catch turns into
`success:false`).  Sequence, as in the source: snapshot
`oldState = JSON.parse(JSON.stringify(component.getState()))` *before*
`setState`; restore the client state; a missing method throws; the method
runs on the restored state; a throw is caught and reported as
`{ success:false, error }` without rolling back the in-place
mutation; on success the diff of lines 317-328 is returned as `updates`. -/
def handleComponentCall (reg : List (Str × MComp)) (id method : Str)
    (clientState : Ctx) : List (Str × MComp) × CallResult :=
  match lookupA reg id with
  | none => (reg, ⟨false, some "Componente no encontrado", none, none⟩)
  | some comp =>
    let oldState := comp.state
    let st1 := setState comp.state clientState
    match lookupA comp.methods method with
    | none =>
      (updateA reg id ⟨st1, comp.methods⟩,
        ⟨false, some "Metodo no existe", none, none⟩)
    | some f =>
      match f st1 with
      | (.error msg, st2) =>
        (updateA reg id ⟨st2, comp.methods⟩, ⟨false, some msg, none, none⟩)
      | (.ok _, st2) =>
        (updateA reg id ⟨st2, comp.methods⟩,
          ⟨true, none, some st2, some (diffUpdates oldState st2)⟩)

/-- Demo method: sets `count` to 1, succeeds. -/
def demoIncr : Ctx → Except String Unit × Ctx :=
  fun _ => (.ok (), [("count".toList, .num 1)])

/-- Demo method: throws without touching the state. -/
def demoFail : Ctx → Except String Unit × Ctx :=
  fun st => (.error "boom", st)

def demoComp : MComp :=
  ⟨[("count".toList, .num 0)], [("inc".toList, demoIncr)]⟩

def demoFailComp : MComp :=
  ⟨[("count".toList, .num 0)], [("bad".toList, demoFail)]⟩

def demoReg : List (Str × MComp) := [("c1".toList, demoComp)]

def demoReg2 : List (Str × MComp) :=
  [("c1".toList, demoFailComp), ("c2".toList, demoComp)]

theorem updateA_keys {α : Type} (reg : List (Str × α)) (k : Str) (v : α) :
    (updateA reg k v).map Prod.fst = reg.map Prod.fst := by
  unfold updateA
  rw [List.map_map]
  apply List.map_congr_left
  intro kv _
  by_cases h : (kv.1 == k) = true <;> simp [h, Function.comp]

theorem updateA_cons {α : Type} (kv : Str × α) (rest : List (Str × α))
    (k : Str) (v : α) :
    updateA (kv :: rest) k v =
      (if kv.1 == k then (kv.1, v) else kv) :: updateA rest k v := rfl

theorem lookupA_updateA_ne {α : Type} (reg : List (Str × α)) (k j : Str)
    (v : α) (h : j ≠ k) :
    lookupA (updateA reg k v) j = lookupA reg j := by
  induction reg with
  | nil => rfl
  | cons kv rest ih =>
    rw [updateA_cons]
    by_cases hk : (kv.1 == k) = true
    · have hkv : kv.1 = k := by simpa using hk
      have hj : (kv.1 == j) = false := by
        simp only [beq_eq_false_iff_ne, hkv]
        exact fun he => h he.symm
      rw [if_pos hk]
      simp [lookupA, hj, ih]
    · rw [if_neg hk]
      by_cases hj : (kv.1 == j) = true
      · simp [lookupA, hj]
      · simp [lookupA, hj, ih]

theorem lookupA_updateA_self {α : Type} (reg : List (Str × α)) (k : Str)
    (v x : α) (h : lookupA reg k = some x) :
    lookupA (updateA reg k v) k = some v := by
  induction reg with
  | nil => simp [lookupA] at h
  | cons kv rest ih =>
    rw [updateA_cons]
    by_cases hk : (kv.1 == k) = true
    · rw [if_pos hk]
      simp [lookupA, hk]
    · have hk2 : (kv.1 == k) = false := by simpa using hk
      rw [if_neg hk]
      rw [lookupA] at h
      rw [hk2] at h
      simp only [Bool.false_eq_true, if_false] at h
      rw [lookupA, hk2]
      simp [ih h]

/--
**C5.**  Change detection is per-key structural (JSON-serialization)
equality over the keys of the new state: a pair of the new state is kept
in `updates` iff its `JSON.stringify` image differs from that of the old
state's value at that key (reference identity does not exist in the
comparison).  Concretely, old `{ count:0 }` against new
`{ count:1 }` gives exactly `count`, while old `{ list:[1,2] }`
against a separately constructed `[1,2]` gives the empty set; and on a
successful `handleComponentCall` the returned `updates` field is exactly
this diff between the pre-call snapshot and the post-method state.
-/
theorem claim_C5 :
    (∀ (oldS newS : Ctx) (k : Str) (v : JsVal),
        (k, v) ∈ diffUpdates oldS newS ↔
          (k, v) ∈ newS ∧ jsonStringify (ctxGet oldS k) ≠ jsonStringify v) ∧
    diffUpdates [("count".toList, .num 0)] [("count".toList, .num 1)] =
      [("count".toList, .num 1)] ∧
    diffUpdates [("list".toList, .arr [.num 1, .num 2])]
        [("list".toList, .arr [.num 1, .num 2])] = [] ∧
    (∀ (reg : List (Str × MComp)) (id method : Str) (clientState : Ctx)
        (comp : MComp) (f : Ctx → Except String Unit × Ctx) (st2 : Ctx),
      lookupA reg id = some comp →
      lookupA comp.methods method = some f →
      f (setState comp.state clientState) = (.ok (), st2) →
      (handleComponentCall reg id method clientState).2.updates =
        some (diffUpdates comp.state st2)) := by
  refine ⟨?_, rfl, rfl, ?_⟩
  · intro oldS newS k v
    unfold diffUpdates
    rw [List.mem_filter]
    simp
  · intro reg id method clientState comp f st2 h1 h2 h3
    simp only [handleComponentCall, h1, h2, h3]

/-- Witness for `claim_C5`: the demo counter's `inc` call reports exactly
`count` as changed. -/
theorem claim_C5_witness :
    (handleComponentCall demoReg "c1".toList "inc".toList []).2.updates =
      some [("count".toList, JsVal.num 1)] := by
  have h := claim_C5.2.2.2 demoReg "c1".toList "inc".toList [] demoComp
    demoIncr [("count".toList, JsVal.num 1)] rfl rfl rfl
  rw [h]
  rfl

/--
**C8.**  When the invoked method throws, `handleComponentCall` catches the
exception and returns `success:false` with the thrown message as `error`
instead of propagating it, and the registry survives intact: the key set
(and order) is unchanged, every other component's entry is untouched, and
the called id still maps to the same instance (same method table; only its
state was mutated in place, never rolled back nor replaced).
-/
theorem claim_C8 :
    ∀ (reg : List (Str × MComp)) (id method : Str) (clientState : Ctx)
      (comp : MComp) (f : Ctx → Except String Unit × Ctx)
      (msg : String) (st2 : Ctx),
    lookupA reg id = some comp →
    lookupA comp.methods method = some f →
    f (setState comp.state clientState) = (.error msg, st2) →
    (handleComponentCall reg id method clientState).2.success = false ∧
    (handleComponentCall reg id method clientState).2.error = some msg ∧
    ((handleComponentCall reg id method clientState).1).map Prod.fst =
      reg.map Prod.fst ∧
    (∀ j, j ≠ id →
      lookupA (handleComponentCall reg id method clientState).1 j =
        lookupA reg j) ∧
    (∃ comp2, lookupA (handleComponentCall reg id method clientState).1 id =
        some comp2 ∧ comp2.methods = comp.methods) := by
  intro reg id method clientState comp f msg st2 h1 h2 h3
  have hred : handleComponentCall reg id method clientState =
      (updateA reg id ⟨st2, comp.methods⟩, ⟨false, some msg, none, none⟩) := by
    simp only [handleComponentCall, h1, h2, h3]
  refine ⟨by rw [hred], by rw [hred], ?_, ?_, ?_⟩
  · rw [hred]
    exact updateA_keys reg id _
  · intro j hj
    rw [hred]
    exact lookupA_updateA_ne reg id j _ hj
  · rw [hred]
    exact ⟨⟨st2, comp.methods⟩, lookupA_updateA_self reg id _ comp h1, rfl⟩

/-- Witness for `claim_C8`: the demo failing call reports the thrown
message and leaves the sibling component's registry entry unchanged. -/
theorem claim_C8_witness :
    (handleComponentCall demoReg2 "c1".toList "bad".toList []).2.success =
        false ∧
    (handleComponentCall demoReg2 "c1".toList "bad".toList []).2.error =
        some "boom" ∧
    lookupA (handleComponentCall demoReg2 "c1".toList "bad".toList []).1
        "c2".toList = lookupA demoReg2 "c2".toList := by
  have h := claim_C8 demoReg2 "c1".toList "bad".toList [] demoFailComp
    demoFail "boom" [("count".toList, JsVal.num 0)] rfl rfl rfl
  exact ⟨h.1, h.2.1, h.2.2.2.1 "c2".toList (by decide)⟩

/-! ### Template-name sanitization (`NodeWireManager.getTemplateEngine`,
NodeWireManager.ts lines 377-402).  The engine wrapper sanitizes the
requested template name with, in source order:
`template.replace(/\.\./g, '')` (left-to-right non-overlapping removal of
`..`), `.replace(/^\/+/, '')` (strip all leading forward slashes), then
`.replace(/\\/g, '/')` (each backslash becomes a forward slash); the
result is joined under the views root by `BladeEngine.render`
(`path.join(viewsPath, name + '.view')`, part_000 lines 170-191).
`splitSlash`/`normStep`/`joinResolve` model `path.join`'s normalization:
segments are concatenated, `..` pops a segment, empty and `.` segments
disappear. -/

def removeDotDot : Str → Str
  | '.' :: '.' :: rest => removeDotDot rest
  | c :: rest => c :: removeDotDot rest
  | [] => []

def stripLeadSlash : Str → Str
  | '/' :: rest => stripLeadSlash rest
  | s => s

def backToSlash (s : Str) : Str := s.map (fun c => if c == '\\' then '/' else c)

def sanitizeTemplate (template : Str) : Str :=
  backToSlash (stripLeadSlash (removeDotDot template))

def adjDots : Str → Bool
  | '.' :: '.' :: _ => true
  | _ :: rest => adjDots rest
  | [] => false


theorem adjDots_cons2_true (t : Str) : adjDots ('.' :: '.' :: t) = true := rfl

theorem adjDots_cons2_ne (x y : Char) (t : Str) (h : ¬(x = '.' ∧ y = '.')) :
    adjDots (x :: y :: t) = adjDots (y :: t) := by
  rw [adjDots.eq_def]
  split
  · simp_all
  · simp_all
  · simp_all

theorem adjDots_single (c : Char) : adjDots [c] = false := by
  rw [adjDots.eq_def]
  split <;> simp_all [adjDots]

theorem removeDotDot_head_ne (d : Char) (t : Str) (hd : d ≠ '.') :
    removeDotDot (d :: t) = d :: removeDotDot t := by
  rw [removeDotDot.eq_def]
  split <;> simp_all

theorem adjDots_removeDotDot : ∀ s, adjDots (removeDotDot s) = false := by
  intro s
  induction s using removeDotDot.induct with
  | case1 rest ih =>
    rw [removeDotDot]
    exact ih
  | case2 c rest h ih =>
    have he : removeDotDot (c :: rest) = c :: removeDotDot rest := by
      rw [removeDotDot.eq_def]
      split <;> simp_all
    rw [he]
    by_cases hc : c = '.'
    · subst hc
      cases rest with
      | nil => rfl
      | cons d t2 =>
        have hd : d ≠ '.' := by
          intro hd2
          subst hd2
          exact h t2 rfl rfl
        rw [removeDotDot_head_ne d t2 hd]
        rw [adjDots_cons2_ne _ _ _ (fun hp => hd hp.2)]
        rw [← removeDotDot_head_ne d t2 hd]
        exact ih
    · cases hrr : removeDotDot rest with
      | nil => exact adjDots_single c
      | cons e X =>
        rw [adjDots_cons2_ne _ _ _ (fun hp => hc hp.1), ← hrr]
        exact ih
  | case3 => rfl

theorem adjDots_eq_hasSub : ∀ s, adjDots s = hasSub "..".toList s := by
  intro s
  induction s with
  | nil => rfl
  | cons c t ih =>
    cases t with
    | nil => simp [adjDots_single, hasSub, List.isPrefixOf]
    | cons d t2 =>
      by_cases hcd : c = '.' ∧ d = '.'
      · obtain ⟨hc, hd⟩ := hcd
        subst hc; subst hd
        simp [adjDots_cons2_true, hasSub, List.isPrefixOf]
      · rw [adjDots_cons2_ne _ _ _ hcd, ih]
        have hp : ("..".toList).isPrefixOf (c :: d :: t2) = false := by
          simp only [show ("..".toList : Str) = ['.', '.'] from rfl]
          simp only [List.isPrefixOf, Bool.and_eq_false_iff]
          by_cases hc : c = '.'
          · by_cases hd : d = '.'
            · exact absurd ⟨hc, hd⟩ hcd
            · simp [hc, hd]
              intro h2
              exact absurd h2.symm hd
          · left
            simp [beq_eq_false_iff_ne]
            exact fun h2 => hc h2.symm
        have hR : hasSub "..".toList (c :: d :: t2) =
            (("..".toList).isPrefixOf (c :: d :: t2) ||
              hasSub "..".toList (d :: t2)) := rfl
        rw [hR, hp]
        simp

theorem stripLeadSlash_suffix : ∀ s, stripLeadSlash s <:+ s := by
  intro s
  induction s with
  | nil => exact List.suffix_refl _
  | cons c t ih =>
    by_cases hc : c = '/'
    · subst hc
      rw [show stripLeadSlash ('/' :: t) = stripLeadSlash t from by rw [stripLeadSlash]]
      exact ih.trans (List.suffix_cons _ _)
    · have he : stripLeadSlash (c :: t) = c :: t := by
        rw [stripLeadSlash.eq_def]
        split <;> simp_all
      rw [he]

theorem hasSub_suffix_false (pat s t : Str) (hs : hasSub pat s = false)
    (h : t <:+ s) : hasSub pat t = false := by
  by_contra hh
  have h2 : hasSub pat t = true := by simpa using hh
  rw [hasSub_infix_iff] at h2
  have h3 : pat <:+: s := h2.trans h.isInfix
  rw [← hasSub_infix_iff] at h3
  simp [hs] at h3

theorem adjDots_map_eq (f : Char → Char) (hf : ∀ c, (f c = '.') ↔ (c = '.')) :
    ∀ s, adjDots (s.map f) = adjDots s := by
  intro s
  induction s with
  | nil => rfl
  | cons c t ih =>
    cases t with
    | nil => simp [adjDots_single]
    | cons d t2 =>
      simp only [List.map_cons] at ih ⊢
      by_cases hcd : c = '.' ∧ d = '.'
      · obtain ⟨hc, hd⟩ := hcd
        subst hc; subst hd
        rw [show f '.' = '.' from (hf '.').mpr rfl]
        rfl
      · have h2 : ¬(f c = '.' ∧ f d = '.') := by
          rintro ⟨h3, h4⟩
          exact hcd ⟨(hf c).mp h3, (hf d).mp h4⟩
        rw [adjDots_cons2_ne _ _ _ h2, adjDots_cons2_ne _ _ _ hcd]
        exact ih

def splitSlash : Str → List Str
  | [] => [[]]
  | '/' :: rest => [] :: splitSlash rest
  | c :: rest =>
    match splitSlash rest with
    | seg :: more => (c :: seg) :: more
    | [] => [[c]]

def normStep (acc : List Str) (seg : Str) : List Str :=
  if seg == "..".toList then acc.dropLast
  else if seg == ([] : Str) || seg == ".".toList then acc
  else acc ++ [seg]

def normSegs (segs : List Str) : List Str := segs.foldl normStep []

def joinResolve (root name : Str) : List Str :=
  normSegs (splitSlash root ++ splitSlash name)

theorem splitSlash_spec : ∀ s : Str, ∃ seg1 more, splitSlash s = seg1 :: more ∧
    seg1 <+: s ∧ ∀ seg ∈ more, seg <:+: s := by
  intro s
  induction s with
  | nil => exact ⟨[], [], rfl, List.nil_prefix, by simp⟩
  | cons c t ih =>
    obtain ⟨seg1, more, heq, hpre, hmem⟩ := ih
    by_cases hc : c = '/'
    · subst hc
      refine ⟨[], splitSlash t, by rw [splitSlash], List.nil_prefix, ?_⟩
      intro seg hm
      rw [heq] at hm
      rcases hm with _ | hm
      · exact List.infix_cons hpre.isInfix
      · exact List.infix_cons (hmem _ (by assumption))
    · have he : splitSlash (c :: t) = (c :: seg1) :: more := by
        rw [splitSlash.eq_def]
        split
        · simp_all
        · simp_all
        · simp_all [heq]
      refine ⟨c :: seg1, more, he, by simpa using hpre, ?_⟩
      intro seg hm
      exact List.infix_cons (hmem _ hm)

theorem splitSlash_mem_infix (s seg : Str) (h : seg ∈ splitSlash s) :
    seg <:+: s := by
  obtain ⟨seg1, more, heq, hpre, hmem⟩ := splitSlash_spec s
  rw [heq] at h
  rcases h with _ | h
  · exact hpre.isInfix
  · exact hmem _ (by assumption)

theorem no_dotdot_seg (s : Str) (hs : hasSub "..".toList s = false) :
    ∀ seg ∈ splitSlash s, seg ≠ "..".toList := by
  intro seg hm he
  subst he
  have h2 := splitSlash_mem_infix s _ hm
  rw [← hasSub_infix_iff] at h2
  rw [hs] at h2
  exact Bool.noConfusion h2

theorem foldl_normStep_prefix : ∀ (b : List Str) (acc : List Str),
    (∀ seg ∈ b, seg ≠ "..".toList) → acc <+: List.foldl normStep acc b := by
  intro b
  induction b with
  | nil => intro acc _; exact List.prefix_refl _
  | cons seg rest ih =>
    intro acc hb
    rw [List.foldl_cons]
    have h1 : acc <+: normStep acc seg := by
      unfold normStep
      have hseg : (seg == "..".toList) = false :=
        beq_eq_false_iff_ne.mpr (hb seg (by simp))
      rw [hseg]
      simp only [Bool.false_eq_true, if_false]
      by_cases h2 : (seg == ([] : Str) || seg == ".".toList) = true
      · rw [if_pos h2]
      · rw [if_neg h2]
        exact List.prefix_append _ _
    exact h1.trans (ih (normStep acc seg) (fun seg2 hm => hb seg2 (by simp [hm])))

theorem sanitize_no_dotdot (template : Str) :
    hasSub "..".toList (sanitizeTemplate template) = false := by
  unfold sanitizeTemplate
  have h1 : hasSub "..".toList (removeDotDot template) = false := by
    rw [← adjDots_eq_hasSub]
    exact adjDots_removeDotDot template
  have h2 : hasSub "..".toList (stripLeadSlash (removeDotDot template)) = false :=
    hasSub_suffix_false _ _ _ h1 (stripLeadSlash_suffix _)
  rw [← adjDots_eq_hasSub] at h2 ⊢
  have hf : ∀ c : Char, ((if c == '\\' then '/' else c) = '.') ↔ (c = '.') := by
    intro c
    by_cases hc : (c == '\\') = true
    · have : c = '\\' := by simpa using hc
      subst this
      simp
    · simp [hc]
  unfold backToSlash
  rw [adjDots_map_eq _ hf]
  exact h2

theorem sanitize_join_in_root (root template : Str) :
    normSegs (splitSlash root) <+: joinResolve root (sanitizeTemplate template) := by
  unfold joinResolve normSegs
  rw [List.foldl_append]
  exact foldl_normStep_prefix _ _ (no_dotdot_seg _ (sanitize_no_dotdot template))

/--
**C9 (amended).**  Every `..` occurrence is removed from the requested
template name (the removal pass cannot leave or recreate adjacent dots,
and the later passes cannot introduce any), so the `path.join`-style
resolution of the sanitized name always stays under the views root: the
root's normalized segments remain a prefix of the resolved path.  The
claim's other half — that leading path separators are removed — holds
only for forward slashes; a leading backslash survives (see the
counterexample), which is what the amendment drops.
-/
theorem claim_C9 :
    (∀ template : Str,
        hasSub "..".toList (sanitizeTemplate template) = false) ∧
    (∀ root template : Str,
        normSegs (splitSlash root) <+:
          joinResolve root (sanitizeTemplate template)) :=
  ⟨sanitize_no_dotdot, sanitize_join_in_root⟩

/--
**C9 (counterexample).**  Not every leading path separator is removed:
backslashes are rewritten to `/` only *after* the leading-slash strip, so
the template name `\etc` sanitizes to `/etc`, which still begins with a
path separator.  (Under `path.join` the leading separator still cannot
escape the views root, which is why the amended theorem keeps the
containment conclusion.)
-/
theorem claim_C9_counterexample :
    sanitizeTemplate "\\etc".toList = "/etc".toList ∧
    ("/etc".toList : Str).take 1 = ['/'] := ⟨rfl, rfl⟩

/-! ### Asynchronous action monitoring (`NodeWireManager.handleComponentCall`,
NodeWireManager.ts lines 288-310).  For an async method with a reactive
callback the code registers `setInterval(checkAndSendUpdates, 50)`, awaits
the method, and in the `finally` — which runs whether the promise resolved
or rejected — schedules `process.nextTick(() => { checkAndSendUpdates();
clearInterval(checkInterval); })`.  The model is the Node event loop
restricted to these actors: `pending` counts the interval ticks that fire
before the promise settles; `process.nextTick` callbacks run before any
timer; `clearInterval` stops the interval.  Observable events: a `poll`
(an interval tick running `checkAndSendUpdates`), the `finalCheck` (the
last `checkAndSendUpdates`, running after the promise's own
completion/cleanup handlers because `nextTick` was scheduled from the
`finally`), and the `cancel` (`clearInterval`).  The one-off
`setTimeout(..., 0)` immediate check of lines 283-286 precedes the cited
region and is not part of the modelled trace. -/

inductive PollEv
  | poll
  | finalCheck
  | cancel
deriving DecidableEq, BEq

structure PollS where
  pending : Nat
  outcome : Bool
  settled : Bool
  tickQueued : Bool
  timer : Bool

/-- One event-loop turn: `nextTick` callbacks run first (the cleanup does
the final check, then clears the interval — regardless of `outcome`,
since it was scheduled from a `finally`); otherwise, if the promise has
not settled, either it settles now (queueing the cleanup) or the interval
fires one poll. -/
def pollStep (s : PollS) : Option (List PollEv × PollS) :=
  if s.tickQueued then
    some ([.finalCheck, .cancel],
      { s with tickQueued := false, timer := false })
  else if !s.settled then
    if s.pending = 0 then
      some ([], { s with settled := true, tickQueued := true })
    else if s.timer then
      some ([.poll], { s with pending := s.pending - 1 })
    else none
  else none

/-- Run the event loop for at most `fuel` turns, collecting events. -/
def pollRun : Nat → PollS → List PollEv
  | 0, _ => []
  | fuel + 1, s =>
    match pollStep s with
    | none => []
    | some (evs, s2) => evs ++ pollRun fuel s2

/-- Initial state: interval registered, promise pending for `n` ticks. -/
def pollInit (n : Nat) (outcome : Bool) : PollS :=
  ⟨n, outcome, false, false, true⟩

theorem pollRun_stop (fuel : Nat) (s : PollS) (h : pollStep s = none) :
    pollRun fuel s = [] := by
  cases fuel with
  | zero => rfl
  | succ f => rw [pollRun, h]

theorem pollTrace_eq (n : Nat) : ∀ (fuel : Nat) (outcome : Bool),
    n + 2 ≤ fuel →
    pollRun fuel (pollInit n outcome) =
      List.replicate n PollEv.poll ++ [PollEv.finalCheck, PollEv.cancel] := by
  induction n with
  | zero =>
    intro fuel outcome hf
    match fuel, hf with
    | f + 2, _ =>
      have h1 : pollStep (pollInit 0 outcome) =
          some ([], ⟨0, outcome, true, true, true⟩) := by
        simp [pollStep, pollInit]
      have h2 : pollStep ⟨0, outcome, true, true, true⟩ =
          some ([.finalCheck, .cancel], ⟨0, outcome, true, false, false⟩) := by
        simp [pollStep]
      have h3 : pollStep (⟨0, outcome, true, false, false⟩ : PollS) = none := by
        simp [pollStep]
      rw [pollRun, h1]
      show pollRun (f + 1) ⟨0, outcome, true, true, true⟩ = _
      rw [pollRun, h2]
      show [PollEv.finalCheck, PollEv.cancel] ++
        pollRun f ⟨0, outcome, true, false, false⟩ = _
      rw [pollRun_stop f _ h3]
      rfl
  | succ m ih =>
    intro fuel outcome hf
    match fuel, hf with
    | f + 1, hf =>
      have hstep : pollStep (pollInit (m + 1) outcome) =
          some ([.poll], pollInit m outcome) := by
        simp [pollStep, pollInit]
      rw [pollRun, hstep]
      show [PollEv.poll] ++ pollRun f (pollInit m outcome) = _
      rw [ih f outcome (by omega)]
      simp [List.replicate_succ]

theorem pollTrace_tail (n : Nat) :
    (List.replicate n PollEv.poll ++
        [PollEv.finalCheck, PollEv.cancel]).dropWhile
      (fun e => !(e == PollEv.cancel)) = [PollEv.cancel] := by
  induction n with
  | zero => rfl
  | succ m ih =>
    rw [List.replicate_succ, List.cons_append, List.dropWhile_cons]
    simpa using ih

/--
**C7.**  For an asynchronous action with a reactive-update callback, the
polling timer is cancelled exactly once after the action settles —
identically for resolution and rejection, since the cleanup is scheduled
from a `finally` — and the cancellation is immediately preceded by one
final change-detection pass that runs on `process.nextTick`, i.e. after
the action's completion/cleanup handlers; from the cancellation on,
nothing further happens (in particular no poll follows it).  The whole
trace is `n` polls, the final check, then the cancel.
-/
theorem claim_C7 (n fuel : Nat) (outcome : Bool) (hf : n + 2 ≤ fuel) :
    pollRun fuel (pollInit n outcome) =
      List.replicate n PollEv.poll ++ [PollEv.finalCheck, PollEv.cancel] ∧
    (pollRun fuel (pollInit n outcome)).count PollEv.cancel = 1 ∧
    (pollRun fuel (pollInit n outcome)).dropWhile
        (fun e => !(e == PollEv.cancel)) = [PollEv.cancel] := by
  have he := pollTrace_eq n fuel outcome hf
  refine ⟨he, ?_, ?_⟩
  · rw [he]
    have h1 : (PollEv.cancel == PollEv.poll) = false := rfl
    have h2 : (PollEv.finalCheck == PollEv.cancel) = false := rfl
    have h3 : (PollEv.poll == PollEv.cancel) = false := rfl
    have h4 : ∀ k, List.count PollEv.cancel (List.replicate k PollEv.poll) = 0 := by
      intro k
      induction k with
      | zero => rfl
      | succ j ihj => simp [List.replicate_succ, List.count_cons, h1, h3, ihj]
    have h5 : (PollEv.cancel == PollEv.cancel) = true := rfl
    simp [List.count_append, List.count_cons, h1, h2, h3, h4, h5]
  · rw [he]
    exact pollTrace_tail n

/-- Witness for `claim_C7`: three interval ticks, a resolving action. -/
theorem claim_C7_witness :
    pollRun 10 (pollInit 3 true) =
      List.replicate 3 PollEv.poll ++ [PollEv.finalCheck, PollEv.cancel] ∧
    (pollRun 10 (pollInit 3 true)).count PollEv.cancel = 1 ∧
    (pollRun 10 (pollInit 3 true)).dropWhile
        (fun e => !(e == PollEv.cancel)) = [PollEv.cancel] :=
  claim_C7 3 10 true (by decide)

/-! ### Automatic property marking
(`NodeWireManager.autoMarkComponentProperties`, NodeWireManager.ts lines
408-631).  Every pass is a global regex replace; the matchers below encode
the JavaScript matching semantics of each regex, including tag-name
backtracking where a backreference or a lookahead makes it observable.

Two of the regexes carry a negative lookahead `(?![^>]*data-nodewire-id)`
(resp. `data-nodewire-prop`) placed *after* a greedy `[^>]*`: the greedy
part's first attempt consumes everything up to the closing `>`, at which
point `[^>]*data-nodewire-id` can no longer match anything, so the
lookahead always succeeds without forcing backtracking — it is vacuous.
For `buttonWithEventRegex` the callback still re-checks
`includes('data-nodewire-prop')`; for `eventElementRegex` (the per-event
pass at lines 596-618) there is **no** callback re-check, which is the
idempotence bug exercised by claim C6.  The lookaheads of
`disabledElementRegex`, `loadingTextRegex`, `exactValueRegex` and
`containsValueRegex` sit directly after the tag name, so there they are
real guards over the region between the tag name and the closing `>`
(evaluated at every backtracked tag-name split). -/

/-- Number of positions at which `pat` occurs in `s`. -/
def countSub (pat : Str) : Str → Nat
  | [] => 0
  | c :: rest => (if pat.isPrefixOf (c :: rest) then 1 else 0) + countSub pat rest

/-- Split `t` (the text after `<`) into the open-tag body (`[^>]*`) and
the text after the closing `>`; `none` when no `>` follows. -/
def tagInner (t : Str) : Option (Str × Str) :=
  let inner := t.takeWhile (fun d => !(d == '>'))
  if inner.length < t.length then some (inner, t.drop (inner.length + 1)) else none

/-- Length of the leading `[a-zA-Z0-9]*` run (candidate tag-name chars). -/
def alnumRun (inner : Str) : Nat :=
  (inner.takeWhile (fun c => isAlphaC c || c.isDigit)).length

def headAlpha : Str → Bool
  | c :: _ => isAlphaC c
  | [] => false

/-- Longest tag-name length `k ∈ [1, run]` satisfying `pred` — JavaScript
backtracking tries the greedy (longest) tag name first. -/
def findTagSplit (pred : Nat → Bool) (run : Nat) : Option Nat :=
  ((List.range run).reverse.find? (fun j => pred (j + 1))).map (· + 1)

/-- The inserted marker attributes of the property passes. -/
def propMarkAttrs (cid prop : Str) : Str :=
  " data-nodewire-id=\"".toList ++ cid ++ "\" data-nodewire-prop=\"".toList ++
    prop ++ "\"".toList

/-- `buttonWithEventRegex`
`(<button[^>]*data-nw-event-[^>]*)(?![^>]*data-nodewire-prop)([^>]*>)`
(lines 425-459): the lookahead is vacuous (see above), so the match is any
open tag starting `<button` that contains `data-nw-event-`; group 1 is the
body up to `>`, group 2 is `>`.  The callback bails on an existing
`data-nodewire-prop`, locates the match in the pass's input html with
`html.indexOf(match)` (first occurrence!), takes the button content up to
`</button>`, and marks only when the content matches the regex
alternation Cargando|Loading|- or the tag contains `disabled`. -/
def tryButtonEvent (cid prop origHtml : Str) : Str → Option (Str × Str)
  | '<' :: t =>
    if ("button".toList).isPrefixOf t then
      match tagInner t with
      | some (inner, rest) =>
        if hasSub "data-nw-event-".toList (inner.drop 6) then
          let m : Str := '<' :: inner ++ ['>']
          let keep := some (m, rest)
          if hasSub "data-nodewire-prop".toList ('<' :: inner) then keep
          else
            match findSub m origHtml with
            | none => keep
            | some mi =>
              let afterOpenTag := origHtml.drop (mi + m.length)
              match findSub "</button>".toList afterOpenTag with
              | none => keep
              | some ci =>
                let content := afterOpenTag.take ci
                let hasLoadingText := hasSub "Cargando".toList content ||
                  hasSub "Loading".toList content || hasSub "-".toList content
                let hasDisabled := hasSub "disabled".toList ('<' :: inner) ||
                  hasSub "disabled".toList ['>']
                if hasLoadingText || hasDisabled then
                  some (('<' :: inner) ++ propMarkAttrs cid prop ++ ['>'], rest)
                else keep
        else none
      | none => none
    else none
  | _ => none

/-- `disabledElementRegex`
`(<([a-zA-Z][a-zA-Z0-9]*)(?![^>]*data-nodewire-prop)[^>]*disabled[^>]*>)`
(lines 463-479): matches an open tag when some tag-name split leaves a
region (to the closing `>`) containing `disabled` and free of
`data-nodewire-prop`; the match always extends to the first `>`.  The
callback re-checks `includes` and rewrites the final `>` . -/
def tryDisabled (cid prop : Str) : Str → Option (Str × Str)
  | '<' :: t =>
    match tagInner t with
    | some (inner, rest) =>
      if headAlpha inner then
        match findTagSplit (fun k =>
            hasSub "disabled".toList (inner.drop k) &&
            !(hasSub "data-nodewire-prop".toList (inner.drop k))) (alnumRun inner) with
        | some _ =>
          let m : Str := '<' :: inner ++ ['>']
          if hasSub "data-nodewire-prop".toList m then some (m, rest)
          else some (('<' :: inner) ++ propMarkAttrs cid prop ++ ['>'], rest)
        | none => none
      else none
    | none => none
  | _ => none

/-- `loadingTextRegex`
`(<(tag)(?![^>]*data-nodewire-prop)[^>]*>)([^<]*(?:Cargando|Loading|-)[^<]*)(</\2>)`
(lines 483-503): open tag, then the text run up to the next `<` containing
one of the three alternatives, then the backreferenced close tag; the
tag-name split must satisfy the lookahead and the close-tag literal.
Callback: `includes` guard, then mark when the content contains
`Cargando`/`Loading` or trims to exactly `-`. -/
def tryLoadingText (cid prop : Str) : Str → Option (Str × Str)
  | '<' :: t =>
    match tagInner t with
    | some (inner, rest) =>
      if headAlpha inner then
        let content := rest.takeWhile (fun d => !(d == '<'))
        let afterC := rest.drop content.length
        if hasSub "Cargando".toList content || hasSub "Loading".toList content ||
            hasSub "-".toList content then
          match findTagSplit (fun k =>
              !(hasSub "data-nodewire-prop".toList (inner.drop k)) &&
              (("</".toList ++ inner.take k ++ ['>']).isPrefixOf afterC)) (alnumRun inner) with
          | some k =>
            let close : Str := "</".toList ++ inner.take k ++ ['>']
            let openTag : Str := '<' :: inner ++ ['>']
            let after2 := afterC.drop close.length
            if hasSub "data-nodewire-prop".toList openTag then
              some (openTag ++ content ++ close, after2)
            else if hasSub "Cargando".toList content ||
                hasSub "Loading".toList content || trimS content == "-".toList then
              some (('<' :: inner) ++ propMarkAttrs cid prop ++ ['>'] ++
                content ++ close, after2)
            else some (openTag ++ content ++ close, after2)
          | none => none
        else none
      else none
    | none => none
  | _ => none

/-- `exactValueRegex`
`(<(tag)(?![^>]*data-nodewire-prop)[^>]*>)\s*VALUE\s*(</\2>)`
(lines 517-539): open tag, optional whitespace, the exact value, optional
whitespace, backreferenced close tag.  The replacement drops the
whitespace: `newOpenTag + valueStr + closeTag`. -/
def tryExactValue (cid prop val : Str) : Str → Option (Str × Str)
  | '<' :: t =>
    match tagInner t with
    | some (inner, rest) =>
      if headAlpha inner then
        let ws1 := rest.takeWhile isWsC
        let r1 := rest.drop ws1.length
        if val.isPrefixOf r1 then
          let r2 := r1.drop val.length
          let ws2 := r2.takeWhile isWsC
          let r3 := r2.drop ws2.length
          match findTagSplit (fun k =>
              !(hasSub "data-nodewire-prop".toList (inner.drop k)) &&
              (("</".toList ++ inner.take k ++ ['>']).isPrefixOf r3))
              (alnumRun inner) with
          | some k =>
            let close : Str := "</".toList ++ inner.take k ++ ['>']
            let openTag : Str := '<' :: inner ++ ['>']
            let after2 := r3.drop close.length
            if hasSub "data-nodewire-prop".toList openTag then
              some (openTag ++ ws1 ++ val ++ ws2 ++ close, after2)
            else
              some (('<' :: inner) ++ propMarkAttrs cid prop ++ ['>'] ++
                val ++ close, after2)
          | none => none
        else none
      else none
    | none => none
  | _ => none

/-- `containsValueRegex`
`(<(tag)(?![^>]*data-nodewire-prop)[^>]*>)([^<]*VALUE[^<]*)(</\2>)`
(lines 543-570): like the exact pass but the content is the whole text run
up to the next `<`, required to contain the value.  The callback
additionally requires the trimmed content to equal, start with or end
with the value. -/
def tryContainsValue (cid prop val : Str) : Str → Option (Str × Str)
  | '<' :: t =>
    match tagInner t with
    | some (inner, rest) =>
      if headAlpha inner then
        let content := rest.takeWhile (fun d => !(d == '<'))
        let afterC := rest.drop content.length
        if hasSub val content then
          match findTagSplit (fun k =>
              !(hasSub "data-nodewire-prop".toList (inner.drop k)) &&
              (("</".toList ++ inner.take k ++ ['>']).isPrefixOf afterC))
              (alnumRun inner) with
          | some k =>
            let close : Str := "</".toList ++ inner.take k ++ ['>']
            let openTag : Str := '<' :: inner ++ ['>']
            let after2 := afterC.drop close.length
            let keep := some (openTag ++ content ++ close, after2)
            if hasSub "data-nodewire-prop".toList openTag then keep
            else
              let tc := trimS content
              if tc == val || val.isSuffixOf tc || val.isPrefixOf tc then
                some (('<' :: inner) ++ propMarkAttrs cid prop ++ ['>'] ++
                  content ++ close, after2)
              else keep
          | none => none
        else none
      else none
    | none => none
  | _ => none

/-- One reactive-property iteration (lines 418-505): the three passes in
source order, each a global replace over the previous result; the button
pass's callback searches the pass's own input html. -/
def reactivePass (cid prop : Str) (h : Str) : Str :=
  let h1 := scanRepl (tryButtonEvent cid prop h) h
  let h2 := scanRepl (tryDisabled cid prop) h1
  scanRepl (tryLoadingText cid prop) h2

/-- One state-entry iteration (lines 508-571): exact-value pass then
contains-value pass, the value being `String(propValue)`. -/
def valuePass (cid prop val : Str) (h : Str) : Str :=
  let h1 := scanRepl (tryExactValue cid prop val) h
  scanRepl (tryContainsValue cid prop val) h1

/-- Does the open-tag body contain `data-nw-event-` followed by at least
one `[a-zA-Z0-9-]` character? -/
def hasEventAttr : Str → Bool
  | [] => false
  | c :: rest =>
    (("data-nw-event-".toList).isPrefixOf (c :: rest) &&
      (match (c :: rest).drop 14 with
        | d :: _ => isAlphaC d || d.isDigit || d == '-'
        | [] => false)) || hasEventAttr rest

/-- `eventElementRegex`
`(<[a-zA-Z][^>]*data-nw-event-[a-zA-Z0-9-]+[^>]*)(?![^>]*data-nodewire-id)([^>]*>)`
(line 596): the lookahead is vacuous (the preceding greedy `[^>]*` already
sits just before `>` on the first attempt), so any open tag carrying a
`data-nw-event-*` attribute matches — **also one already marked with
`data-nodewire-id`** — and, unlike the button pass, the replacement
(lines 612-618) re-inserts the marker attributes before the first `>`
with no callback guard. -/
def tryEventMark (cid cname : Str) : Str → Option (Str × Str)
  | '<' :: t =>
    match tagInner t with
    | some (inner, rest) =>
      if headAlpha inner && hasEventAttr (inner.drop 1) then
        let m : Str := '<' :: inner ++ ['>']
        some (replaceFirst m ">".toList
          (" data-nodewire-id=\"".toList ++ cid ++
            "\" data-nodewire-component=\"".toList ++ cname ++ "\">".toList), rest)
      else none
    | none => none
  | _ => none

/-- `<script[^>]*data-nodewire-state="CID"[^>]*>` matches at this
position. -/
def tryStateScript (cid : Str) (s : Str) : Bool :=
  ("<script".toList).isPrefixOf s &&
  (let afterTag := s.drop 7
   let inner := afterTag.takeWhile (fun d => !(d == '>'))
   decide (inner.length < afterTag.length) &&
   hasSub ("data-nodewire-state=\"".toList ++ cid ++ ['"']) inner)

/-- Does the open-tag body contain `data-nodewire-state="[^"]*"`? -/
def hasStateAttrAny : Str → Bool
  | [] => false
  | c :: rest =>
    (("data-nodewire-state=\"".toList).isPrefixOf (c :: rest) &&
      ((c :: rest).drop 21).any (fun d => d == '"')) || hasStateAttrAny rest

/-- `<script[^>]*data-nodewire-state="[^"]*"[^>]*>` matches here. -/
def tryAnyStateScript (s : Str) : Bool :=
  ("<script".toList).isPrefixOf s &&
  (let afterTag := s.drop 7
   let inner := afterTag.takeWhile (fun d => !(d == '>'))
   decide (inner.length < afterTag.length) && hasStateAttrAny inner)

/-- First index at which `p` holds of the suffix (`RegExp.exec`'s match
index). -/
def findIdx (p : Str → Bool) : Str → Option Nat
  | [] => none
  | c :: rest => if p (c :: rest) then some 0 else (findIdx p rest).map (· + 1)

/-- The event-marking pass (lines 574-630): locate this component's state
script, take the section from just after its `</script>` up to the next
state script (of any component) or the end, collect the event-element
matches there, and splice the marked replacements back (the back-to-front
splice over non-overlapping matches equals an in-place scan). -/
def eventPass (cid cname : Str) (html : Str) : Str :=
  match findIdx (tryStateScript cid) html with
  | none => html
  | some i =>
    match findSub "</script>".toList (html.drop i) with
    | none => html
    | some jrel =>
      let secStart := i + jrel + 9
      let restHtml := html.drop secStart
      let sectionLen :=
        match findIdx tryAnyStateScript restHtml with
        | some k => k
        | none => restHtml.length
      html.take secStart ++
        scanRepl (tryEventMark cid cname) (restHtml.take sectionLen) ++
        restHtml.drop sectionLen

/-- `autoMarkComponentProperties(html, component)` with
`state = component.getState()`, `componentId = component.id`,
`component.name = cname`: the reactive-property loop (over the state keys
starting with `$`), the state-value loop (over all state entries), then
the event pass. -/
def autoMarkComponentProperties (cid cname : Str) (state : Ctx) (html : Str) :
    Str :=
  let reactiveProps := state.filter (fun kv => kv.1.take 1 == ['$'])
  let h1 := reactiveProps.foldl (fun h kv => reactivePass cid kv.1 h) html
  let h2 := state.foldl (fun h kv => valuePass cid kv.1 (jsToString kv.2) h) h1
  eventPass cid cname h2

/-- A rendered counter component with empty public state: its injected
state script (see `Component.render`, part_002 line 31) followed by a
button carrying a `data-nw-event-click` attribute. -/
def c6Html : Str :=
  ("<script type=\"application/json\" data-nodewire-state=\"abc\" data-component-name=\"counter\">\x7b\x7d</script><button data-nw-event-click=\"inc\">Go</button>").toList

def c6Run1 : Str := autoMarkComponentProperties "abc".toList "counter".toList [] c6Html

def c6Run2 : Str := autoMarkComponentProperties "abc".toList "counter".toList [] c6Run1

/--
**C6 (code bug).**  Marker correlation is *not* idempotent: the event pass
of `autoMarkComponentProperties` re-marks an element that already carries
`data-nodewire-id` for the same component, because `eventElementRegex`'s
negative lookahead `(?![^>]*data-nodewire-id)` sits after a greedy
`[^>]*` (which on its first attempt already consumes everything up to the
closing `>`, making the lookahead vacuously succeed) and, unlike the other
passes, the splice of lines 612-618 has no callback re-check.  On the
rendered counter html the first run adds one marker; the second run, on
the first run's output with the same (empty) state, adds a second copy of
the marker attributes to the same button. -/
theorem claim_C6 :
    countSub "data-nodewire-id".toList c6Run1 = 1 ∧
    countSub "data-nodewire-id".toList c6Run2 = 2 ∧
    c6Run2 ≠ c6Run1 := by
  refine ⟨rfl, rfl, fun he => ?_⟩
  have h1 : countSub "data-nodewire-id".toList c6Run1 = 1 := rfl
  have h2 : countSub "data-nodewire-id".toList c6Run2 = 2 := rfl
  rw [he, h1] at h2
  exact absurd h2 (by decide)

/-! ### The conditional walk (claim C1): translation of a bare identifier
condition, the pass-by-pass trace of an `@if`/`@else`/`@endif` template,
and the parse/evaluation of the generated ternary. -/

theorem alpha_not_ws (c : Char) (h : isAlphaC c = true) : isWsC c = false := by
  unfold isWsC
  by_contra hw
  simp only [Bool.not_eq_false, Bool.or_eq_true, beq_iff_eq] at hw
  rcases hw with ((h1 | h1) | h1) | h1 <;> (subst h1; exact absurd h (by decide))

theorem alpha_isWord (c : Char) (h : isAlphaC c = true) : isWordC c = true := by
  unfold isWordC
  unfold isAlphaC at h
  simp [h]

theorem all_word_of_alpha (v : Str) (h : v.all isAlphaC = true) :
    v.all isWordC = true := all_imp _ _ alpha_isWord v h

theorem chainTail_nil : chainTail [] = ([], []) := rfl

theorem parseChainAt_alpha (w : Str) (h : w.all isAlphaC = true) :
    parseChainAt w = none := by
  cases w with
  | nil => rfl
  | cons c rest =>
    simp only [List.all_cons, Bool.and_eq_true] at h
    unfold parseChainAt parseIdentAt
    simp only [h.1, Bool.true_or, if_true]
    rw [takeWhile_all isWordC rest (all_word_of_alpha rest h.2),
      dropWhile_all isWordC rest (all_word_of_alpha rest h.2)]
    simp [chainTail_nil]

theorem chainMatchAt_alpha (p1 : Option Char) (w : Str)
    (h : w.all isAlphaC = true) : chainMatchAt p1 w = none := by
  unfold chainMatchAt
  cases p1 with
  | none => exact parseChainAt_alpha w h
  | some pc =>
    by_cases hw : isWordC pc = true
    · simp [hw]
    · simp only [hw, Bool.false_eq_true, if_false]
      exact parseChainAt_alpha w h

theorem collectNestedF_alpha (w : Str) (h : w.all isAlphaC = true) :
    ∀ f i p2 p1 r a, w.length ≤ f →
      collectNestedF f i p2 p1 w r a = (a.reverse, r) := by
  induction w with
  | nil =>
    intro f i p2 p1 r a _
    cases f <;> rfl
  | cons c rest ih =>
    intro f i p2 p1 r a hf
    simp only [List.length_cons] at hf
    match f, hf with
    | g + 1, _ =>
      rw [collectNestedF, chainMatchAt_alpha p1 (c :: rest) h]
      exact ih (by simp_all) g (i + 1) p1 (some c) r a (by omega)

theorem collectSimpleF_single (c : Char) (rest : Str)
    (h : (c :: rest).all isAlphaC = true)
    (hkw : jsKeywords.contains (c :: rest) = false)
    (hdata : ((c :: rest) == "data".toList) = false) :
    collectSimpleF (rest.length + 1) 0 none none (c :: rest) [] [] =
      [⟨0, rest.length + 1, "data.".toList ++ (c :: rest)⟩] := by
  have hc : isAlphaC c = true := by simp_all
  have hrest : rest.all isAlphaC = true := by simp_all
  rw [collectSimpleF]
  have hident : identMatchAt none (c :: rest) =
      some ((c :: rest), []) := by
    unfold identMatchAt parseIdentAt
    simp only [hc, Bool.true_or, if_true]
    rw [takeWhile_all isWordC rest (all_word_of_alpha rest hrest),
      dropWhile_all isWordC rest (all_word_of_alpha rest hrest)]
  rw [hident]
  have hbase : ∀ f i p2 p1 ranges,
      collectSimpleF f i p2 p1 ([] : Str) ranges
        [⟨0, rest.length + 1, "data.".toList ++ (c :: rest)⟩] =
      [⟨0, rest.length + 1, "data.".toList ++ (c :: rest)⟩] := by
    intro f i p2 p1 ranges
    cases f <;> rfl
  simp [rangesOverlap, beforeBlocked, hkw, hdata, hbase]
  have hcond : (c :: rest) ∉ jsKeywords ∧ (¬c = 'd' ∨ ¬rest = ['a', 't', 'a']) := by
    constructor
    · simpa using hkw
    · have hne2 : c :: rest ≠ ('d' :: ['a', 't', 'a'] : Str) := by
        simpa using hdata
      by_cases hcc : c = 'd'
      · right
        intro hr
        exact hne2 (by rw [hcc, hr])
      · left
        exact hcc
  rw [if_pos hcond, if_pos hcond]
  exact hbase _ _ _ _ _

theorem convert_ident (v : Str) (hne : v ≠ [])
    (hv : v.all isAlphaC = true)
    (hkw : jsKeywords.contains v = false)
    (hdata : (v == "data".toList) = false) :
    convertBladeExpression v = "data.".toList ++ v := by
  have hdollar : v.all (fun c => !(c == '$')) = true :=
    all_ne_of_alpha v '$' hv (by decide)
  unfold convertBladeExpression
  simp only [scanRepl_all tryDollarIdent (fun c => c == '$') tryDollarIdent_hn v
      hdollar,
    scanRepl_all tryDollarArrow (fun c => c == '$') tryDollarArrow_hn v hdollar,
    scanRepl_all tryDollarBracket (fun c => c == '$') tryDollarBracket_hn v
      hdollar,
    scanRepl_all tryDollarArrowCall (fun c => c == '$') tryDollarArrowCall_hn v
      hdollar]
  show applyRepls v
    ((collectNestedAux 0 none none v [] []).1 ++
      collectSimpleAux 0 none none v
        (collectNestedAux 0 none none v [] []).2 []) = _
  rw [show collectNestedAux 0 none none v [] [] = (([] : List Repl3), []) from
    collectNestedF_alpha v hv v.length 0 none none [] [] le_rfl]
  match v, hne with
  | c :: rest, _ =>
    show applyRepls (c :: rest)
      ([] ++ collectSimpleF (c :: rest).length 0 none none (c :: rest) [] []) = _
    rw [List.nil_append,
      show ((c :: rest : Str)).length = rest.length + 1 from rfl,
      collectSimpleF_single c rest hv hkw hdata]
    unfold applyRepls sortDesc applyRepl
    simp only [List.foldr_cons, List.foldr_nil, insertDesc, List.foldl_cons,
      List.foldl_nil, List.take_zero, List.nil_append]
    rw [show rest.length + 1 = (c :: rest : Str).length from rfl,
      List.drop_length]
    simp

/-- The three-branch conditional template `@if(v)A@else B@endif` (the `B`
branch conventionally carries its own leading space, as in the spec's
example). -/
def condT3 (v A B : Str) : Str :=
  "@if(".toList ++ v ++ [')'] ++ A ++ "@else".toList ++ B ++ "@endif".toList

/-- The two-branch conditional template `@if(v)A@endif`. -/
def condT2 (v A : Str) : Str :=
  "@if(".toList ++ v ++ [')'] ++ A ++ "@endif".toList

theorem condT3_shape (v A B : Str) :
    condT3 v A B =
      '@' :: (("if(".toList ++ v ++ [')'] ++ A) ++
        '@' :: (("else".toList ++ B) ++ '@' :: "endif".toList)) := by
  simp [condT3, List.append_assoc]

theorem condT2_shape (v A : Str) :
    condT2 v A =
      '@' :: (("if(".toList ++ v ++ [')'] ++ A) ++ '@' :: "endif".toList) := by
  simp [condT2, List.append_assoc]

theorem scanRepl_skip2 (tryM : Str → Option (Str × Str))
    (hb : ∀ c t, ((c == '@') = false) → tryM (c :: t) = none)
    (s1 s3 : Str)
    (h1 : s1.all (fun c => !(c == '@')) = true)
    (h3 : s3.all (fun c => !(c == '@')) = true)
    (m1 : tryM ('@' :: (s1 ++ '@' :: s3)) = none)
    (m3 : tryM ('@' :: s3) = none) :
    scanRepl tryM ('@' :: (s1 ++ '@' :: s3)) = '@' :: (s1 ++ '@' :: s3) := by
  rw [scanRepl_copy _ _ _ m1,
    scanRepl_break tryM (fun c => c == '@') hb s1 h1 _ _ m3,
    scanRepl_all tryM (fun c => c == '@') hb s3 h3]

theorem scanRepl_skip3 (tryM : Str → Option (Str × Str))
    (hb : ∀ c t, ((c == '@') = false) → tryM (c :: t) = none)
    (s1 s2 s3 : Str)
    (h1 : s1.all (fun c => !(c == '@')) = true)
    (h2 : s2.all (fun c => !(c == '@')) = true)
    (h3 : s3.all (fun c => !(c == '@')) = true)
    (m1 : tryM ('@' :: (s1 ++ '@' :: (s2 ++ '@' :: s3))) = none)
    (m2 : tryM ('@' :: (s2 ++ '@' :: s3)) = none)
    (m3 : tryM ('@' :: s3) = none) :
    scanRepl tryM ('@' :: (s1 ++ '@' :: (s2 ++ '@' :: s3))) =
      '@' :: (s1 ++ '@' :: (s2 ++ '@' :: s3)) := by
  rw [scanRepl_copy _ _ _ m1,
    scanRepl_break tryM (fun c => c == '@') hb s1 h1 _ _ m2,
    scanRepl_break tryM (fun c => c == '@') hb s2 h2 _ _ m3,
    scanRepl_all tryM (fun c => c == '@') hb s3 h3]

theorem collectGen_skip2 {m : Type} (tryM : Str → Option (m × Str))
    (hb : ∀ c t, ((c == '@') = false) → tryM (c :: t) = none)
    (s1 s3 : Str)
    (h1 : s1.all (fun c => !(c == '@')) = true)
    (h3 : s3.all (fun c => !(c == '@')) = true)
    (m1 : tryM ('@' :: (s1 ++ '@' :: s3)) = none)
    (m3 : tryM ('@' :: s3) = none) :
    collectGen tryM ('@' :: (s1 ++ '@' :: s3)) = [] := by
  rw [collectGen_copy _ _ _ m1,
    collectGen_seg tryM (fun c => c == '@') hb s1 _ h1,
    collectGen_copy _ _ _ m3]
  simpa [collectGen_nil] using
    collectGen_seg tryM (fun c => c == '@') hb s3 [] h3

theorem collectGen_skip3 {m : Type} (tryM : Str → Option (m × Str))
    (hb : ∀ c t, ((c == '@') = false) → tryM (c :: t) = none)
    (s1 s2 s3 : Str)
    (h1 : s1.all (fun c => !(c == '@')) = true)
    (h2 : s2.all (fun c => !(c == '@')) = true)
    (h3 : s3.all (fun c => !(c == '@')) = true)
    (m1 : tryM ('@' :: (s1 ++ '@' :: (s2 ++ '@' :: s3))) = none)
    (m2 : tryM ('@' :: (s2 ++ '@' :: s3)) = none)
    (m3 : tryM ('@' :: s3) = none) :
    collectGen tryM ('@' :: (s1 ++ '@' :: (s2 ++ '@' :: s3))) = [] := by
  rw [collectGen_copy _ _ _ m1,
    collectGen_seg tryM (fun c => c == '@') hb s1 _ h1,
    collectGen_copy _ _ _ m2,
    collectGen_seg tryM (fun c => c == '@') hb s2 _ h2,
    collectGen_copy _ _ _ m3]
  simpa [collectGen_nil] using
    collectGen_seg tryM (fun c => c == '@') hb s3 [] h3

theorem findGen_skip2 {m : Type} (tryM : Str → Option m)
    (hb : ∀ c t, ((c == '@') = false) → tryM (c :: t) = none)
    (s1 s3 : Str)
    (h1 : s1.all (fun c => !(c == '@')) = true)
    (h3 : s3.all (fun c => !(c == '@')) = true)
    (m1 : tryM ('@' :: (s1 ++ '@' :: s3)) = none)
    (m3 : tryM ('@' :: s3) = none) :
    findGen tryM ('@' :: (s1 ++ '@' :: s3)) = none := by
  rw [findGen_copy _ _ _ m1,
    findGen_seg tryM (fun c => c == '@') hb s1 _ h1,
    findGen_copy _ _ _ m3]
  simpa [findGen_nil] using
    findGen_seg tryM (fun c => c == '@') hb s3 [] h3

theorem findGen_skip3 {m : Type} (tryM : Str → Option m)
    (hb : ∀ c t, ((c == '@') = false) → tryM (c :: t) = none)
    (s1 s2 s3 : Str)
    (h1 : s1.all (fun c => !(c == '@')) = true)
    (h2 : s2.all (fun c => !(c == '@')) = true)
    (h3 : s3.all (fun c => !(c == '@')) = true)
    (m1 : tryM ('@' :: (s1 ++ '@' :: (s2 ++ '@' :: s3))) = none)
    (m2 : tryM ('@' :: (s2 ++ '@' :: s3)) = none)
    (m3 : tryM ('@' :: s3) = none) :
    findGen tryM ('@' :: (s1 ++ '@' :: (s2 ++ '@' :: s3))) = none := by
  rw [findGen_copy _ _ _ m1,
    findGen_seg tryM (fun c => c == '@') hb s1 _ h1,
    findGen_copy _ _ _ m2,
    findGen_seg tryM (fun c => c == '@') hb s2 _ h2,
    findGen_copy _ _ _ m3]
  simpa [findGen_nil] using
    findGen_seg tryM (fun c => c == '@') hb s3 [] h3

theorem seg1_atFree (v A : Str) (hv : v.all isAlphaC = true)
    (hA : A.all plainChar = true) :
    (("if(".toList ++ v ++ [')'] ++ A)).all (fun c => !(c == '@')) = true := by
  simp only [List.all_append, Bool.and_eq_true]
  exact ⟨⟨⟨by decide, all_ne_of_alpha v '@' hv (by decide)⟩, by decide⟩,
    all_ne_of_plain A '@' hA (by decide)⟩

theorem seg2_atFree (B : Str) (hB : B.all plainChar = true) :
    (("else".toList ++ B)).all (fun c => !(c == '@')) = true := by
  simp only [List.all_append, Bool.and_eq_true]
  exact ⟨by decide, all_ne_of_plain B '@' hB (by decide)⟩

/-- The passes before `processConditionals` leave the conditional template
untouched: no `@extends`, `@section`, `@component`, `@slot`, `@yield` or
`@content` trigger matches anywhere in it. -/
theorem pre_passes_T3 (v A B : Str)
    (hv : v.all isAlphaC = true) (hA : A.all plainChar = true)
    (hB : B.all plainChar = true) :
    extractExtends (condT3 v A B) = (none, condT3 v A B) ∧
    processSections (condT3 v A B) = (condT3 v A B, []) ∧
    processComponents (condT3 v A B) = condT3 v A B ∧
    processSlots (condT3 v A B) = condT3 v A B ∧
    processYields (condT3 v A B) = condT3 v A B := by
  have h1 := seg1_atFree v A hv hA
  have h2 := seg2_atFree B hB
  have h3 : ("endif".toList).all (fun c => !(c == '@')) = true := by decide
  rw [condT3_shape]
  refine ⟨?_, ?_, ?_, ?_, ?_⟩
  · unfold extractExtends scanExtends
    rw [findGen_skip3 _
      (fun c t hc => by rw [tryExtends_hn c t hc]; rfl) _ _ _ h1 h2 h3
      rfl rfl rfl]
  · unfold processSections collectBlocks
    rw [collectGen_skip3 (tryBlock "@section".toList "@endsection".toList)
      (tryBlock_hn '@' "section".toList "@endsection".toList) _ _ _ h1 h2 h3
      rfl rfl rfl]
    rfl
  · unfold processComponents collectCompBlocks
    rw [collectGen_skip3 tryComponentBlock tryComponentBlock_hn _ _ _ h1 h2 h3
      rfl rfl rfl]
    rfl
  · unfold processSlots collectBlocks
    rw [collectGen_skip3 (tryBlock "@slot".toList "@endslot".toList)
      (tryBlock_hn '@' "slot".toList "@endslot".toList) _ _ _ h1 h2 h3
      rfl rfl rfl]
    rfl
  · unfold processYields
    rw [scanRepl_skip3 tryYield tryYield_hn _ _ _ h1 h2 h3 rfl rfl rfl,
      scanRepl_skip3 tryContent tryContent_hn _ _ _ h1 h2 h3 rfl rfl rfl]

/-- Two-branch counterpart of `pre_passes_T3`. -/
theorem pre_passes_T2 (v A : Str)
    (hv : v.all isAlphaC = true) (hA : A.all plainChar = true) :
    extractExtends (condT2 v A) = (none, condT2 v A) ∧
    processSections (condT2 v A) = (condT2 v A, []) ∧
    processComponents (condT2 v A) = condT2 v A ∧
    processSlots (condT2 v A) = condT2 v A ∧
    processYields (condT2 v A) = condT2 v A := by
  have h1 := seg1_atFree v A hv hA
  have h3 : ("endif".toList).all (fun c => !(c == '@')) = true := by decide
  rw [condT2_shape]
  refine ⟨?_, ?_, ?_, ?_, ?_⟩
  · unfold extractExtends scanExtends
    rw [findGen_skip2 _
      (fun c t hc => by rw [tryExtends_hn c t hc]; rfl) _ _ h1 h3 rfl rfl]
  · unfold processSections collectBlocks
    rw [collectGen_skip2 (tryBlock "@section".toList "@endsection".toList)
      (tryBlock_hn '@' "section".toList "@endsection".toList) _ _ h1 h3 rfl rfl]
    rfl
  · unfold processComponents collectCompBlocks
    rw [collectGen_skip2 tryComponentBlock tryComponentBlock_hn _ _ h1 h3
      rfl rfl]
    rfl
  · unfold processSlots collectBlocks
    rw [collectGen_skip2 (tryBlock "@slot".toList "@endslot".toList)
      (tryBlock_hn '@' "slot".toList "@endslot".toList) _ _ h1 h3 rfl rfl]
    rfl
  · unfold processYields
    rw [scanRepl_skip2 tryYield tryYield_hn _ _ h1 h3 rfl rfl,
      scanRepl_skip2 tryContent tryContent_hn _ _ h1 h3 rfl rfl]

theorem matchCondHeader_if_fire (v w : Str) (hne : v ≠ [])
    (hv : v.all isAlphaC = true) :
    matchCondHeader "@if".toList ('@' :: ("if(".toList ++ (v ++ ')' :: w))) =
      some (v, w) := by
  match v, hne with
  | c :: v2, _ =>
    have hc : isAlphaC c = true := by simp_all
    have hpar : (fun d => !(d == ')')) ')' = false := by decide
    have hvp : (c :: v2).all (fun d => !(d == ')')) = true :=
      all_ne_of_alpha _ ')' hv (by decide)
    unfold matchCondHeader
    rw [show expectS "@if".toList
        ('@' :: ("if(".toList ++ ((c :: v2) ++ ')' :: w))) =
      some ('(' :: ((c :: v2) ++ ')' :: w)) from by rfl]
    have h2 : (('(' :: ((c :: v2) ++ ')' :: w)).dropWhile isWsC) =
        '(' :: ((c :: v2) ++ ')' :: w) := by
      rw [List.dropWhile_cons]
      simp [show isWsC '(' = false from by decide]
    simp only [h2]
    have h3 : ((c :: v2) ++ ')' :: w).takeWhile isWsC = [] := by
      rw [List.cons_append, List.takeWhile_cons, alpha_not_ws c hc]
      simp
    have h4 : ((c :: v2) ++ ')' :: w).dropWhile isWsC =
        (c :: v2) ++ ')' :: w := by
      rw [List.cons_append, List.dropWhile_cons, alpha_not_ws c hc]
      simp
    have h5 : ((c :: v2) ++ ')' :: w).takeWhile (fun d => !(d == ')')) =
        c :: v2 := takeWhile_append_stop _ _ _ _ hvp hpar
    have h6 : ((c :: v2) ++ ')' :: w).dropWhile (fun d => !(d == ')')) =
        ')' :: w := dropWhile_append_stop _ _ _ _ hvp hpar
    simp only [h3, h4, h5, h6]
    simp

/-- `` ${data. `` … `` ? ` `` — the `@if` replacement text for a bare
identifier condition. -/
def condR1 (v : Str) : Str := "$\x7bdata.".toList ++ v ++ " ? `".toList

theorem tryIf_fire (v w : Str) (hne : v ≠ []) (hv : v.all isAlphaC = true)
    (hkw : jsKeywords.contains v = false)
    (hdata : (v == "data".toList) = false) :
    tryIf ('@' :: ("if(".toList ++ (v ++ ')' :: w))) = some (condR1 v, w) := by
  unfold tryIf
  rw [matchCondHeader_if_fire v w hne hv]
  show some ("$\x7b".toList ++ convertCondition v ++ " ? `".toList, w) = _
  unfold convertCondition
  rw [convert_ident v hne hv hkw hdata]
  simp [condR1]

theorem hasSub_head_missing (c : Char) (p s : Str)
    (h : s.all (fun d => !(d == c)) = true) : hasSub (c :: p) s = false := by
  induction s with
  | nil => rfl
  | cons d rest ih =>
    simp only [List.all_cons, Bool.and_eq_true, Bool.not_eq_true'] at h
    rw [hasSub]
    have hpre : ((c :: p).isPrefixOf (d :: rest)) = false := by
      simp [List.isPrefixOf, beqf_symm d c h.1]
    simp only [hpre, Bool.false_or]
    exact ih (by simp_all)

theorem all_drop (p : Char → Bool) (s : Str) (n : Nat)
    (h : s.all p = true) : (s.drop n).all p = true := by
  rw [List.all_eq_true] at h ⊢
  intro c hc
  exact h c (List.drop_subset n s hc)

theorem hasSub_of_suffix_part (pat tail w : Str) (h : (pat ++ tail) <:+ w) :
    hasSub pat w = true := by
  rw [hasSub_infix_iff]
  exact ((List.prefix_append pat tail).isInfix).trans h.isInfix

theorem hasSub_tick5_single (P1 A : Str)
    (h1 : P1.all (fun c => !(c == '`')) = true)
    (hA : A.all (fun c => !(c == '`')) = true) :
    hasSub tick5 (P1 ++ '`' :: A) = false := by
  induction P1 with
  | nil =>
    rw [List.nil_append, show (tick5 : Str) = '`' :: " : `".toList from rfl,
      hasSub]
    have hpre : ((('`' :: " : `".toList : Str)).isPrefixOf ('`' :: A)) =
        (" : `".toList).isPrefixOf A := by
      simp [List.isPrefixOf]
    rw [hpre]
    have hp2 : ((" : `".toList).isPrefixOf A) = false := by
      cases hp : (" : `".toList).isPrefixOf A
      · rfl
      · exfalso
        have hmem : '`' ∈ A :=
          (List.isPrefixOf_iff_prefix.mp hp).subset (by decide)
        rw [List.all_eq_true] at hA
        have := hA '`' hmem
        simp at this
    rw [hp2]
    simpa using hasSub_head_missing '`' " : `".toList A hA
  | cons d t ih =>
    simp only [List.all_cons, Bool.and_eq_true, Bool.not_eq_true'] at h1
    rw [List.cons_append, show (tick5 : Str) = '`' :: " : `".toList from rfl,
      hasSub]
    have hpre : ((('`' :: " : `".toList : Str)).isPrefixOf
        (d :: (t ++ '`' :: A))) = false := by
      simp [List.isPrefixOf, beqf_symm d '`' h1.1]
    rw [hpre]
    simpa using ih (by simp_all)

theorem condR1_atFree (v : Str) (hv : v.all isAlphaC = true) :
    (condR1 v).all (fun c => !(c == '@')) = true := by
  simp only [condR1, List.all_append, Bool.and_eq_true]
  exact ⟨⟨by decide, all_ne_of_alpha v '@' hv (by decide)⟩, by decide⟩

theorem condT3_shape2 (v A B : Str) :
    condT3 v A B =
      "@if(".toList ++ (v ++ ')' ::
        (A ++ '@' :: ("else".toList ++ (B ++ '@' :: "endif".toList)))) := by
  simp only [condT3,
    show ("@else".toList : Str) = '@' :: "else".toList from rfl,
    show ("@endif".toList : Str) = '@' :: "endif".toList from rfl,
    List.cons_append, List.append_assoc, List.singleton_append,
    List.nil_append]

theorem condT2_shape2 (v A : Str) :
    condT2 v A =
      "@if(".toList ++ (v ++ ')' :: (A ++ '@' :: "endif".toList)) := by
  simp only [condT2,
    show ("@endif".toList : Str) = '@' :: "endif".toList from rfl,
    List.cons_append, List.append_assoc, List.singleton_append,
    List.nil_append]

theorem scan_if3 (v A B : Str) (hne : v ≠ []) (hv : v.all isAlphaC = true)
    (hkw : jsKeywords.contains v = false)
    (hdata : (v == "data".toList) = false)
    (hA : A.all plainChar = true) (hB : B.all plainChar = true) :
    scanRepl tryIf (condT3 v A B) =
      condR1 v ++ (A ++ '@' :: ("else".toList ++ (B ++ '@' :: "endif".toList))) := by
  have hAat := all_ne_of_plain A '@' hA (by decide)
  have hBat := all_ne_of_plain B '@' hB (by decide)
  have hEB : ("else".toList ++ B).all (fun c => !(c == '@')) = true := by
    simp only [List.all_append, Bool.and_eq_true]
    exact ⟨by decide, hBat⟩
  rw [condT3_shape2]
  rw [show ("@if(".toList ++ (v ++ ')' ::
      (A ++ '@' :: ("else".toList ++ (B ++ '@' :: "endif".toList)))) : Str) =
    '@' :: ("if(".toList ++ (v ++ ')' ::
      (A ++ '@' :: ("else".toList ++ (B ++ '@' :: "endif".toList))))) from rfl]
  rw [scanRepl_step tryIf '@' _ _ _
    (tryIf_fire v (A ++ '@' :: ("else".toList ++ (B ++ '@' :: "endif".toList)))
      hne hv hkw hdata)
    (by simp only [List.length_append, List.length_cons]; omega)]
  rw [scanRepl_break tryIf (fun c => c == '@') tryIf_hn A hAat '@'
    ("else".toList ++ (B ++ '@' :: "endif".toList)) (by rfl)]
  rw [show ("else".toList ++ (B ++ '@' :: "endif".toList) : Str) =
    ("else".toList ++ B) ++ '@' :: "endif".toList from by
      simp [List.append_assoc]]
  rw [scanRepl_break tryIf (fun c => c == '@') tryIf_hn ("else".toList ++ B)
    hEB '@' "endif".toList (by rfl)]
  rw [scanRepl_all tryIf (fun c => c == '@') tryIf_hn "endif".toList (by decide)]
  try simp [List.append_assoc]

theorem scan_if2 (v A : Str) (hne : v ≠ []) (hv : v.all isAlphaC = true)
    (hkw : jsKeywords.contains v = false)
    (hdata : (v == "data".toList) = false)
    (hA : A.all plainChar = true) :
    scanRepl tryIf (condT2 v A) =
      condR1 v ++ (A ++ '@' :: "endif".toList) := by
  have hAat := all_ne_of_plain A '@' hA (by decide)
  rw [condT2_shape2]
  rw [show ("@if(".toList ++ (v ++ ')' :: (A ++ '@' :: "endif".toList)) : Str) =
    '@' :: ("if(".toList ++ (v ++ ')' :: (A ++ '@' :: "endif".toList))) from rfl]
  rw [scanRepl_step tryIf '@' _ _ _
    (tryIf_fire v (A ++ '@' :: "endif".toList) hne hv hkw hdata)
    (by simp only [List.length_append, List.length_cons]; omega)]
  rw [scanRepl_break tryIf (fun c => c == '@') tryIf_hn A hAat '@'
    "endif".toList (by rfl)]
  rw [scanRepl_all tryIf (fun c => c == '@') tryIf_hn "endif".toList (by decide)]

theorem tryElseif_else_none (B : Str)
    (hBif : ("if".toList).isPrefixOf (B ++ "@endif".toList) = false) :
    tryElseif ('@' :: (("else".toList ++ B) ++ '@' :: "endif".toList)) =
      none := by
  have hm : matchCondHeader "@elseif".toList
      ('@' :: (("else".toList ++ B) ++ '@' :: "endif".toList)) = none := by
    unfold matchCondHeader expectS
    have hpre : (("@elseif".toList).isPrefixOf
        ('@' :: (("else".toList ++ B) ++ '@' :: "endif".toList))) =
        ("if".toList).isPrefixOf (B ++ "@endif".toList) := by
      rw [show ((("else".toList ++ B) ++ '@' :: "endif".toList) : Str) =
        'e' :: 'l' :: 's' :: 'e' :: (B ++ "@endif".toList) from by
          simp [List.append_assoc]]
      simp [List.isPrefixOf]
    rw [hpre, hBif]
    simp
  unfold tryElseif
  rw [hm]
  rfl

theorem scan_elseif3 (v A B : Str) (hv : v.all isAlphaC = true)
    (hA : A.all plainChar = true) (hB : B.all plainChar = true)
    (hBif : ("if".toList).isPrefixOf (B ++ "@endif".toList) = false) :
    scanRepl tryElseif
      (condR1 v ++ (A ++ '@' :: ("else".toList ++ (B ++ '@' :: "endif".toList)))) =
      condR1 v ++ (A ++ '@' :: ("else".toList ++ (B ++ '@' :: "endif".toList))) := by
  have hAat := all_ne_of_plain A '@' hA (by decide)
  have hBat := all_ne_of_plain B '@' hB (by decide)
  have hS0 : (condR1 v ++ A).all (fun c => !(c == '@')) = true := by
    simp only [List.all_append, Bool.and_eq_true]
    exact ⟨condR1_atFree v hv, hAat⟩
  have hEB : ("else".toList ++ B).all (fun c => !(c == '@')) = true := by
    simp only [List.all_append, Bool.and_eq_true]
    exact ⟨by decide, hBat⟩
  rw [show (condR1 v ++ (A ++ '@' ::
      ("else".toList ++ (B ++ '@' :: "endif".toList))) : Str) =
    (condR1 v ++ A) ++ '@' ::
      (("else".toList ++ B) ++ '@' :: "endif".toList) from by
      simp [List.append_assoc]]
  rw [scanRepl_seg tryElseif (fun c => c == '@') tryElseif_hn
    (condR1 v ++ A) _ hS0]
  rw [scanRepl_skip2 tryElseif tryElseif_hn ("else".toList ++ B)
    "endif".toList hEB (by decide) (tryElseif_else_none B hBif) rfl]
  try simp [List.append_assoc]

theorem scan_elseif2 (v A : Str) (hv : v.all isAlphaC = true)
    (hA : A.all plainChar = true) :
    scanRepl tryElseif (condR1 v ++ (A ++ '@' :: "endif".toList)) =
      condR1 v ++ (A ++ '@' :: "endif".toList) := by
  have hAat := all_ne_of_plain A '@' hA (by decide)
  have hS0 : (condR1 v ++ A).all (fun c => !(c == '@')) = true := by
    simp only [List.all_append, Bool.and_eq_true]
    exact ⟨condR1_atFree v hv, hAat⟩
  rw [show (condR1 v ++ (A ++ '@' :: "endif".toList) : Str) =
    (condR1 v ++ A) ++ '@' :: "endif".toList from by simp [List.append_assoc]]
  rw [scanRepl_break tryElseif (fun c => c == '@') tryElseif_hn
    (condR1 v ++ A) hS0 '@' "endif".toList (by rfl)]
  rw [scanRepl_all tryElseif (fun c => c == '@') tryElseif_hn "endif".toList
    (by decide)]
  try simp [List.append_assoc]

theorem tryElse_fire (Y : Str) :
    tryElse ('@' :: ("else".toList ++ Y)) = some (tick5, Y) := by
  have hpre : ("@else".toList).isPrefixOf ("@else".toList ++ Y) = true :=
    List.isPrefixOf_iff_prefix.mpr (List.prefix_append _ _)
  rw [show ('@' :: ("else".toList ++ Y) : Str) = "@else".toList ++ Y from rfl]
  unfold tryElse expectS
  rw [hpre]
  simp only [if_true, Option.map_some']
  rw [List.drop_left]
  rfl

theorem scan_else3 (v A B : Str) (hv : v.all isAlphaC = true)
    (hA : A.all plainChar = true) (hB : B.all plainChar = true) :
    scanRepl tryElse
      (condR1 v ++ (A ++ '@' :: ("else".toList ++ (B ++ '@' :: "endif".toList)))) =
      condR1 v ++ (A ++ (tick5 ++ (B ++ '@' :: "endif".toList))) := by
  have hAat := all_ne_of_plain A '@' hA (by decide)
  have hBat := all_ne_of_plain B '@' hB (by decide)
  have hS0 : (condR1 v ++ A).all (fun c => !(c == '@')) = true := by
    simp only [List.all_append, Bool.and_eq_true]
    exact ⟨condR1_atFree v hv, hAat⟩
  rw [show (condR1 v ++ (A ++ '@' ::
      ("else".toList ++ (B ++ '@' :: "endif".toList))) : Str) =
    (condR1 v ++ A) ++ '@' ::
      ("else".toList ++ (B ++ '@' :: "endif".toList)) from by
      simp [List.append_assoc]]
  rw [scanRepl_seg tryElse (fun c => c == '@') tryElse_hn (condR1 v ++ A) _ hS0]
  rw [scanRepl_step tryElse '@' _ _ _
    (tryElse_fire (B ++ '@' :: "endif".toList))
    (by simp only [List.length_append, List.length_cons]; omega)]
  rw [scanRepl_break tryElse (fun c => c == '@') tryElse_hn B hBat '@'
    "endif".toList (by rfl)]
  rw [scanRepl_all tryElse (fun c => c == '@') tryElse_hn "endif".toList
    (by decide)]
  try simp [List.append_assoc]

theorem scan_else2 (v A : Str) (hv : v.all isAlphaC = true)
    (hA : A.all plainChar = true) :
    scanRepl tryElse (condR1 v ++ (A ++ '@' :: "endif".toList)) =
      condR1 v ++ (A ++ '@' :: "endif".toList) := by
  have hAat := all_ne_of_plain A '@' hA (by decide)
  have hS0 : (condR1 v ++ A).all (fun c => !(c == '@')) = true := by
    simp only [List.all_append, Bool.and_eq_true]
    exact ⟨condR1_atFree v hv, hAat⟩
  rw [show (condR1 v ++ (A ++ '@' :: "endif".toList) : Str) =
    (condR1 v ++ A) ++ '@' :: "endif".toList from by simp [List.append_assoc]]
  rw [scanRepl_break tryElse (fun c => c == '@') tryElse_hn
    (condR1 v ++ A) hS0 '@' "endif".toList (by rfl)]
  rw [scanRepl_all tryElse (fun c => c == '@') tryElse_hn "endif".toList
    (by decide)]
  try simp [List.append_assoc]

theorem endifRepl_present_gen (orig : Str) (i : Nat) (Q B : Str)
    (horig : orig.take i = Q ++ (tick5 ++ B))
    (hi : i = Q.length + (B.length + 5))
    (hB195 : B.length ≤ 195)
    (hat : (Q ++ (tick5 ++ B)).all (fun c => !(c == '@')) = true) :
    endifRepl orig i = elsePresentRepl := by
  simp only [endifRepl]
  rw [horig]
  have hsfx : (tick5 ++ B) <:+ (Q ++ (tick5 ++ B)).drop (i - min 200 i) := by
    have h1 : (Q ++ (tick5 ++ B)).drop Q.length = tick5 ++ B :=
      List.drop_left _ _
    have h2 : ((Q ++ (tick5 ++ B)).drop (i - min 200 i)).drop
        (Q.length - (i - min 200 i)) = tick5 ++ B := by
      rw [List.drop_drop]
      rw [show i - min 200 i + (Q.length - (i - min 200 i)) = Q.length from by
        omega]
      exact h1
    have h3 := List.drop_suffix (Q.length - (i - min 200 i))
      ((Q ++ (tick5 ++ B)).drop (i - min 200 i))
    rw [h2] at h3
    exact h3
  have htick := hasSub_of_suffix_part tick5 B _ hsfx
  rw [htick]
  simp only [if_true]
  have hno : hasSub ('@' :: "elseif".toList)
      (((Q ++ (tick5 ++ B)).drop (i - min 200 i)).drop
        (((lastSub tick5 ((Q ++ (tick5 ++ B)).drop (i - min 200 i))).getD 0) -
          20)) = false :=
    hasSub_head_missing '@' _ _ (all_drop _ _ _ (all_drop _ _ _ hat))
  rw [show ("@elseif".toList : Str) = '@' :: "elseif".toList from rfl, hno]
  simp

theorem endifRepl_absent_gen (orig : Str) (i : Nat) (P2 : Str)
    (horig : orig.take i = P2)
    (hnot : hasSub tick5 P2 = false) :
    endifRepl orig i = elseAbsentRepl := by
  simp only [endifRepl]
  rw [horig]
  have h2 : hasSub tick5 (P2.drop (i - min 200 i)) = false :=
    hasSub_suffix_false _ _ _ hnot (List.drop_suffix _ _)
  rw [h2]
  simp

theorem endifRepl_present (v A B : Str) (hv : v.all isAlphaC = true)
    (hA : A.all plainChar = true) (hB : B.all plainChar = true)
    (hB195 : B.length ≤ 195) :
    endifRepl ((condR1 v ++ A ++ tick5 ++ B) ++ "@endif".toList)
      (condR1 v ++ A ++ tick5 ++ B).length = elsePresentRepl := by
  apply endifRepl_present_gen _ _ (condR1 v ++ A) B
  · rw [List.take_left]
    simp [List.append_assoc]
  · simp only [List.length_append, show (tick5 : Str).length = 5 from rfl]
    omega
  · exact hB195
  · simp only [List.all_append, Bool.and_eq_true]
    exact ⟨⟨condR1_atFree v hv, all_ne_of_plain A '@' hA (by decide)⟩,
      ⟨by decide, all_ne_of_plain B '@' hB (by decide)⟩⟩

theorem endifRepl_absent (v A : Str) (hv : v.all isAlphaC = true)
    (hA : A.all plainChar = true) :
    endifRepl ((condR1 v ++ A) ++ "@endif".toList)
      (condR1 v ++ A).length = elseAbsentRepl := by
  have hshape : (condR1 v ++ A : Str) =
      ("$\x7bdata.".toList ++ v ++ " ? ".toList) ++ '`' :: A := by
    simp only [condR1, show (" ? `".toList : Str) = " ? ".toList ++ ['`']
      from rfl, List.append_assoc, List.singleton_append]
  have hQ0 : ("$\x7bdata.".toList ++ v ++ " ? ".toList).all
      (fun c => !(c == '`')) = true := by
    simp only [List.all_append, Bool.and_eq_true]
    exact ⟨⟨by decide, all_ne_of_alpha v '`' hv (by decide)⟩, by decide⟩
  have hAq : A.all (fun c => !(c == '`')) = true :=
    all_ne_of_plain A '`' hA (by decide)
  apply endifRepl_absent_gen _ _ (condR1 v ++ A)
  · exact List.take_left _ _
  · rw [hshape]
    exact hasSub_tick5_single _ _ hQ0 hAq

/-- The full `processConditionals` trace on the three-branch template. -/
theorem processConditionals_T3 (v A B : Str) (hne : v ≠ [])
    (hv : v.all isAlphaC = true) (hkw : jsKeywords.contains v = false)
    (hdata : (v == "data".toList) = false)
    (hA : A.all plainChar = true) (hB : B.all plainChar = true)
    (hBif : ("if".toList).isPrefixOf (B ++ "@endif".toList) = false)
    (hB195 : B.length ≤ 195) :
    processConditionals (condT3 v A B) =
      condR1 v ++ A ++ tick5 ++ B ++ elsePresentRepl := by
  unfold processConditionals
  show endifScan
      (scanRepl tryElse (scanRepl tryElseif (scanRepl tryIf (condT3 v A B)))) 0
      (scanRepl tryElse (scanRepl tryElseif (scanRepl tryIf (condT3 v A B)))) =
    _
  rw [scan_if3 v A B hne hv hkw hdata hA hB,
    scan_elseif3 v A B hv hA hB hBif,
    scan_else3 v A B hv hA hB]
  have hre : (condR1 v ++ (A ++ (tick5 ++ (B ++ '@' :: "endif".toList))) : Str) =
      (condR1 v ++ A ++ tick5 ++ B) ++ "@endif".toList := by
    simp [List.append_assoc]
  rw [hre]
  have hPat : (condR1 v ++ A ++ tick5 ++ B).all (fun c => !(c == '@')) =
      true := by
    simp only [List.all_append, Bool.and_eq_true]
    exact ⟨⟨⟨condR1_atFree v hv, all_ne_of_plain A '@' hA (by decide)⟩,
      by decide⟩, all_ne_of_plain B '@' hB (by decide)⟩
  rw [endifScan_seg _ _ hPat 0 _]
  rw [show ("@endif".toList : Str) = "@endif".toList ++ ([] : Str) from by simp]
  rw [endifScan_step]
  rw [endifScan_nil]
  rw [show (0 + (condR1 v ++ A ++ tick5 ++ B).length) =
    (condR1 v ++ A ++ tick5 ++ B).length from by omega]
  simp only [List.append_nil]
  rw [endifRepl_present v A B hv hA hB hB195]

/-- The full `processConditionals` trace on the two-branch template. -/
theorem processConditionals_T2 (v A : Str) (hne : v ≠ [])
    (hv : v.all isAlphaC = true) (hkw : jsKeywords.contains v = false)
    (hdata : (v == "data".toList) = false)
    (hA : A.all plainChar = true) :
    processConditionals (condT2 v A) =
      condR1 v ++ A ++ elseAbsentRepl := by
  unfold processConditionals
  show endifScan
      (scanRepl tryElse (scanRepl tryElseif (scanRepl tryIf (condT2 v A)))) 0
      (scanRepl tryElse (scanRepl tryElseif (scanRepl tryIf (condT2 v A)))) =
    _
  rw [scan_if2 v A hne hv hkw hdata hA,
    scan_elseif2 v A hv hA,
    scan_else2 v A hv hA]
  have hre : (condR1 v ++ (A ++ '@' :: "endif".toList) : Str) =
      (condR1 v ++ A) ++ "@endif".toList := by
    simp [List.append_assoc]
  rw [hre]
  have hPat : (condR1 v ++ A).all (fun c => !(c == '@')) = true := by
    simp only [List.all_append, Bool.and_eq_true]
    exact ⟨condR1_atFree v hv, all_ne_of_plain A '@' hA (by decide)⟩
  rw [endifScan_seg _ _ hPat 0 _]
  rw [show ("@endif".toList : Str) = "@endif".toList ++ ([] : Str) from by simp]
  rw [endifScan_step]
  rw [endifScan_nil]
  rw [show (0 + (condR1 v ++ A).length) = (condR1 v ++ A).length from by omega]
  simp only [List.append_nil]
  rw [endifRepl_absent v A hv hA]

/-- The parsed content of the three-branch conditional template:
`` ${data.V ? `A` : `B`} ``. -/
def condBody3 (v A B : Str) : Str :=
  condR1 v ++ A ++ tick5 ++ B ++ elsePresentRepl

/-- The parsed content of the two-branch conditional template:
`` ${data.V ? `A` : ''} ``. -/
def condBody2 (v A : Str) : Str :=
  condR1 v ++ A ++ elseAbsentRepl

theorem scanVar_noBrace (tryV : Str → Option (Str × Str))
    (hn : ∀ c t, ((c == '\x7b') = false) → tryV (c :: t) = none)
    (w : Str) (hw : w.all (fun c => !(c == '\x7b')) = true)
    (hm : tryV ('\x7b' :: w) = none) :
    scanRepl tryV ('$' :: '\x7b' :: w) = '$' :: '\x7b' :: w := by
  rw [scanRepl_copy _ _ _ (hn '$' _ (by decide)),
    scanRepl_copy _ _ _ hm,
    scanRepl_all tryV (fun c => c == '\x7b') hn w hw]

theorem condBody3_dollar (v A B : Str) :
    condBody3 v A B =
      '$' :: '\x7b' :: ("data.".toList ++ (v ++ (" ? `".toList ++
        (A ++ (tick5 ++ (B ++ elsePresentRepl)))))) := by
  simp only [condBody3, condR1,
    show ("$\x7bdata.".toList : Str) = '$' :: '\x7b' :: "data.".toList
      from rfl,
    List.cons_append, List.append_assoc]

theorem condBody2_dollar (v A : Str) :
    condBody2 v A =
      '$' :: '\x7b' :: ("data.".toList ++ (v ++ (" ? `".toList ++
        (A ++ elseAbsentRepl)))) := by
  simp only [condBody2, condR1,
    show ("$\x7bdata.".toList : Str) = '$' :: '\x7b' :: "data.".toList
      from rfl,
    List.cons_append, List.append_assoc]

theorem condBody3_w_noBrace (v A B : Str) (hv : v.all isAlphaC = true)
    (hA : A.all plainChar = true) (hB : B.all plainChar = true) :
    ("data.".toList ++ (v ++ (" ? `".toList ++
      (A ++ (tick5 ++ (B ++ elsePresentRepl)))))).all
        (fun c => !(c == '\x7b')) = true := by
  simp only [List.all_append, Bool.and_eq_true]
  exact ⟨by decide, all_ne_of_alpha v '\x7b' hv (by decide), by decide,
    all_ne_of_plain A '\x7b' hA (by decide), by decide,
    all_ne_of_plain B '\x7b' hB (by decide), by decide⟩

theorem condBody2_w_noBrace (v A : Str) (hv : v.all isAlphaC = true)
    (hA : A.all plainChar = true) :
    ("data.".toList ++ (v ++ (" ? `".toList ++ (A ++ elseAbsentRepl)))).all
      (fun c => !(c == '\x7b')) = true := by
  simp only [List.all_append, Bool.and_eq_true]
  exact ⟨by decide, all_ne_of_alpha v '\x7b' hv (by decide), by decide,
    all_ne_of_plain A '\x7b' hA (by decide), by decide⟩

theorem processVariables_condBody3 (v A B : Str) (hv : v.all isAlphaC = true)
    (hA : A.all plainChar = true) (hB : B.all plainChar = true) :
    processVariables (condBody3 v A B) = condBody3 v A B := by
  have hw := condBody3_w_noBrace v A B hv hA hB
  unfold processVariables
  rw [condBody3_dollar]
  rw [scanVar_noBrace tryRawVar tryRawVar_hn _ hw rfl,
    scanVar_noBrace tryEscVar tryEscVar_hn _ hw rfl]

theorem processVariables_condBody2 (v A : Str) (hv : v.all isAlphaC = true)
    (hA : A.all plainChar = true) :
    processVariables (condBody2 v A) = condBody2 v A := by
  have hw := condBody2_w_noBrace v A hv hA
  unfold processVariables
  rw [condBody2_dollar]
  rw [scanVar_noBrace tryRawVar tryRawVar_hn _ hw rfl,
    scanVar_noBrace tryEscVar tryEscVar_hn _ hw rfl]

theorem trimS_id_of_ends (c d : Char) (mid : Str) (hc : isWsC c = false)
    (hd : isWsC d = false) : trimS (c :: (mid ++ [d])) = c :: (mid ++ [d]) := by
  unfold trimS trimL trimR
  rw [List.dropWhile_cons]
  simp only [hc, Bool.false_eq_true, if_false]
  rw [show ((c :: (mid ++ [d])).reverse : Str) = d :: (mid.reverse ++ [c])
    from by simp]
  rw [List.dropWhile_cons]
  simp only [hd, Bool.false_eq_true, if_false]
  rw [show ((d :: (mid.reverse ++ [c])).reverse : Str) = c :: (mid ++ [d])
    from by simp]

theorem condBody3_ends (v A B : Str) :
    condBody3 v A B =
      '$' :: (('\x7b' :: ("data.".toList ++ (v ++ (" ? `".toList ++
        (A ++ (tick5 ++ (B ++ ['`']))))))) ++ ['\x7d']) := by
  simp only [condBody3, condR1,
    show ("$\x7bdata.".toList : Str) = '$' :: '\x7b' :: "data.".toList
      from rfl,
    show (elsePresentRepl : Str) = ['`'] ++ ['\x7d'] from rfl,
    List.cons_append, List.append_assoc]

theorem condBody2_ends (v A : Str) :
    condBody2 v A =
      '$' :: (('\x7b' :: ("data.".toList ++ (v ++ (" ? `".toList ++
        (A ++ "` : ''".toList))))) ++ ['\x7d']) := by
  simp only [condBody2, condR1,
    show ("$\x7bdata.".toList : Str) = '$' :: '\x7b' :: "data.".toList
      from rfl,
    show (elseAbsentRepl : Str) = "` : ''".toList ++ ['\x7d'] from rfl,
    List.cons_append, List.append_assoc]

theorem trimS_condBody3 (v A B : Str) :
    trimS (condBody3 v A B) = condBody3 v A B := by
  rw [condBody3_ends]
  exact trimS_id_of_ends '$' '\x7d' _ (by decide) (by decide)

theorem trimS_condBody2 (v A : Str) :
    trimS (condBody2 v A) = condBody2 v A := by
  rw [condBody2_ends]
  exact trimS_id_of_ends '$' '\x7d' _ (by decide) (by decide)

theorem condBody3_atFree (v A B : Str) (hv : v.all isAlphaC = true)
    (hA : A.all plainChar = true) (hB : B.all plainChar = true) :
    atFree (condBody3 v A B) = true := by
  unfold atFree condBody3
  simp only [List.all_append, Bool.and_eq_true]
  exact ⟨⟨⟨⟨condR1_atFree v hv, all_ne_of_plain A '@' hA (by decide)⟩,
    by decide⟩, all_ne_of_plain B '@' hB (by decide)⟩, by decide⟩

theorem condBody2_atFree (v A : Str) (hv : v.all isAlphaC = true)
    (hA : A.all plainChar = true) :
    atFree (condBody2 v A) = true := by
  unfold atFree condBody2
  simp only [List.all_append, Bool.and_eq_true]
  exact ⟨⟨condR1_atFree v hv, all_ne_of_plain A '@' hA (by decide)⟩, by decide⟩

/-- `BladeParser.parse` on the three-branch conditional template. -/
theorem parseBlade_condT3 (fs : FS) (v A B : Str) (hne : v ≠ [])
    (hv : v.all isAlphaC = true) (hkw : jsKeywords.contains v = false)
    (hdata : (v == "data".toList) = false)
    (hA : A.all plainChar = true) (hB : B.all plainChar = true)
    (hBif : ("if".toList).isPrefixOf (B ++ "@endif".toList) = false)
    (hB195 : B.length ≤ 195) :
    parseBlade fs (condT3 v A B) = ⟨condBody3 v A B, none, []⟩ := by
  obtain ⟨he, hs, hc, hsl, hy⟩ := pre_passes_T3 v A B hv hA hB
  unfold parseBlade
  simp only [he, hs, hc, hsl, hy]
  rw [show processConditionals (condT3 v A B) = condBody3 v A B from
    processConditionals_T3 v A B hne hv hkw hdata hA hB hBif hB195]
  rw [pass_loops_id _ (condBody3_atFree v A B hv hA hB),
    pass_includes_id fs _ (condBody3_atFree v A B hv hA hB),
    pass_nodewire_id _ (condBody3_atFree v A B hv hA hB),
    processVariables_condBody3 v A B hv hA hB,
    trimS_condBody3 v A B]

/-- `BladeParser.parse` on the two-branch conditional template. -/
theorem parseBlade_condT2 (fs : FS) (v A : Str) (hne : v ≠ [])
    (hv : v.all isAlphaC = true) (hkw : jsKeywords.contains v = false)
    (hdata : (v == "data".toList) = false)
    (hA : A.all plainChar = true) :
    parseBlade fs (condT2 v A) = ⟨condBody2 v A, none, []⟩ := by
  obtain ⟨he, hs, hc, hsl, hy⟩ := pre_passes_T2 v A hv hA
  unfold parseBlade
  simp only [he, hs, hc, hsl, hy]
  rw [show processConditionals (condT2 v A) = condBody2 v A from
    processConditionals_T2 v A hne hv hkw hdata hA]
  rw [pass_loops_id _ (condBody2_atFree v A hv hA),
    pass_includes_id fs _ (condBody2_atFree v A hv hA),
    pass_nodewire_id _ (condBody2_atFree v A hv hA),
    processVariables_condBody2 v A hv hA,
    trimS_condBody2 v A]


/-! ### Parsing the generated conditional expressions. -/

theorem parseIdentAt_stop (v : Str) (hne : v ≠ []) (hv : v.all isAlphaC = true)
    (d : Char) (hd : isWordC d = false) (w : Str) :
    parseIdentAt (v ++ d :: w) = some (v, d :: w) := by
  match v, hne with
  | c :: t, _ =>
    unfold parseIdentAt
    have hc : isAlphaC c = true := by simp_all
    have ht : t.all isWordC = true := all_word_of_alpha t (by simp_all)
    simp only [List.cons_append, hc, Bool.true_or, if_true]
    rw [takeWhile_append_stop isWordC t d w ht hd,
      dropWhile_append_stop isWordC t d w ht hd]

theorem readTpl_plain (A : Str) (hA : A.all plainChar = true) (w : Str) :
    readTpl (A ++ '`' :: w) = some (A, w) := by
  induction A with
  | nil => rfl
  | cons c t ih =>
    have hc : plainChar c = true := by simp_all
    have h1 : ¬(c = '\\') := by
      have := plain_ne c '\\' hc (by decide)
      simpa [beq_eq_false_iff_ne] using this
    have h2 : ¬(c = '`') := by
      have := plain_ne c '`' hc (by decide)
      simpa [beq_eq_false_iff_ne] using this
    have h3 : ¬(c = '$') := by
      have := plain_ne c '$' hc (by decide)
      simpa [beq_eq_false_iff_ne] using this
    have ht : t.all plainChar = true := by simp_all
    have iht := ih ht
    rw [List.cons_append, readTpl.eq_def]
    split <;> simp_all

theorem parsePrimary_dataChain (v w2 : Str) (n : Nat) :
    parsePrimaryF (n + 1) ("data.".toList ++ (v ++ ' ' :: '?' :: w2)) =
      some (.varE "data".toList, '.' :: (v ++ ' ' :: '?' :: w2)) := rfl

theorem postfixMore_dataChain (v : Str) (hne : v ≠ [])
    (hv : v.all isAlphaC = true) (w2 : Str) (e : JsExpr) (k : Nat) :
    postfixMore (k + 2) e ('.' :: (v ++ ' ' :: '?' :: w2)) =
      some (.member e v, ' ' :: '?' :: w2) := by
  rw [postfixMore]
  rw [show (v ++ ' ' :: '?' :: w2 : Str) = v ++ ' ' :: ('?' :: w2) from rfl]
  rw [parseIdentAt_stop v hne hv ' ' (by decide) ('?' :: w2)]
  rfl

theorem parsePostfix_dataChain (v : Str) (hne : v ≠ [])
    (hv : v.all isAlphaC = true) (w2 : Str) (k : Nat) :
    parsePostfixF (k + 3) ("data.".toList ++ (v ++ ' ' :: '?' :: w2)) =
      some (.member (.varE "data".toList) v, ' ' :: '?' :: w2) := by
  rw [parsePostfixF, parsePrimary_dataChain v w2 (k + 1)]
  exact postfixMore_dataChain v hne hv w2 _ k

theorem parseAnd_dataChain (v : Str) (hne : v ≠ [])
    (hv : v.all isAlphaC = true) (w2 : Str) (k : Nat) :
    parseAndF (k + 4) ("data.".toList ++ (v ++ ' ' :: '?' :: w2)) =
      some (.member (.varE "data".toList) v, ' ' :: '?' :: w2) := by
  rw [parseAndF, parsePostfix_dataChain v hne hv w2 k]
  rfl

theorem parseOr_dataChain (v : Str) (hne : v ≠ [])
    (hv : v.all isAlphaC = true) (w2 : Str) (k : Nat) :
    parseOrF (k + 5) ("data.".toList ++ (v ++ ' ' :: '?' :: w2)) =
      some (.member (.varE "data".toList) v, ' ' :: '?' :: w2) := by
  rw [parseOrF, parseAnd_dataChain v hne hv w2 k]
  rfl


theorem parsePrimary_tpl (A : Str) (hA : A.all plainChar = true) (r : Str)
    (k : Nat) :
    parsePrimaryF (k + 1) (' ' :: '`' :: (A ++ '`' :: r)) =
      some (.tpl A, r) := by
  have h1 : List.dropWhile isWsC (' ' :: '`' :: (A ++ '`' :: r)) =
      '`' :: (A ++ '`' :: r) := rfl
  simp only [parsePrimaryF, h1, readTpl_plain A hA r,
    tlCook_escFree A (all_imp _ _ plain_escFree A hA)]

theorem parsePostfix_tpl_sp (A : Str) (hA : A.all plainChar = true)
    (X : Str) (k : Nat) :
    parsePostfixF (k + 2) (' ' :: '`' :: (A ++ '`' :: ' ' :: X)) =
      some (.tpl A, ' ' :: X) := by
  rw [parsePostfixF, parsePrimary_tpl A hA (' ' :: X) k]
  rfl

theorem parsePostfix_tpl_nil (A : Str) (hA : A.all plainChar = true)
    (k : Nat) :
    parsePostfixF (k + 2) (' ' :: '`' :: (A ++ ['`'])) =
      some (.tpl A, []) := by
  rw [parsePostfixF, show (A ++ ['`'] : Str) = A ++ '`' :: [] from rfl,
    parsePrimary_tpl A hA [] k]
  rfl

theorem parseAnd_tpl_colon (A : Str) (hA : A.all plainChar = true)
    (X : Str) (k : Nat) :
    parseAndF (k + 3) (' ' :: '`' :: (A ++ '`' :: ' ' :: ':' :: X)) =
      some (.tpl A, ' ' :: ':' :: X) := by
  rw [parseAndF, parsePostfix_tpl_sp A hA (':' :: X) k]
  rfl

theorem parseAnd_tpl_nil (A : Str) (hA : A.all plainChar = true) (k : Nat) :
    parseAndF (k + 3) (' ' :: '`' :: (A ++ ['`'])) =
      some (.tpl A, []) := by
  rw [parseAndF, parsePostfix_tpl_nil A hA k]
  rfl

theorem parseOr_tpl_colon (A : Str) (hA : A.all plainChar = true)
    (X : Str) (k : Nat) :
    parseOrF (k + 4) (' ' :: '`' :: (A ++ '`' :: ' ' :: ':' :: X)) =
      some (.tpl A, ' ' :: ':' :: X) := by
  rw [parseOrF, parseAnd_tpl_colon A hA X k]
  rfl

theorem parseOr_tpl_nil (A : Str) (hA : A.all plainChar = true) (k : Nat) :
    parseOrF (k + 4) (' ' :: '`' :: (A ++ ['`'])) =
      some (.tpl A, []) := by
  rw [parseOrF, parseAnd_tpl_nil A hA k]
  rfl

theorem parseExpr_tpl_colon (A : Str) (hA : A.all plainChar = true)
    (X : Str) (k : Nat) :
    parseExprF (k + 5) (' ' :: '`' :: (A ++ '`' :: ' ' :: ':' :: X)) =
      some (.tpl A, ' ' :: ':' :: X) := by
  rw [parseExprF, parseOr_tpl_colon A hA X k]
  rfl

theorem parseExpr_tpl_nil (A : Str) (hA : A.all plainChar = true) (k : Nat) :
    parseExprF (k + 5) (' ' :: '`' :: (A ++ ['`'])) =
      some (.tpl A, []) := by
  rw [parseExprF, parseOr_tpl_nil A hA k]
  rfl

theorem parseExpr_emptyStr (k : Nat) :
    parseExprF (k + 5) [' ', '\'', '\''] = some (.strLit [], []) := rfl

theorem parseExpr_cond3 (v A B : Str) (hne : v ≠ [])
    (hv : v.all isAlphaC = true)
    (hA : A.all plainChar = true) (hB : B.all plainChar = true) (k : Nat) :
    parseExprF (k + 6)
      ("data.".toList ++ (v ++ ' ' :: '?' :: (' ' :: '`' :: (A ++ '`' ::
        (' ' :: ':' :: (' ' :: '`' :: (B ++ ['`']))))))) =
      some (.condE (.member (.varE "data".toList) v) (.tpl A) (.tpl B), []) := by
  have h3 := parseOr_dataChain v hne hv
    (' ' :: '`' :: (A ++ '`' :: (' ' :: ':' :: (' ' :: '`' :: (B ++ ['`']))))) k
  have h1 := parseExpr_tpl_colon A hA (' ' :: '`' :: (B ++ ['`'])) k
  have h2 := parseExpr_tpl_nil B hB k
  have hd1 : ∀ X : Str, List.dropWhile isWsC (' ' :: '?' :: X) = '?' :: X :=
    fun _ => rfl
  have hd2 : ∀ X : Str, List.dropWhile isWsC (' ' :: ':' :: X) = ':' :: X :=
    fun _ => rfl
  rw [parseExprF, h3]
  simp only [h1, h2, hd1, hd2]

theorem parseExpr_cond2 (v A : Str) (hne : v ≠ [])
    (hv : v.all isAlphaC = true) (hA : A.all plainChar = true) (k : Nat) :
    parseExprF (k + 6)
      ("data.".toList ++ (v ++ ' ' :: '?' :: (' ' :: '`' :: (A ++ '`' ::
        (' ' :: ':' :: [' ', '\'', '\'']))))) =
      some (.condE (.member (.varE "data".toList) v) (.tpl A) (.strLit []), []) := by
  have h3 := parseOr_dataChain v hne hv
    (' ' :: '`' :: (A ++ '`' :: (' ' :: ':' :: [' ', '\'', '\'']))) k
  have h1 := parseExpr_tpl_colon A hA [' ', '\'', '\''] k
  have h2 := parseExpr_emptyStr k
  have hd1 : ∀ X : Str, List.dropWhile isWsC (' ' :: '?' :: X) = '?' :: X :=
    fun _ => rfl
  have hd2 : ∀ X : Str, List.dropWhile isWsC (' ' :: ':' :: X) = ':' :: X :=
    fun _ => rfl
  rw [parseExprF, h3]
  simp only [h1, h2, hd1, hd2]

theorem hlen64 (m : Nat) : 4 * m + 64 = (4 * m + 58) + 6 := by omega

theorem parseExprFull_cond3 (v A B : Str) (hne : v ≠ [])
    (hv : v.all isAlphaC = true)
    (hA : A.all plainChar = true) (hB : B.all plainChar = true) :
    parseExprFull ("data.".toList ++ (v ++ ' ' :: '?' :: (' ' :: '`' :: (A ++ '`' ::
        (' ' :: ':' :: (' ' :: '`' :: (B ++ ['`']))))))) =
      some (.condE (.member (.varE "data".toList) v) (.tpl A) (.tpl B)) := by
  unfold parseExprFull
  rw [hlen64]
  rw [parseExpr_cond3 v A B hne hv hA hB _]
  rfl

theorem parseExprFull_cond2 (v A : Str) (hne : v ≠ [])
    (hv : v.all isAlphaC = true) (hA : A.all plainChar = true) :
    parseExprFull ("data.".toList ++ (v ++ ' ' :: '?' :: (' ' :: '`' :: (A ++ '`' ::
        (' ' :: ':' :: [' ', '\'', '\'']))))) =
      some (.condE (.member (.varE "data".toList) v) (.tpl A) (.strLit [])) := by
  unfold parseExprFull
  rw [hlen64]
  rw [parseExpr_cond2 v A hne hv hA _]
  rfl


/-- The expression span the conditional pass plants inside `${...}` for the
three-branch form. -/
def condExpr3 (v A B : Str) : Str :=
  "data.".toList ++ (v ++ ' ' :: '?' :: (' ' :: '`' :: (A ++ '`' ::
    (' ' :: ':' :: (' ' :: '`' :: (B ++ ['`']))))))

/-- The expression span for the two-branch form. -/
def condExpr2 (v A : Str) : Str :=
  "data.".toList ++ (v ++ ' ' :: '?' :: (' ' :: '`' :: (A ++ '`' ::
    (' ' :: ':' :: [' ', '\'', '\'']))))

theorem condBody3_split (v A B : Str) :
    condBody3 v A B = '$' :: '\x7b' :: (condExpr3 v A B ++ ['\x7d']) := by
  rw [condBody3_dollar]
  simp only [condExpr3,
    show (" ? `".toList : Str) = ' ' :: '?' :: ' ' :: '`' :: [] from rfl,
    show (tick5 : Str) = '`' :: ' ' :: ':' :: ' ' :: '`' :: [] from rfl,
    show (elsePresentRepl : Str) = '`' :: '\x7d' :: [] from rfl,
    List.cons_append, List.append_assoc, List.nil_append,
    List.singleton_append]

theorem condBody2_split (v A : Str) :
    condBody2 v A = '$' :: '\x7b' :: (condExpr2 v A ++ ['\x7d']) := by
  rw [condBody2_dollar]
  simp only [condExpr2,
    show (" ? `".toList : Str) = ' ' :: '?' :: ' ' :: '`' :: [] from rfl,
    show (elseAbsentRepl : Str) =
      '`' :: ' ' :: ':' :: ' ' :: '\'' :: '\'' :: '\x7d' :: [] from rfl,
    List.cons_append, List.append_assoc, List.nil_append,
    List.singleton_append]

theorem condExpr3_ne (v A B : Str) : condExpr3 v A B ≠ [] := by
  simp [condExpr3]

theorem condExpr2_ne (v A : Str) : condExpr2 v A ≠ [] := by
  simp [condExpr2]

theorem condExpr3_noBrace (v A B : Str) (hv : v.all isAlphaC = true)
    (hA : A.all plainChar = true) (hB : B.all plainChar = true) :
    (condExpr3 v A B).all (fun c => !(c == '\x7d')) = true := by
  simp only [condExpr3, List.all_append, List.all_cons, Bool.and_eq_true]
  refine ⟨by decide, all_ne_of_alpha v '\x7d' hv (by decide), by decide,
    by decide, by decide, by decide,
    all_ne_of_plain A '\x7d' hA (by decide), by decide, by decide, by decide,
    by decide, by decide,
    all_ne_of_plain B '\x7d' hB (by decide), by decide⟩

theorem condExpr2_noBrace (v A : Str) (hv : v.all isAlphaC = true)
    (hA : A.all plainChar = true) :
    (condExpr2 v A).all (fun c => !(c == '\x7d')) = true := by
  simp only [condExpr2, List.all_append, List.all_cons, Bool.and_eq_true]
  refine ⟨by decide, all_ne_of_alpha v '\x7d' hv (by decide), by decide,
    by decide, by decide, by decide,
    all_ne_of_plain A '\x7d' hA (by decide), by decide, by decide, by decide,
    by decide⟩

theorem expectS_self (lit Y : Str) : expectS lit (lit ++ Y) = some Y := by
  unfold expectS
  rw [if_pos (List.isPrefixOf_iff_prefix.mpr (List.prefix_append lit Y)),
    List.drop_left]

theorem trySplitExpr_fire (E w : Str) (hne : E ≠ [])
    (hE : E.all (fun c => !(c == '\x7d')) = true) :
    trySplitExpr ('$' :: '\x7b' :: (E ++ '\x7d' :: w)) = some (E, w) := by
  have hne' : E.isEmpty = false := by
    cases E
    · exact absurd rfl hne
    · rfl
  have hexp : expectS "$\x7b".toList ('$' :: '\x7b' :: (E ++ '\x7d' :: w)) =
      some (E ++ '\x7d' :: w) := by
    rw [show ('$' :: '\x7b' :: (E ++ '\x7d' :: w) : Str) =
      "$\x7b".toList ++ (E ++ '\x7d' :: w) from rfl]
    exact expectS_self _ _
  have htake := takeWhile_append_stop (fun d => !(d == '\x7d')) E '\x7d' w hE
    (by decide)
  have hdrop := dropWhile_append_stop (fun d => !(d == '\x7d')) E '\x7d' w hE
    (by decide)
  simp only [trySplitExpr, hexp, htake, hdrop, hne', Bool.false_eq_true,
    if_false]

theorem splitContent_single (E : Str) (hne : E ≠ [])
    (hE : E.all (fun c => !(c == '\x7d')) = true) :
    splitContent ('$' :: '\x7b' :: (E ++ ['\x7d'])) = [Part.expr E] := by
  unfold splitContent splitContentAux
  rw [show ('$' :: '\x7b' :: (E ++ ['\x7d']) : Str).length =
    (E.length + 2) + 1 from by simp]
  rw [splitContentF, trySplitExpr_fire E [] hne hE]
  simp [splitContentF]


theorem parseExprFull_condExpr3 (v A B : Str) (hne : v ≠ [])
    (hv : v.all isAlphaC = true)
    (hA : A.all plainChar = true) (hB : B.all plainChar = true) :
    parseExprFull (condExpr3 v A B) =
      some (.condE (.member (.varE "data".toList) v) (.tpl A) (.tpl B)) :=
  parseExprFull_cond3 v A B hne hv hA hB

theorem parseExprFull_condExpr2 (v A : Str) (hne : v ≠ [])
    (hv : v.all isAlphaC = true) (hA : A.all plainChar = true) :
    parseExprFull (condExpr2 v A) =
      some (.condE (.member (.varE "data".toList) v) (.tpl A) (.strLit [])) :=
  parseExprFull_cond2 v A hne hv hA

theorem evalJs_dataMember (data : Ctx) (v : Str) (val : JsVal)
    (hfind : data.find? (fun kv => kv.1 == v) = some (v, val)) :
    evalJs data (.member (.varE "data".toList) v) = .ok val := by
  have h1 : evalJs data (.varE "data".toList) = .ok (.obj data) := by
    rw [evalJs, if_pos (by rfl)]
  rw [evalJs, h1]
  show getField (.obj data) v = .ok val
  rw [getField, hfind]
  rfl

theorem evalJs_cond3 (data : Ctx) (v A B : Str) (val : JsVal)
    (hfind : data.find? (fun kv => kv.1 == v) = some (v, val)) :
    evalJs data (.condE (.member (.varE "data".toList) v) (.tpl A) (.tpl B)) =
      .ok (.str (if truthy val then A else B)) := by
  have h := evalJs_dataMember data v val hfind
  rw [evalJs, h]
  show (if truthy val = true then evalJs data (.tpl A)
    else evalJs data (.tpl B)) = _
  cases hv : truthy val
  · simp only [hv, Bool.false_eq_true, if_false]
    rfl
  · simp only [hv, if_true]
    rfl

theorem evalJs_cond2 (data : Ctx) (v A : Str) (val : JsVal)
    (hfind : data.find? (fun kv => kv.1 == v) = some (v, val)) :
    evalJs data
        (.condE (.member (.varE "data".toList) v) (.tpl A) (.strLit [])) =
      .ok (.str (if truthy val then A else [])) := by
  have h := evalJs_dataMember data v val hfind
  rw [evalJs, h]
  show (if truthy val = true then evalJs data (.tpl A)
    else evalJs data (.strLit [])) = _
  cases hv : truthy val
  · simp only [hv, Bool.false_eq_true, if_false]
    rfl
  · simp only [hv, if_true]
    rfl

theorem runContent_cond3 (data : Ctx) (v A B : Str) (val : JsVal)
    (hne : v ≠ []) (hv : v.all isAlphaC = true)
    (hA : A.all plainChar = true) (hB : B.all plainChar = true)
    (hfind : data.find? (fun kv => kv.1 == v) = some (v, val)) :
    runContent data (condBody3 v A B) =
      .ok (if truthy val then A else B) := by
  have hpf := parseExprFull_condExpr3 v A B hne hv hA hB
  have heval := evalJs_cond3 data v A B val hfind
  unfold runContent
  rw [condBody3_split,
    splitContent_single (condExpr3 v A B) (condExpr3_ne v A B)
      (condExpr3_noBrace v A B hv hA hB)]
  simp only [partsSyntaxOk, List.all_cons, List.all_nil, hpf,
    Option.isSome_some, Bool.and_true, if_true]
  rw [runParts, hpf]
  simp only [heval, runParts, Except.map, List.append_nil]
  rfl

theorem runContent_cond2 (data : Ctx) (v A : Str) (val : JsVal)
    (hne : v ≠ []) (hv : v.all isAlphaC = true)
    (hA : A.all plainChar = true)
    (hfind : data.find? (fun kv => kv.1 == v) = some (v, val)) :
    runContent data (condBody2 v A) =
      .ok (if truthy val then A else []) := by
  have hpf := parseExprFull_condExpr2 v A hne hv hA
  have heval := evalJs_cond2 data v A val hfind
  unfold runContent
  rw [condBody2_split,
    splitContent_single (condExpr2 v A) (condExpr2_ne v A)
      (condExpr2_noBrace v A hv hA)]
  simp only [partsSyntaxOk, List.all_cons, List.all_nil, hpf,
    Option.isSome_some, Bool.and_true, if_true]
  rw [runParts, hpf]
  simp only [heval, runParts, Except.map, List.append_nil]
  rfl


theorem renderT_simple (fs : FS) (n : Str) (data : Ctx) (src C : Str)
    (hfs : fsLookup fs (stripViewSuffix n) = some src)
    (hparse : parseBlade fs src = ⟨C, none, []⟩) :
    renderT 1 fs n data = runContent data C := by
  rw [show (1 : Nat) = 0 + 1 from rfl, renderT]
  simp only [hfs, hparse]

/-- C1: for every well-formed template conditional with literal branch
texts, rendering emits exactly the branch selected by the truthiness of
`data.V` — branch `A` when truthy, branch `B` (three-branch form) or the
empty string (two-branch form) when falsy, with no bleed from the other
branch.  Amended: the literal texts are drawn from the benign character
set `plainChar`, the else branch must not make the `@endif` handler see an
`if` prefix, and — the correction forced by the 200-character lookback of
`processConditionals` — the else branch holds at most 195 characters;
`claim_C1_counterexample` shows a 196-character else branch aborts the
render with a `SyntaxError` instead of emitting a branch. -/
theorem claim_C1 (fs : FS) (n3 n2 : Str) (data : Ctx) (v A B : Str)
    (val : JsVal)
    (hne : v ≠ []) (hv : v.all isAlphaC = true)
    (hkw : jsKeywords.contains v = false)
    (hdata : (v == "data".toList) = false)
    (hA : A.all plainChar = true) (hB : B.all plainChar = true)
    (hBif : ("if".toList).isPrefixOf (B ++ "@endif".toList) = false)
    (hB195 : B.length ≤ 195)
    (hfind : data.find? (fun kv => kv.1 == v) = some (v, val))
    (hfs3 : fsLookup fs (stripViewSuffix n3) = some (condT3 v A B))
    (hfs2 : fsLookup fs (stripViewSuffix n2) = some (condT2 v A)) :
    renderT 1 fs n3 data = .ok (if truthy val then A else B) ∧
    renderT 1 fs n2 data = .ok (if truthy val then A else []) := by
  constructor
  · rw [renderT_simple fs n3 data _ _ hfs3
      (parseBlade_condT3 fs v A B hne hv hkw hdata hA hB hBif hB195)]
    exact runContent_cond3 data v A B val hne hv hA hB hfind
  · rw [renderT_simple fs n2 data _ _ hfs2
      (parseBlade_condT2 fs v A hne hv hkw hdata hA)]
    exact runContent_cond2 data v A val hne hv hA hfind

/-- The two-template views directory used by the C1 witness. -/
def c1FS : FS :=
  [("t3".toList, condT3 "x".toList "A".toList " B".toList),
   ("t2".toList, condT2 "x".toList "A".toList)]

/-- Witness for C1: `@if(x)A@else B@endif` with `x` falsy renders exactly
" B", and `@if(x)A@endif` renders the empty string. -/
theorem claim_C1_witness :
    renderT 1 c1FS "t3".toList [("x".toList, JsVal.bool false)] =
      .ok " B".toList ∧
    renderT 1 c1FS "t2".toList [("x".toList, JsVal.bool false)] = .ok [] := by
  have h := claim_C1 c1FS "t3".toList "t2".toList
    [("x".toList, JsVal.bool false)] "x".toList "A".toList " B".toList
    (JsVal.bool false) (by decide) (by decide) (by decide) (by decide)
    (by decide) (by decide) (by decide) (by decide) rfl rfl rfl
  exact h

/-- Counterexample to the literal C1: `@if(x)A@else B...B@endif` with a
196-character else branch and `x` truthy renders no branch at all — the
`@endif` lookback misses the `@else` marker 200 characters behind it, the
generated expression is malformed, and `new Function` raises a
`SyntaxError` — refuting "for every well-formed conditional ... exactly
one branch's literal text". -/
theorem claim_C1_counterexample :
    renderT 1
        [("t".toList, condT3 "x".toList "A".toList (List.replicate 196 'b'))]
        "t".toList [("x".toList, JsVal.bool true)] =
      .error "SyntaxError" := by
  rfl


/-! ### Parsing the generated yield expression. -/

theorem readStrLit_plain (A : Str) (hA : A.all plainChar = true) (w : Str) :
    readStrLit (A ++ '\'' :: w) = some (A, w) := by
  induction A with
  | nil => rfl
  | cons c t ih =>
    have hc : plainChar c = true := by simp_all
    have h1 : ¬(c = '\\') := by
      have := plain_ne c '\\' hc (by decide)
      simpa [beq_eq_false_iff_ne] using this
    have h2 : ¬(c = '\'') := by
      have := plain_ne c '\'' hc (by decide)
      simpa [beq_eq_false_iff_ne] using this
    have ht : t.all plainChar = true := by simp_all
    have iht := ih ht
    rw [List.cons_append, readStrLit.eq_def]
    split <;> simp_all

theorem parsePrimary_strLitSp (D : Str) (hD : D.all plainChar = true)
    (k : Nat) :
    parsePrimaryF (k + 1) (' ' :: '\'' :: (D ++ ['\''])) =
      some (.strLit D, []) := by
  have h0 : List.dropWhile isWsC (' ' :: '\'' :: (D ++ ['\''])) =
      '\'' :: (D ++ ['\'']) := rfl
  simp only [parsePrimaryF, h0,
    show (D ++ ['\''] : Str) = D ++ '\'' :: [] from rfl,
    readStrLit_plain D hD [],
    tlCook_escFree D (all_imp _ _ plain_escFree D hD)]

theorem parsePostfix_strLitSp (D : Str) (hD : D.all plainChar = true)
    (k : Nat) :
    parsePostfixF (k + 2) (' ' :: '\'' :: (D ++ ['\''])) =
      some (.strLit D, []) := by
  rw [parsePostfixF, parsePrimary_strLitSp D hD k]
  rfl

theorem parseAnd_strLitSp (D : Str) (hD : D.all plainChar = true) (k : Nat) :
    parseAndF (k + 3) (' ' :: '\'' :: (D ++ ['\''])) =
      some (.strLit D, []) := by
  rw [parseAndF, parsePostfix_strLitSp D hD k]
  rfl

theorem parsePostfix_secBracket (N : Str) (hN : N.all plainChar = true)
    (R : Str) (k : Nat) :
    parsePostfixF (k + 4)
        (' ' :: ("data._sections['".toList ++ (N ++ '\'' :: ']' :: ')' :: R))) =
      some (.member (.member (.varE "data".toList) "_sections".toList) N,
        ')' :: R) := by
  rw [parsePostfixF]
  have hprim : parsePrimaryF (k + 3)
      (' ' :: ("data._sections['".toList ++ (N ++ '\'' :: ']' :: ')' :: R))) =
      some (.varE "data".toList,
        '.' :: ("_sections['".toList ++ (N ++ '\'' :: ']' :: ')' :: R))) := rfl
  simp only [hprim]
  have h1 : postfixMore (k + 3) (JsExpr.varE "data".toList)
      ('.' :: ("_sections['".toList ++ (N ++ '\'' :: ']' :: ')' :: R))) =
      postfixMore (k + 2)
        (.member (.varE "data".toList) "_sections".toList)
        ('[' :: ('\'' :: (N ++ '\'' :: ']' :: ')' :: R))) := rfl
  rw [h1]
  have hrs := readStrLit_plain N hN (']' :: ')' :: R)
  have h2 : List.dropWhile isWsC ('\'' :: (N ++ '\'' :: ']' :: ')' :: R)) =
      '\'' :: (N ++ '\'' :: ']' :: ')' :: R) := rfl
  simp only [postfixMore, h2, hrs,
    tlCook_escFree N (all_imp _ _ plain_escFree N hN)]
  rfl

theorem parseAnd_sec (N : Str) (hN : N.all plainChar = true) (R : Str)
    (k : Nat) :
    parseAndF (k + 6)
        ("data._sections && data._sections['".toList ++
          (N ++ '\'' :: ']' :: ')' :: R)) =
      some (.andE (.member (.varE "data".toList) "_sections".toList)
        (.member (.member (.varE "data".toList) "_sections".toList) N),
        ')' :: R) := by
  rw [parseAndF]
  have hp1 : parsePostfixF (k + 5)
      ("data._sections && data._sections['".toList ++
        (N ++ '\'' :: ']' :: ')' :: R)) =
      some (.member (.varE "data".toList) "_sections".toList,
        ' ' :: ("&& data._sections['".toList ++
          (N ++ '\'' :: ']' :: ')' :: R))) := rfl
  simp only [hp1]
  have hdw : List.dropWhile isWsC
      (' ' :: ("&& data._sections['".toList ++
        (N ++ '\'' :: ']' :: ')' :: R))) =
      '&' :: '&' :: (' ' :: ("data._sections['".toList ++
        (N ++ '\'' :: ']' :: ')' :: R))) := rfl
  have hp2 := parsePostfix_secBracket N hN R k
  have hstop : ∀ (j : Nat) (e : JsExpr) (W : Str),
      parseAndMore (j + 1) e (')' :: W) = some (e, ')' :: W) :=
    fun _ _ _ => rfl
  rw [parseAndMore]
  simp only [hdw, hp2, hstop]

theorem parseExpr_secParen (N : Str) (hN : N.all plainChar = true) (R : Str)
    (k : Nat) :
    parseExprF (k + 8)
        ("data._sections && data._sections['".toList ++
          (N ++ '\'' :: ']' :: ')' :: R)) =
      some (.andE (.member (.varE "data".toList) "_sections".toList)
        (.member (.member (.varE "data".toList) "_sections".toList) N),
        ')' :: R) := by
  rw [parseExprF, parseOrF, parseAnd_sec N hN R k]
  have hstopOr : ∀ (j : Nat) (e : JsExpr) (W : Str),
      parseOrMore (j + 1) e (')' :: W) = some (e, ')' :: W) :=
    fun _ _ _ => rfl
  have hdw2 : ∀ W : Str, List.dropWhile isWsC (')' :: W) = ')' :: W :=
    fun _ => rfl
  simp only [hstopOr, hdw2]
  rfl

theorem parsePrimary_yield (N D : Str) (hN : N.all plainChar = true)
    (k : Nat) :
    parsePrimaryF (k + 9)
        ('(' :: ("data._sections && data._sections['".toList ++
          (N ++ '\'' :: ']' :: ')' ::
            (' ' :: '|' :: '|' :: ' ' :: '\'' :: (D ++ ['\'']))))) =
      some (.andE (.member (.varE "data".toList) "_sections".toList)
        (.member (.member (.varE "data".toList) "_sections".toList) N),
        ' ' :: '|' :: '|' :: ' ' :: '\'' :: (D ++ ['\''])) := by
  rw [parsePrimaryF]
  have h0 : List.dropWhile isWsC
      ('(' :: ("data._sections && data._sections['".toList ++
        (N ++ '\'' :: ']' :: ')' ::
          (' ' :: '|' :: '|' :: ' ' :: '\'' :: (D ++ ['\'']))))) =
      '(' :: ("data._sections && data._sections['".toList ++
        (N ++ '\'' :: ']' :: ')' ::
          (' ' :: '|' :: '|' :: ' ' :: '\'' :: (D ++ ['\''])))) := rfl
  have hin := parseExpr_secParen N hN
    (' ' :: '|' :: '|' :: ' ' :: '\'' :: (D ++ ['\''])) k
  have hdw2 : ∀ W : Str, List.dropWhile isWsC (')' :: W) = ')' :: W :=
    fun _ => rfl
  simp only [h0, hin, hdw2]

theorem parsePostfix_yield (N D : Str) (hN : N.all plainChar = true)
    (k : Nat) :
    parsePostfixF (k + 10)
        ('(' :: ("data._sections && data._sections['".toList ++
          (N ++ '\'' :: ']' :: ')' ::
            (' ' :: '|' :: '|' :: ' ' :: '\'' :: (D ++ ['\'']))))) =
      some (.andE (.member (.varE "data".toList) "_sections".toList)
        (.member (.member (.varE "data".toList) "_sections".toList) N),
        ' ' :: '|' :: '|' :: ' ' :: '\'' :: (D ++ ['\''])) := by
  rw [parsePostfixF, parsePrimary_yield N D hN k]
  rfl

theorem parseAnd_yield (N D : Str) (hN : N.all plainChar = true) (k : Nat) :
    parseAndF (k + 11)
        ('(' :: ("data._sections && data._sections['".toList ++
          (N ++ '\'' :: ']' :: ')' ::
            (' ' :: '|' :: '|' :: ' ' :: '\'' :: (D ++ ['\'']))))) =
      some (.andE (.member (.varE "data".toList) "_sections".toList)
        (.member (.member (.varE "data".toList) "_sections".toList) N),
        ' ' :: '|' :: '|' :: ' ' :: '\'' :: (D ++ ['\''])) := by
  rw [parseAndF, parsePostfix_yield N D hN k]
  rfl

theorem parseOr_yield (N D : Str) (hN : N.all plainChar = true)
    (hD : D.all plainChar = true) (k : Nat) :
    parseOrF (k + 12)
        ('(' :: ("data._sections && data._sections['".toList ++
          (N ++ '\'' :: ']' :: ')' ::
            (' ' :: '|' :: '|' :: ' ' :: '\'' :: (D ++ ['\'']))))) =
      some (.orE (.andE (.member (.varE "data".toList) "_sections".toList)
        (.member (.member (.varE "data".toList) "_sections".toList) N))
        (.strLit D), []) := by
  rw [parseOrF, parseAnd_yield N D hN k]
  have hs := parseAnd_strLitSp D hD (k + 7)
  rw [show k + 7 + 3 = k + 10 from by omega] at hs
  have hdwR : List.dropWhile isWsC
      (' ' :: '|' :: '|' :: ' ' :: '\'' :: (D ++ ['\''])) =
      '|' :: '|' :: (' ' :: '\'' :: (D ++ ['\''])) := rfl
  show parseOrMore (k + 11)
    (.andE (.member (.varE "data".toList) "_sections".toList)
      (.member (.member (.varE "data".toList) "_sections".toList) N))
    (' ' :: '|' :: '|' :: ' ' :: '\'' :: (D ++ ['\''])) = _
  rw [parseOrMore]
  simp only [hdwR, hs]
  rfl

theorem parseExpr_yield (N D : Str) (hN : N.all plainChar = true)
    (hD : D.all plainChar = true) (k : Nat) :
    parseExprF (k + 13)
        ('(' :: ("data._sections && data._sections['".toList ++
          (N ++ '\'' :: ']' :: ')' ::
            (' ' :: '|' :: '|' :: ' ' :: '\'' :: (D ++ ['\'']))))) =
      some (.orE (.andE (.member (.varE "data".toList) "_sections".toList)
        (.member (.member (.varE "data".toList) "_sections".toList) N))
        (.strLit D), []) := by
  rw [parseExprF, parseOr_yield N D hN hD k]
  rfl

theorem hlen51 (m : Nat) : 4 * m + 64 = (4 * m + 51) + 13 := by omega

theorem parseExprFull_yield (N D : Str) (hN : N.all plainChar = true)
    (hD : D.all plainChar = true) :
    parseExprFull
        ('(' :: ("data._sections && data._sections['".toList ++
          (N ++ '\'' :: ']' :: ')' ::
            (' ' :: '|' :: '|' :: ' ' :: '\'' :: (D ++ ['\'']))))) =
      some (.orE (.andE (.member (.varE "data".toList) "_sections".toList)
        (.member (.member (.varE "data".toList) "_sections".toList) N))
        (.strLit D)) := by
  unfold parseExprFull
  rw [hlen51]
  rw [parseExpr_yield N D hN hD _]
  rfl


/-! ### The layout round trip: child `@extends`/`@section`, parent
`@yield`. -/

/-- Child template `@extends('P')@section('N')S@endsection`. -/
def childT (P N S : Str) : Str :=
  '@' :: ("extends('".toList ++ (P ++ '\'' :: ')' ::
    ('@' :: ("section('".toList ++ (N ++ '\'' :: ')' ::
      (S ++ '@' :: "endsection".toList))))))

/-- Child template `@extends('P')` with no section. -/
def childT2 (P : Str) : Str :=
  '@' :: ("extends('".toList ++ (P ++ '\'' :: ')' :: ([] : Str)))

/-- Parent template `X@yield('N', 'D')Y`. -/
def parentT (X N D Y : Str) : Str :=
  X ++ '@' :: ("yield('".toList ++ (N ++ '\'' :: ',' :: ' ' :: '\'' ::
    (D ++ '\'' :: ')' :: Y)))

/-- The yield replacement's expression span,
`(data._sections && data._sections['N']) || 'D'`. -/
def yieldExpr (N D : Str) : Str :=
  '(' :: ("data._sections && data._sections['".toList ++
    (N ++ '\'' :: ']' :: ')' ::
      (' ' :: '|' :: '|' :: ' ' :: '\'' :: (D ++ ['\'']))))

/-- The abstract syntax of the yield expression. -/
def yieldAst (N D : Str) : JsExpr :=
  .orE (.andE (.member (.varE "data".toList) "_sections".toList)
    (.member (.member (.varE "data".toList) "_sections".toList) N))
    (.strLit D)

theorem escQuotes_id (D : Str) (hD : D.all (fun c => !(c == '\'')) = true) :
    escQuotes D = D := by
  induction D with
  | nil => rfl
  | cons c t ih =>
    simp only [List.all_cons, Bool.and_eq_true, Bool.not_eq_true'] at hD
    unfold escQuotes at ih ⊢
    rw [List.foldr_cons, hD.1, ih (by simp [hD.2])]
    rfl

theorem yieldRepl_split (N D : Str)
    (hDq : D.all (fun c => !(c == '\'')) = true) :
    yieldRepl N D = '$' :: '\x7b' :: (yieldExpr N D ++ ['\x7d']) := by
  unfold yieldRepl yieldExpr
  rw [escQuotes_id D hDq]
  simp only [
    show ("$\x7b(data._sections && data._sections['".toList : Str) =
      '$' :: '\x7b' :: '(' ::
        "data._sections && data._sections['".toList from rfl,
    show ("']) || '".toList : Str) =
      '\'' :: ']' :: ')' :: ' ' :: '|' :: '|' :: ' ' :: '\'' :: [] from rfl,
    show ("'\x7d".toList : Str) = '\'' :: '\x7d' :: [] from rfl,
    List.cons_append, List.append_assoc, List.nil_append]

theorem replaceFirst_head (pat rest repl : Str) :
    replaceFirst (pat ++ rest) pat repl = repl ++ rest := by
  have hfs : findSub pat (pat ++ rest) = some 0 := by
    have hpre : pat.isPrefixOf (pat ++ rest) = true :=
      List.isPrefixOf_iff_prefix.mpr (List.prefix_append pat rest)
    cases h : (pat ++ rest : Str) with
    | nil =>
      rw [findSub, show pat.isPrefixOf ([] : Str) = true from h ▸ hpre]
      rfl
    | cons c t =>
      rw [findSub, show pat.isPrefixOf (c :: t) = true from h ▸ hpre]
      rfl
  unfold replaceFirst
  rw [hfs]
  simp only [List.take_zero, Nat.zero_add, List.drop_left, List.nil_append]

theorem replaceFirst_self (s repl : Str) : replaceFirst s s repl = repl := by
  have h := replaceFirst_head s [] repl
  simpa using h

theorem findSub_first (pw S rest : Str)
    (hS : S.all (fun c => !(c == '@')) = true) :
    findSub ('@' :: pw) (S ++ '@' :: (pw ++ rest)) = some S.length := by
  induction S with
  | nil =>
    rw [List.nil_append, findSub]
    have hpre : (('@' :: pw).isPrefixOf ('@' :: (pw ++ rest))) = true :=
      List.isPrefixOf_iff_prefix.mpr
        (List.cons_prefix_cons.mpr ⟨rfl, List.prefix_append pw rest⟩)
    rw [hpre]
    rfl
  | cons c t ih =>
    simp only [List.all_cons, Bool.and_eq_true, Bool.not_eq_true'] at hS
    rw [List.cons_append, findSub]
    have hpre : (('@' :: pw).isPrefixOf (c :: (t ++ '@' :: (pw ++ rest)))) =
        false := by
      simp [List.isPrefixOf, beqf_symm c '@' hS.1]
    rw [hpre]
    simp only [Bool.false_eq_true, if_false, ih (by simp [hS.2]),
      Option.map_some']
    rfl

theorem take_match_text (M w : Str) :
    (M ++ w).take ((M ++ w).length - w.length) = M := by
  rw [show (M ++ w : Str).length - w.length = M.length from by simp,
    List.take_left]

theorem tryExtends_fire (P : Str) (hne : P ≠ [])
    (hPq : P.all notQuoteC = true) (w : Str) :
    tryExtends ('@' :: ("extends('".toList ++ (P ++ '\'' :: ')' :: w))) =
      some (P, w) := by
  have hne' : P.isEmpty = false := by
    cases P
    · exact absurd rfl hne
    · rfl
  unfold tryExtends
  rw [show ('@' :: ("extends('".toList ++ (P ++ '\'' :: ')' :: w)) : Str) =
    "@extends".toList ++ ('(' :: '\'' :: (P ++ '\'' :: ')' :: w)) from rfl]
  rw [expectS_self]
  have h1 : List.dropWhile isWsC ('(' :: '\'' :: (P ++ '\'' :: ')' :: w)) =
      '(' :: '\'' :: (P ++ '\'' :: ')' :: w) := rfl
  have h2 : List.dropWhile isWsC ('\'' :: (P ++ '\'' :: ')' :: w)) =
      '\'' :: (P ++ '\'' :: ')' :: w) := rfl
  have h3 := takeWhile_append_stop notQuoteC P '\'' (')' :: w) hPq (by decide)
  have h4 := dropWhile_append_stop notQuoteC P '\'' (')' :: w) hPq (by decide)
  have h5 : ∀ W : Str, List.dropWhile isWsC (')' :: W) = ')' :: W :=
    fun _ => rfl
  simp only [h1, h2, h3, h4, h5, hne', Bool.false_eq_true, if_false,
    show isQuoteC '\'' = true from by decide, if_true]


theorem extractExtends_child (P : Str) (hne : P ≠ [])
    (hPq : P.all notQuoteC = true) (rest : Str) :
    extractExtends ('@' :: ("extends('".toList ++ (P ++ '\'' :: ')' :: rest))) =
      (some P, rest) := by
  have hfire := tryExtends_fire P hne hPq rest
  have hM : ('@' :: ("extends('".toList ++ (P ++ '\'' :: ')' :: rest)) : Str) =
      ('@' :: ("extends('".toList ++ (P ++ '\'' :: ')' :: ([] : Str)))) ++
        rest := by
    simp [List.append_assoc]
  have hmv : (fun s => (tryExtends s).map
      (fun p => (p.1, s.take (s.length - p.2.length))))
      ('@' :: ("extends('".toList ++ (P ++ '\'' :: ')' :: rest))) =
      some (P, '@' :: ("extends('".toList ++ (P ++ ['\'', ')']))) := by
    show Option.map _ (tryExtends ('@' :: ("extends('".toList ++
      (P ++ '\'' :: ')' :: rest)))) = _
    rw [hfire, Option.map_some']
    rw [show ('@' :: ("extends('".toList ++ (P ++ '\'' :: ')' :: rest)) : Str) =
      ('@' :: ("extends('".toList ++ (P ++ ['\'', ')']))) ++ rest from hM]
    rw [take_match_text]
  unfold extractExtends scanExtends
  rw [findGen_step _ '@' ("extends('".toList ++ (P ++ '\'' :: ')' :: rest))
    _ hmv]
  show (some P, replaceFirst ('@' :: ("extends('".toList ++
    (P ++ '\'' :: ')' :: rest)))
    ('@' :: ("extends('".toList ++ (P ++ ['\'', ')']))) []) = _
  rw [show ('@' :: ("extends('".toList ++ (P ++ '\'' :: ')' :: rest)) : Str) =
    ('@' :: ("extends('".toList ++ (P ++ ['\'', ')']))) ++ rest from hM]
  rw [replaceFirst_head, List.nil_append]

theorem tryExtends_at_yield (N D : Str) (Y : Str) :
    tryExtends ('@' :: ("yield('".toList ++ (N ++ '\'' :: ',' :: ' ' :: '\'' ::
      (D ++ '\'' :: ')' :: Y)))) = none := rfl

theorem yield_tail_atFree (N D Y : Str) (hN : N.all isAlphaC = true)
    (hD : D.all plainChar = true) (hY : Y.all plainChar = true) :
    ("yield('".toList ++ (N ++ '\'' :: ',' :: ' ' :: '\'' ::
      (D ++ '\'' :: ')' :: Y))).all (fun c => !(c == '@')) = true := by
  simp only [List.all_append, List.all_cons, Bool.and_eq_true]
  refine ⟨by decide, all_ne_of_alpha N '@' hN (by decide), by decide,
    by decide, by decide, by decide,
    all_ne_of_plain D '@' hD (by decide), by decide, by decide,
    all_ne_of_plain Y '@' hY (by decide)⟩

theorem extractExtends_parent (X N D Y : Str) (hX : X.all plainChar = true)
    (hN : N.all isAlphaC = true) (hD : D.all plainChar = true)
    (hY : Y.all plainChar = true) :
    extractExtends (parentT X N D Y) = (none, parentT X N D Y) := by
  have hXat : X.all (fun c => !(c == '@')) = true :=
    all_ne_of_plain X '@' hX (by decide)
  have hTat := yield_tail_atFree N D Y hN hD hY
  have hnone : scanExtends (parentT X N D Y) = none := by
    unfold scanExtends parentT
    have hb : ∀ c t, ((fun c => c == '@') c = false) →
        (fun s => (tryExtends s).map
          (fun p => (p.1, s.take (s.length - p.2.length)))) (c :: t) = none :=
      fun c t hc => by
        show Option.map _ (tryExtends (c :: t)) = none
        rw [tryExtends_hn c t hc]
        rfl
    rw [findGen_seg _ (fun c => c == '@') hb X _ hXat]
    rw [findGen_copy _ '@' _ (by
      show Option.map _ (tryExtends ('@' :: ("yield('".toList ++
        (N ++ '\'' :: ',' :: ' ' :: '\'' :: (D ++ '\'' :: ')' :: Y))))) = none
      rw [tryExtends_at_yield]
      rfl)]
    have := findGen_seg (fun s => (tryExtends s).map
        (fun p => (p.1, s.take (s.length - p.2.length))))
      (fun c => c == '@') hb
      ("yield('".toList ++ (N ++ '\'' :: ',' :: ' ' :: '\'' ::
        (D ++ '\'' :: ')' :: Y))) [] hTat
    simpa using this
  unfold extractExtends
  rw [hnone]

theorem tryBlock_section_fire (N S : Str) (hNne : N ≠ [])
    (hNq : N.all notQuoteC = true)
    (hSat : S.all (fun c => !(c == '@')) = true) :
    tryBlock "@section".toList "@endsection".toList
        ('@' :: ("section('".toList ++ (N ++ '\'' :: ')' ::
          (S ++ '@' :: "endsection".toList)))) =
      some (⟨'@' :: ("section('".toList ++ (N ++ '\'' :: ')' ::
          (S ++ '@' :: "endsection".toList))), N, S.dropWhile isWsC⟩, []) := by
  have hne' : N.isEmpty = false := by
    cases N
    · exact absurd rfl hNne
    · rfl
  unfold tryBlock
  rw [show ('@' :: ("section('".toList ++ (N ++ '\'' :: ')' ::
      (S ++ '@' :: "endsection".toList))) : Str) =
    "@section".toList ++ ('(' :: '\'' :: (N ++ '\'' :: ')' ::
      (S ++ '@' :: "endsection".toList))) from rfl]
  rw [expectS_self]
  have h1 : ∀ W : Str, List.dropWhile isWsC ('(' :: W) = '(' :: W :=
    fun _ => rfl
  have h2 : ∀ W : Str, List.dropWhile isWsC ('\'' :: W) = '\'' :: W :=
    fun _ => rfl
  have h5 : ∀ W : Str, List.dropWhile isWsC (')' :: W) = ')' :: W :=
    fun _ => rfl
  have h3 := takeWhile_append_stop notQuoteC N '\''
    (')' :: (S ++ '@' :: "endsection".toList)) hNq (by decide)
  have h4 := dropWhile_append_stop notQuoteC N '\''
    (')' :: (S ++ '@' :: "endsection".toList)) hNq (by decide)
  have hfs : findSub "@endsection".toList
      (S ++ '@' :: "endsection".toList) = some S.length := by
    have := findSub_first "endsection".toList S [] hSat
    simpa using this
  have htake : (S ++ '@' :: "endsection".toList).take S.length = S := by
    rw [show ('@' :: "endsection".toList : Str) =
      "@endsection".toList from rfl, List.take_left]
  have hdropall : (S ++ '@' :: "endsection".toList).drop
      (S.length + ("@endsection".toList).length) = [] := by
    rw [show ('@' :: "endsection".toList : Str) = "@endsection".toList from rfl]
    rw [← List.length_append]
    exact List.drop_length _
  simp only [h1, h2, h3, h4, h5, hne', Bool.false_eq_true, if_false,
    show isQuoteC '\'' = true from by decide, if_true, hfs, htake, hdropall]
  simp


theorem collectGen_oneAt_nil {m : Type} (tryM : Str → Option (m × Str))
    (hb : ∀ c t, (c == '@') = false → tryM (c :: t) = none)
    (X T : Str) (hX : atFree X = true) (hT : atFree T = true)
    (hAt : tryM ('@' :: T) = none) :
    collectGen tryM (X ++ '@' :: T) = [] := by
  rw [collectGen_seg tryM (fun c => c == '@') hb X _ hX]
  rw [collectGen_copy tryM '@' T hAt]
  exact collectGen_atFree_nil tryM hb T hT

theorem processSections_child (N S : Str) (hNne : N ≠ [])
    (hNq : N.all notQuoteC = true)
    (hSat : S.all (fun c => !(c == '@')) = true) :
    processSections ('@' :: ("section('".toList ++ (N ++ '\'' :: ')' ::
        (S ++ '@' :: "endsection".toList)))) =
      (secMarker N, [(N, trimS (S.dropWhile isWsC))]) := by
  have hms : collectBlocks "@section".toList "@endsection".toList
      ('@' :: ("section('".toList ++ (N ++ '\'' :: ')' ::
        (S ++ '@' :: "endsection".toList)))) =
      [⟨'@' :: ("section('".toList ++ (N ++ '\'' :: ')' ::
        (S ++ '@' :: "endsection".toList))), N, S.dropWhile isWsC⟩] := by
    unfold collectBlocks
    rw [collectGen_step _ '@' _ _ []
      (tryBlock_section_fire N S hNne hNq hSat) (by simp)]
    rw [collectGen_nil]
  unfold processSections
  rw [hms]
  simp only [List.foldl_cons, List.foldl_nil]
  rw [replaceFirst_self]
  rfl

theorem processSections_parent (X N D Y : Str) (hX : X.all plainChar = true)
    (hN : N.all isAlphaC = true) (hD : D.all plainChar = true)
    (hY : Y.all plainChar = true) :
    processSections (parentT X N D Y) = (parentT X N D Y, []) := by
  have hXat : X.all (fun c => !(c == '@')) = true :=
    all_ne_of_plain X '@' hX (by decide)
  have hTat := yield_tail_atFree N D Y hN hD hY
  have hms : collectBlocks "@section".toList "@endsection".toList
      (parentT X N D Y) = [] := by
    unfold collectBlocks parentT
    exact collectGen_oneAt_nil _ (fun c t hc => trySection_hn c t hc)
      X _ hXat hTat rfl
  unfold processSections
  rw [hms]
  rfl

theorem processComponents_parent (X N D Y : Str) (hX : X.all plainChar = true)
    (hN : N.all isAlphaC = true) (hD : D.all plainChar = true)
    (hY : Y.all plainChar = true) :
    processComponents (parentT X N D Y) = parentT X N D Y := by
  have hXat : X.all (fun c => !(c == '@')) = true :=
    all_ne_of_plain X '@' hX (by decide)
  have hTat := yield_tail_atFree N D Y hN hD hY
  have hms : collectCompBlocks (parentT X N D Y) = [] := by
    unfold collectCompBlocks parentT
    exact collectGen_oneAt_nil _ (fun c t hc => tryComponentBlock_hn c t hc)
      X _ hXat hTat rfl
  unfold processComponents
  rw [hms]
  rfl

theorem processSlots_parent (X N D Y : Str) (hX : X.all plainChar = true)
    (hN : N.all isAlphaC = true) (hD : D.all plainChar = true)
    (hY : Y.all plainChar = true) :
    processSlots (parentT X N D Y) = parentT X N D Y := by
  have hXat : X.all (fun c => !(c == '@')) = true :=
    all_ne_of_plain X '@' hX (by decide)
  have hTat := yield_tail_atFree N D Y hN hD hY
  have hms : collectBlocks "@slot".toList "@endslot".toList
      (parentT X N D Y) = [] := by
    unfold collectBlocks parentT
    exact collectGen_oneAt_nil _ (fun c t hc => trySlot_hn c t hc)
      X _ hXat hTat rfl
  unfold processSlots
  rw [hms]
  rfl


theorem tryYield_fire (N D Y : Str) (hNne : N ≠ [])
    (hNq : N.all notQuoteC = true) (hDq : D.all notQuoteC = true) :
    tryYield ('@' :: ("yield('".toList ++ (N ++ '\'' :: ',' :: ' ' :: '\'' ::
        (D ++ '\'' :: ')' :: Y)))) = some (yieldRepl N D, Y) := by
  have hne' : N.isEmpty = false := by
    cases N
    · exact absurd rfl hNne
    · rfl
  unfold tryYield
  rw [show ('@' :: ("yield('".toList ++ (N ++ '\'' :: ',' :: ' ' :: '\'' ::
      (D ++ '\'' :: ')' :: Y))) : Str) =
    "@yield".toList ++ ('(' :: '\'' :: (N ++ '\'' :: ',' :: ' ' :: '\'' ::
      (D ++ '\'' :: ')' :: Y))) from rfl]
  rw [expectS_self]
  have h1 : ∀ W : Str, List.dropWhile isWsC ('(' :: W) = '(' :: W :=
    fun _ => rfl
  have h2 : ∀ W : Str, List.dropWhile isWsC ('\'' :: W) = '\'' :: W :=
    fun _ => rfl
  have h3 := takeWhile_append_stop notQuoteC N '\''
    (',' :: ' ' :: '\'' :: (D ++ '\'' :: ')' :: Y)) hNq (by decide)
  have h4 := dropWhile_append_stop notQuoteC N '\''
    (',' :: ' ' :: '\'' :: (D ++ '\'' :: ')' :: Y)) hNq (by decide)
  have h5 : ∀ W : Str, List.dropWhile isWsC (',' :: W) = ',' :: W :=
    fun _ => rfl
  have h6 : ∀ W : Str, List.dropWhile isWsC (' ' :: '\'' :: W) = '\'' :: W :=
    fun _ => rfl
  have h7 := takeWhile_append_stop notQuoteC D '\'' (')' :: Y) hDq (by decide)
  have h8 := dropWhile_append_stop notQuoteC D '\'' (')' :: Y) hDq (by decide)
  have h9 : ∀ W : Str, List.dropWhile isWsC (')' :: W) = ')' :: W :=
    fun _ => rfl
  simp only [h1, h2, h3, h4, hne', Bool.false_eq_true, if_false,
    show isQuoteC '\'' = true from by decide, if_true, h5, h6, h7, h8, h9,
    tryYieldDefault]

theorem all_notQuote_of_alpha (N : Str) (h : N.all isAlphaC = true) :
    N.all notQuoteC = true := by
  have h1 := all_ne_of_alpha N '\'' h (by decide)
  have h2 := all_ne_of_alpha N '"' h (by decide)
  rw [List.all_eq_true] at h1 h2 ⊢
  intro c hc
  have e1 := h1 c hc
  have e2 := h2 c hc
  unfold notQuoteC isQuoteC
  simp_all

theorem escQuotes_atFree (D : Str) (hDq : D.all (fun c => !(c == '@')) = true) :
    (escQuotes D).all (fun c => !(c == '@')) = true := by
  induction D with
  | nil => rfl
  | cons c t ih =>
    simp only [List.all_cons, Bool.and_eq_true] at hDq
    unfold escQuotes at ih ⊢
    rw [List.foldr_cons]
    by_cases hq : (c == '\'') = true
    · rw [hq]
      simp only [if_true, List.all_cons, Bool.and_eq_true]
      exact ⟨by decide, by decide, ih hDq.2⟩
    · simp only [hq, Bool.false_eq_true, if_false, List.all_cons,
        Bool.and_eq_true]
      exact ⟨hDq.1, ih hDq.2⟩

theorem yieldRepl_atFree (N D : Str) (hN : N.all isAlphaC = true)
    (hDq : D.all (fun c => !(c == '@')) = true) :
    (yieldRepl N D).all (fun c => !(c == '@')) = true := by
  unfold yieldRepl
  simp only [List.all_append, Bool.and_eq_true]
  exact ⟨⟨⟨⟨by decide, all_ne_of_alpha N '@' hN (by decide)⟩, by decide⟩,
    escQuotes_atFree D hDq⟩, by decide⟩

theorem processYields_parent (X N D Y : Str) (hX : X.all plainChar = true)
    (hNne : N ≠ []) (hN : N.all isAlphaC = true)
    (hD : D.all plainChar = true) (hDq : D.all notQuoteC = true)
    (hY : Y.all plainChar = true) :
    processYields (parentT X N D Y) = X ++ (yieldRepl N D ++ Y) := by
  have hXat : X.all (fun c => !(c == '@')) = true :=
    all_ne_of_plain X '@' hX (by decide)
  have hYat : Y.all (fun c => !(c == '@')) = true :=
    all_ne_of_plain Y '@' hY (by decide)
  have hDat : D.all (fun c => !(c == '@')) = true :=
    all_ne_of_plain D '@' hD (by decide)
  have hNq : N.all notQuoteC = true := all_notQuote_of_alpha N hN
  have hrat := yieldRepl_atFree N D hN hDat
  have hinner : scanRepl tryYield (parentT X N D Y) =
      X ++ (yieldRepl N D ++ Y) := by
    unfold parentT
    rw [scanRepl_seg tryYield (fun c => c == '@')
      (fun c t hc => tryYield_hn c t hc) X _ hXat]
    rw [scanRepl_step tryYield '@' _ _ _ (tryYield_fire N D Y hNne hNq hDq)
      (by simp [List.length_append]; omega)]
    rw [scanRepl_all tryYield (fun c => c == '@')
      (fun c t hc => tryYield_hn c t hc) Y hYat]
  unfold processYields
  rw [hinner]
  rw [scanRepl_all tryContent (fun c => c == '@')
    (fun c t hc => tryContent_hn c t hc) _ (by
      simp only [List.all_append, Bool.and_eq_true]
      exact ⟨hXat, hrat, hYat⟩)]


theorem notQuote_imp_ne_sq (D : Str) (h : D.all notQuoteC = true) :
    D.all (fun c => !(c == '\'')) = true := by
  rw [List.all_eq_true] at h ⊢
  intro c hc
  have := h c hc
  unfold notQuoteC isQuoteC at this
  simp_all

theorem dropWhile_append_stable (p : Char → Bool) (A B : Str)
    (hA : A.dropWhile p = A) (hB : B.dropWhile p = B) :
    (A ++ B).dropWhile p = A ++ B := by
  cases A with
  | nil => simpa using hB
  | cons c t =>
    have hc : p c = false := by
      by_cases h : p c = true
      · rw [List.dropWhile_cons, h, if_pos rfl] at hA
        have := length_dropWhile_le p t
        rw [hA] at this
        simp at this
      · simpa using h
    rw [List.cons_append, List.dropWhile_cons, hc]
    simp

theorem yieldExpr_braceFree (N D : Str) (hN : N.all isAlphaC = true)
    (hD : D.all plainChar = true) :
    (yieldExpr N D).all (fun c => !(c == '\x7b')) = true := by
  unfold yieldExpr
  simp only [List.all_cons, List.all_append, Bool.and_eq_true]
  refine ⟨by decide, by decide,
    all_ne_of_alpha N '\x7b' hN (by decide), by decide, by decide,
    by decide, by decide, by decide, by decide, by decide, by decide,
    all_ne_of_plain D '\x7b' hD (by decide), by decide⟩

theorem scanVar_oneBrace (tryV : Str → Option (Str × Str))
    (hn : ∀ c t, ((c == '\x7b') = false) → tryV (c :: t) = none)
    (A T : Str) (hA : A.all (fun c => !(c == '\x7b')) = true)
    (hT : T.all (fun c => !(c == '\x7b')) = true)
    (hm : tryV ('\x7b' :: T) = none) :
    scanRepl tryV (A ++ '\x7b' :: T) = A ++ '\x7b' :: T := by
  rw [scanRepl_seg tryV (fun c => c == '\x7b') hn A _ hA,
    scanRepl_copy tryV '\x7b' T hm,
    scanRepl_all tryV (fun c => c == '\x7b') hn T hT]

theorem processVariables_parent (X N D Y : Str) (hX : X.all plainChar = true)
    (hN : N.all isAlphaC = true) (hD : D.all plainChar = true)
    (hDq : D.all notQuoteC = true) (hY : Y.all plainChar = true) :
    processVariables (X ++ (yieldRepl N D ++ Y)) =
      X ++ (yieldRepl N D ++ Y) := by
  have hsplit := yieldRepl_split N D (notQuote_imp_ne_sq D hDq)
  have hshape : (X ++ (yieldRepl N D ++ Y) : Str) =
      (X ++ ['$']) ++ '\x7b' :: (yieldExpr N D ++ '\x7d' :: Y) := by
    rw [hsplit]
    simp [List.append_assoc]
  have hA : (X ++ ['$'] : Str).all (fun c => !(c == '\x7b')) = true := by
    simp only [List.all_append, Bool.and_eq_true]
    exact ⟨all_ne_of_plain X '\x7b' hX (by decide), by decide⟩
  have hT : (yieldExpr N D ++ '\x7d' :: Y : Str).all
      (fun c => !(c == '\x7b')) = true := by
    simp only [List.all_append, List.all_cons, Bool.and_eq_true]
    exact ⟨yieldExpr_braceFree N D hN hD, by decide,
      all_ne_of_plain Y '\x7b' hY (by decide)⟩
  have hraw : tryRawVar ('\x7b' :: (yieldExpr N D ++ '\x7d' :: Y)) = none := by
    unfold yieldExpr
    rfl
  have hesc : tryEscVar ('\x7b' :: (yieldExpr N D ++ '\x7d' :: Y)) = none := by
    unfold yieldExpr
    rfl
  unfold processVariables
  rw [hshape]
  rw [scanVar_oneBrace tryRawVar tryRawVar_hn _ _ hA hT hraw,
    scanVar_oneBrace tryEscVar tryEscVar_hn _ _ hA hT hesc]

theorem trimS_parentContent (X N D Y : Str) (hXt : trimL X = X)
    (hYt : trimR Y = Y) (hDq : D.all notQuoteC = true) :
    trimS (X ++ (yieldRepl N D ++ Y)) = X ++ (yieldRepl N D ++ Y) := by
  have hsplit := yieldRepl_split N D (notQuote_imp_ne_sq D hDq)
  unfold trimS
  have h1 : trimL (X ++ (yieldRepl N D ++ Y)) =
      X ++ (yieldRepl N D ++ Y) := by
    unfold trimL at hXt ⊢
    apply dropWhile_append_stable _ _ _ hXt
    rw [hsplit]
    rw [show ('$' :: '\x7b' :: (yieldExpr N D ++ ['\x7d']) ++ Y : Str) =
      '$' :: ('\x7b' :: (yieldExpr N D ++ ['\x7d']) ++ Y) from rfl]
    rw [List.dropWhile_cons]
    simp [show isWsC '$' = false from by decide]
  rw [h1]
  unfold trimR
  have hrev : (X ++ (yieldRepl N D ++ Y)).reverse =
      Y.reverse ++ ((yieldRepl N D).reverse ++ X.reverse) := by
    simp
  rw [hrev]
  have hYr : Y.reverse.dropWhile isWsC = Y.reverse := by
    unfold trimR at hYt
    have := congrArg List.reverse hYt
    simpa using this
  have hMr : ((yieldRepl N D).reverse ++ X.reverse).dropWhile isWsC =
      (yieldRepl N D).reverse ++ X.reverse := by
    have hMr' : (yieldRepl N D).reverse ++ X.reverse =
        '\x7d' :: ((yieldExpr N D).reverse ++ ('\x7b' :: '$' :: X.reverse)) := by
      rw [hsplit]
      simp
    rw [hMr', List.dropWhile_cons]
    simp [show isWsC '\x7d' = false from by decide]
  rw [dropWhile_append_stable _ _ _ hYr hMr]
  simp


theorem parseBlade_parent (fs : FS) (X N D Y : Str)
    (hX : X.all plainChar = true) (hXt : trimL X = X)
    (hNne : N ≠ []) (hN : N.all isAlphaC = true)
    (hD : D.all plainChar = true) (hDq : D.all notQuoteC = true)
    (hY : Y.all plainChar = true) (hYt : trimR Y = Y) :
    parseBlade fs (parentT X N D Y) =
      ⟨X ++ (yieldRepl N D ++ Y), none, []⟩ := by
  have hXat : X.all (fun c => !(c == '@')) = true :=
    all_ne_of_plain X '@' hX (by decide)
  have hYat : Y.all (fun c => !(c == '@')) = true :=
    all_ne_of_plain Y '@' hY (by decide)
  have hDat : D.all (fun c => !(c == '@')) = true :=
    all_ne_of_plain D '@' hD (by decide)
  have hPCat : atFree (X ++ (yieldRepl N D ++ Y)) = true := by
    unfold atFree
    simp only [List.all_append, Bool.and_eq_true]
    exact ⟨hXat, yieldRepl_atFree N D hN hDat, hYat⟩
  unfold parseBlade
  simp only [extractExtends_parent X N D Y hX hN hD hY,
    processSections_parent X N D Y hX hN hD hY,
    processComponents_parent X N D Y hX hN hD hY,
    processSlots_parent X N D Y hX hN hD hY,
    processYields_parent X N D Y hX hNne hN hD hDq hY,
    pass_conditionals_id _ hPCat, pass_loops_id _ hPCat,
    pass_includes_id fs _ hPCat, pass_nodewire_id _ hPCat,
    processVariables_parent X N D Y hX hN hD hDq hY,
    trimS_parentContent X N D Y hXt hYt hDq]

theorem secMarker_atFree (N : Str) (hN : N.all isAlphaC = true) :
    atFree (secMarker N) = true := by
  unfold atFree secMarker
  simp only [List.all_append, Bool.and_eq_true]
  exact ⟨⟨by decide, all_ne_of_alpha N '@' hN (by decide)⟩, by decide⟩

theorem secMarker_braceFree (N : Str) (hN : N.all isAlphaC = true) :
    braceFree (secMarker N) = true := by
  unfold braceFree secMarker
  simp only [List.all_append, Bool.and_eq_true]
  exact ⟨⟨by decide, all_ne_of_alpha N '\x7b' hN (by decide)⟩, by decide⟩

theorem trimS_secMarker (N : Str) : trimS (secMarker N) = secMarker N := by
  have h : secMarker N =
      '<' :: (("!--SECTION:".toList ++ N ++ "--".toList) ++ ['>']) := by
    unfold secMarker
    simp [List.append_assoc]
  rw [h, trimS_id_of_ends '<' '>' _ (by decide) (by decide)]

theorem parseBlade_child (fs : FS) (P N S : Str)
    (hPne : P ≠ []) (hPq : P.all notQuoteC = true)
    (hNne : N ≠ []) (hN : N.all isAlphaC = true)
    (hS : S.all plainChar = true)
    (htrim : trimS (S.dropWhile isWsC) = S) :
    parseBlade fs (childT P N S) = ⟨secMarker N, some P, [(N, S)]⟩ := by
  have hNq : N.all notQuoteC = true := all_notQuote_of_alpha N hN
  have hSat : S.all (fun c => !(c == '@')) = true :=
    all_ne_of_plain S '@' hS (by decide)
  have hMat := secMarker_atFree N hN
  have hMbr := secMarker_braceFree N hN
  have hx : extractExtends (childT P N S) =
      (some P, '@' :: ("section('".toList ++ (N ++ '\'' :: ')' ::
        (S ++ '@' :: "endsection".toList)))) := by
    unfold childT
    exact extractExtends_child P hPne hPq _
  have hsec := processSections_child N S hNne hNq hSat
  rw [htrim] at hsec
  unfold parseBlade
  simp only [hx, hsec, pass_components_id _ hMat, pass_slots_id _ hMat,
    pass_yields_id _ hMat, pass_conditionals_id _ hMat,
    pass_loops_id _ hMat, pass_includes_id fs _ hMat,
    pass_nodewire_id _ hMat, pass_variables_id _ hMbr, trimS_secMarker N]

theorem parseBlade_child2 (fs : FS) (P : Str)
    (hPne : P ≠ []) (hPq : P.all notQuoteC = true) :
    parseBlade fs (childT2 P) = ⟨[], some P, []⟩ := by
  have hx : extractExtends (childT2 P) = (some P, []) := by
    unfold childT2
    exact extractExtends_child P hPne hPq []
  have hnilat : atFree ([] : Str) = true := rfl
  have hnilbr : braceFree ([] : Str) = true := rfl
  unfold parseBlade
  simp only [hx, pass_sections_id _ hnilat, pass_components_id _ hnilat,
    pass_slots_id _ hnilat, pass_yields_id _ hnilat,
    pass_conditionals_id _ hnilat, pass_loops_id _ hnilat,
    pass_includes_id fs _ hnilat, pass_nodewire_id _ hnilat,
    pass_variables_id _ hnilbr]
  rfl


theorem splitContentAux_fire (buf E Y : Str) (hne : E ≠ [])
    (hE : E.all (fun c => !(c == '\x7d')) = true) :
    splitContentAux buf ('$' :: '\x7b' :: (E ++ '\x7d' :: Y)) =
      (if buf.isEmpty then [Part.expr E]
        else [Part.text buf.reverse, Part.expr E]) ++ splitContentAux [] Y := by
  unfold splitContentAux
  rw [show ('$' :: '\x7b' :: (E ++ '\x7d' :: Y) : Str).length =
    (E.length + Y.length + 2) + 1 from by simp; omega]
  rw [splitContentF, trySplitExpr_fire E Y hne hE]
  have hlt : Y.length < ('\x7b' :: (E ++ '\x7d' :: Y) : Str).length + 1 := by
    simp
    omega
  simp only [hlt, if_true]
  rw [splitContentF_fuel (E.length + Y.length + 2) [] Y (by omega)]
  rfl

theorem splitContent_tet (X E Y : Str) (hX : dollarFree X = true)
    (hY : dollarFree Y = true) (hne : E ≠ [])
    (hE : E.all (fun c => !(c == '\x7d')) = true) :
    splitContent (X ++ ('$' :: '\x7b' :: (E ++ '\x7d' :: Y))) =
      (if X.isEmpty then [] else [Part.text X]) ++ Part.expr E ::
        (if Y.isEmpty then [] else [Part.text Y]) := by
  unfold splitContent
  rw [splitContentAux_seg X hX [] _]
  rw [List.append_nil]
  rw [splitContentAux_fire X.reverse E Y hne hE]
  have hYe : splitContentAux [] Y =
      (if Y.isEmpty then [] else [Part.text Y]) := by
    have := splitContent_noexpr Y hY
    unfold splitContent at this
    rw [this]
  rw [hYe]
  cases X with
  | nil => simp
  | cons c t =>
    have h1 : ((c :: t : Str).reverse ++ ([] : Str)).isEmpty = false := by
      simp
    have h2 : ((c :: t : Str)).isEmpty = false := rfl
    simp only [List.append_nil] at h1 ⊢
    rw [h1, h2]
    simp

theorem runParts_tet (data : Ctx) (X Y : Str) (E : Str) (ast : JsExpr)
    (val : JsVal) (hXe : X.all escFree = true) (hYe : Y.all escFree = true)
    (hparse : parseExprFull E = some ast)
    (heval : evalJs data ast = .ok val) :
    runParts data
        ((if X.isEmpty then [] else [Part.text X]) ++ Part.expr E ::
          (if Y.isEmpty then [] else [Part.text Y])) =
      .ok (X ++ (pushStr val ++ Y)) := by
  have hYrun : runParts data (if Y.isEmpty then [] else [Part.text Y]) =
      .ok Y := by
    cases Y with
    | nil => rfl
    | cons c t =>
      show runParts data [Part.text (c :: t)] = _
      rw [runParts]
      rw [escTpl_id _ hYe, tlCook_escFree _ hYe, runParts]
      simp [Except.map]
  have hmid : runParts data (Part.expr E ::
      (if Y.isEmpty then [] else [Part.text Y])) =
      .ok (pushStr val ++ Y) := by
    rw [runParts, hparse]
    simp only [heval, hYrun, Except.map]
  cases X with
  | nil =>
    simp only [List.isEmpty_nil, if_true, List.nil_append]
    rw [hmid]
  | cons c t =>
    simp only [show ((c :: t : Str)).isEmpty = false from rfl,
      Bool.false_eq_true, if_false, List.cons_append, List.nil_append]
    rw [runParts, escTpl_id _ hXe, tlCook_escFree _ hXe, hmid]
    rfl

theorem partsSyntaxOk_tet (X Y E : Str) (ast : JsExpr)
    (hparse : parseExprFull E = some ast) :
    partsSyntaxOk
        ((if X.isEmpty then [] else [Part.text X]) ++ Part.expr E ::
          (if Y.isEmpty then [] else [Part.text Y])) = true := by
  unfold partsSyntaxOk
  cases X <;> cases Y <;>
    simp [hparse]

theorem runContent_tet (data : Ctx) (X E Y : Str) (ast : JsExpr)
    (val : JsVal) (hX : X.all plainChar = true) (hY : Y.all plainChar = true)
    (hne : E ≠ []) (hE : E.all (fun c => !(c == '\x7d')) = true)
    (hparse : parseExprFull E = some ast)
    (heval : evalJs data ast = .ok val) :
    runContent data (X ++ ('$' :: '\x7b' :: (E ++ '\x7d' :: Y))) =
      .ok (X ++ (pushStr val ++ Y)) := by
  obtain ⟨_, _, hXd, hXe⟩ := plain_freeness X hX
  obtain ⟨_, _, hYd, hYe⟩ := plain_freeness Y hY
  unfold runContent
  rw [splitContent_tet X E Y hXd hYd hne hE]
  simp only [partsSyntaxOk_tet X Y E ast hparse, if_true]
  exact runParts_tet data X Y E ast val hXe hYe hparse heval


theorem all_plain_of_alpha (N : Str) (h : N.all isAlphaC = true) :
    N.all plainChar = true :=
  all_imp _ _ (fun c hc => by
    unfold plainChar
    unfold isAlphaC at hc
    simp [hc]) N h

theorem yieldExpr_closeFree (N D : Str) (hN : N.all isAlphaC = true)
    (hD : D.all plainChar = true) :
    (yieldExpr N D).all (fun c => !(c == '\x7d')) = true := by
  unfold yieldExpr
  simp only [List.all_cons, List.all_append, Bool.and_eq_true]
  refine ⟨by decide, by decide,
    all_ne_of_alpha N '\x7d' hN (by decide), by decide, by decide,
    by decide, by decide, by decide, by decide, by decide, by decide,
    all_ne_of_plain D '\x7d' hD (by decide), by decide⟩

theorem parseExprFull_yieldExpr (N D : Str) (hN : N.all isAlphaC = true)
    (hD : D.all plainChar = true) :
    parseExprFull (yieldExpr N D) = some (yieldAst N D) :=
  parseExprFull_yield N D (all_plain_of_alpha N hN) hD

theorem ok_bind {α β : Type} (a : α) (f : α → Except String β) :
    (Except.ok a >>= f) = f a := rfl

theorem evalJs_yieldAst (data : Ctx) (mc : Str)
    (secs : List (Str × JsVal)) (N D : Str) (sv : JsVal)
    (hget : getField (.obj secs) N = .ok sv) :
    evalJs (("_content".toList, JsVal.str mc) ::
        ("_sections".toList, JsVal.obj secs) :: data) (yieldAst N D) =
      .ok (if truthy sv then sv else .str D) := by
  have hvar : evalJs (("_content".toList, JsVal.str mc) ::
      ("_sections".toList, JsVal.obj secs) :: data) (.varE "data".toList) =
      .ok (.obj (("_content".toList, JsVal.str mc) ::
        ("_sections".toList, JsVal.obj secs) :: data)) := by
    rw [evalJs, if_pos (show ("data".toList == "data".toList) = true from rfl)]
  have hsec : evalJs (("_content".toList, JsVal.str mc) ::
      ("_sections".toList, JsVal.obj secs) :: data)
      (.member (.varE "data".toList) "_sections".toList) = .ok (.obj secs) := by
    rw [evalJs, hvar]
    rfl
  have hand : evalJs (("_content".toList, JsVal.str mc) ::
      ("_sections".toList, JsVal.obj secs) :: data)
      (.andE (.member (.varE "data".toList) "_sections".toList)
        (.member (.member (.varE "data".toList) "_sections".toList) N)) =
      .ok sv := by
    rw [evalJs, hsec]
    show evalJs (("_content".toList, JsVal.str mc) ::
        ("_sections".toList, JsVal.obj secs) :: data)
      (.member (.member (.varE "data".toList) "_sections".toList) N) =
      Except.ok sv
    rw [evalJs, hsec]
    show getField (.obj secs) N = Except.ok sv
    exact hget
  unfold yieldAst
  rw [evalJs, hand]
  show (if truthy sv = true then Except.ok sv
    else evalJs (("_content".toList, JsVal.str mc) ::
      ("_sections".toList, JsVal.obj secs) :: data) (.strLit D)) = _
  cases hv : truthy sv
  · simp only [hv, Bool.false_eq_true, if_false]
    rfl
  · simp only [hv, if_true]

theorem renderSections_single (data : Ctx) (N S : Str)
    (hrun : runContent data S = .ok S) :
    renderSections data [(N, S)] = .ok [(N, .str S)] := by
  rw [renderSections, hrun]
  rfl

theorem renderT_extends (fs : FS) (n : Str) (data : Ctx) (src C P : Str)
    (secL : List (Str × Str)) (mc : Str) (secs : List (Str × JsVal))
    (hfs : fsLookup fs (stripViewSuffix n) = some src)
    (hparse : parseBlade fs src = ⟨C, some P, secL⟩)
    (hmain : runContent data C = .ok mc)
    (hsecs : renderSections data secL = .ok secs) :
    renderT 2 fs n data = renderT 1 fs P
      (("_content".toList, JsVal.str mc) ::
        ("_sections".toList, JsVal.obj secs) :: data) := by
  rw [show (2 : Nat) = 1 + 1 from rfl, renderT]
  simp only [hfs, hparse, hmain, hsecs, ok_bind]

theorem runContent_yield (ctx : Ctx) (X N D Y : Str) (v : JsVal)
    (hX : X.all plainChar = true) (hN : N.all isAlphaC = true)
    (hD : D.all plainChar = true) (hDq : D.all notQuoteC = true)
    (hY : Y.all plainChar = true)
    (heval : evalJs ctx (yieldAst N D) = .ok v) :
    runContent ctx (X ++ (yieldRepl N D ++ Y)) =
      .ok (X ++ (pushStr v ++ Y)) := by
  have hshape : (X ++ (yieldRepl N D ++ Y) : Str) =
      X ++ ('$' :: '\x7b' :: (yieldExpr N D ++ '\x7d' :: Y)) := by
    rw [yieldRepl_split N D (notQuote_imp_ne_sq D hDq)]
    simp [List.append_assoc]
  rw [hshape]
  exact runContent_tet ctx X (yieldExpr N D) Y (yieldAst N D) v hX hY
    (by unfold yieldExpr; simp)
    (yieldExpr_closeFree N D hN hD)
    (parseExprFull_yieldExpr N D hN hD) heval


/-- C3: layout round trip.  A child `@extends('P')@section('N')S@endsection`
rendered against a parent `X@yield('N', 'D')Y` produces `X ++ S ++ Y` — the
child's section content at the yield point, not the default — and the
section-less child `@extends('P')` produces `X ++ D ++ Y`, the default.
Amended: the literal texts are drawn from the benign character sets, and —
the correction — the section body `S` must render to a truthy (nonempty)
string: the compiled fallback `(data._sections && data._sections['N']) || 'D'`
tests the rendered section by JavaScript truthiness, not by presence, so a
present section whose rendered body is the empty string falls back to the
default (`claim_C3_counterexample`). -/
theorem claim_C3 (fs : FS) (cn cn2 : Str) (data : Ctx) (P N S D X Y : Str)
    (hPne : P ≠ []) (hPq : P.all notQuoteC = true)
    (hNne : N ≠ []) (hN : N.all isAlphaC = true)
    (hSne : S ≠ []) (hS : S.all plainChar = true)
    (htrim : trimS (S.dropWhile isWsC) = S)
    (hD : D.all plainChar = true) (hDq : D.all notQuoteC = true)
    (hX : X.all plainChar = true) (hXt : trimL X = X)
    (hY : Y.all plainChar = true) (hYt : trimR Y = Y)
    (hfsC : fsLookup fs (stripViewSuffix cn) = some (childT P N S))
    (hfsC2 : fsLookup fs (stripViewSuffix cn2) = some (childT2 P))
    (hfsP : fsLookup fs (stripViewSuffix P) = some (parentT X N D Y)) :
    renderT 2 fs cn data = .ok (X ++ (S ++ Y)) ∧
    renderT 2 fs cn2 data = .ok (X ++ (D ++ Y)) := by
  have hMd : dollarFree (secMarker N) = true := by
    unfold dollarFree secMarker
    simp only [List.all_append, Bool.and_eq_true]
    exact ⟨⟨by decide, all_ne_of_alpha N '$' hN (by decide)⟩, by decide⟩
  have hMe : (secMarker N).all escFree = true := by
    unfold secMarker
    simp only [List.all_append, Bool.and_eq_true]
    exact ⟨⟨by decide,
      all_imp _ _ plain_escFree N (all_plain_of_alpha N hN)⟩, by decide⟩
  obtain ⟨_, _, hSd, hSe⟩ := plain_freeness S hS
  constructor
  · have hmainC : runContent data (secMarker N) = .ok (secMarker N) :=
      runContent_text data (secMarker N) hMd hMe
    have hsecsC : renderSections data [(N, S)] = .ok [(N, .str S)] :=
      renderSections_single data N S (runContent_text data S hSd hSe)
    rw [renderT_extends fs cn data (childT P N S) (secMarker N) P [(N, S)]
      (secMarker N) [(N, .str S)] hfsC
      (parseBlade_child fs P N S hPne hPq hNne hN hS htrim) hmainC hsecsC]
    rw [renderT_simple fs P _ (parentT X N D Y) (X ++ (yieldRepl N D ++ Y))
      hfsP (parseBlade_parent fs X N D Y hX hXt hNne hN hD hDq hY hYt)]
    have hget : getField (.obj [(N, JsVal.str S)]) N = .ok (.str S) := by
      unfold getField
      simp
    have heval := evalJs_yieldAst data (secMarker N) [(N, JsVal.str S)] N D
      (.str S) hget
    have htru : truthy (.str S) = true := by
      cases S with
      | nil => exact absurd rfl hSne
      | cons c t => rfl
    rw [htru, if_pos rfl] at heval
    rw [runContent_yield _ X N D Y (.str S) hX hN hD hDq hY heval]
    rfl
  · have hmain2 : runContent data [] = .ok [] := rfl
    have hsecs2 : renderSections data [] = .ok [] := rfl
    rw [renderT_extends fs cn2 data (childT2 P) [] P [] [] []
      hfsC2 (parseBlade_child2 fs P hPne hPq) hmain2 hsecs2]
    rw [renderT_simple fs P _ (parentT X N D Y) (X ++ (yieldRepl N D ++ Y))
      hfsP (parseBlade_parent fs X N D Y hX hXt hNne hN hD hDq hY hYt)]
    have hget : getField (.obj ([] : List (Str × JsVal))) N = .ok .undef := rfl
    have heval := evalJs_yieldAst data [] [] N D .undef hget
    rw [show truthy JsVal.undef = false from rfl, if_neg (by simp)] at heval
    rw [runContent_yield _ X N D Y (.str D) hX hN hD hDq hY heval]
    rfl

/-- The views directory used by the C3 witness. -/
def c3FS : FS :=
  [("c".toList, childT "p".toList "content".toList "SEC".toList),
   ("c2".toList, childT2 "p".toList),
   ("p".toList, parentT "X".toList "content".toList "Dd".toList "Y".toList)]

/-- Witness for C3: the child's section "SEC" lands at the yield point,
and the section-less child receives the default "Dd". -/
theorem claim_C3_witness :
    renderT 2 c3FS "c".toList [] = .ok "XSECY".toList ∧
    renderT 2 c3FS "c2".toList [] = .ok "XDdY".toList := by
  have h := claim_C3 c3FS "c".toList "c2".toList [] "p".toList
    "content".toList "SEC".toList "Dd".toList "X".toList "Y".toList
    (by decide) (by decide) (by decide) (by decide) (by decide) (by decide)
    (by decide) (by decide) (by decide) (by decide) (by decide) (by decide)
    (by decide) rfl rfl rfl
  exact h

/-- Counterexample to the literal C3: the child
`@extends('p')@section('content') @endsection` declares the section —
it is present, and `_sections` records it — yet the render produces the
parent's default "Dd": the whitespace-only body is trimmed to the empty
string, which is falsy, so the `||` fallback discards it.  This refutes
"produces the child's section content (not the default) at the yield point
when the section is present". -/
theorem claim_C3_counterexample :
    renderT 2
        [("c".toList, childT "p".toList "content".toList " ".toList),
         ("p".toList,
          parentT "X".toList "content".toList "Dd".toList "Y".toList)]
        "c".toList [] = .ok "XDdY".toList := by
  rfl

end NodeWire
